import Mathlib

/-!
Verification of the OrchestraTerm task-orchestration engine (`src/engine.rs`,
`src/server.rs`, `src/protocol.rs`).

The Rust data model and operations are embedded shallowly: `BTreeMap` becomes
an association list (kept sorted by insertion, uniqueness of keys is part of
the well-formedness invariant), `usize`/`u64` become `Nat`, `f64` cost
accounting becomes `ℚ` (exact arithmetic idealization of the floating-point
counters), fallible methods return an `Except` result paired with the
post-call state (mirroring `&mut self` methods that may have partially
mutated the receiver before an error).
-/

namespace OrchestraTerm

/-- `TaskStatus` from engine.rs. -/
inductive TaskStatus where
  | pending
  | blocked
  | inProgress
  | done
deriving DecidableEq, Repr

/-- `MemberStatus` from engine.rs. -/
inductive MemberStatus where
  | active
  | terminated
deriving DecidableEq, Repr

/-- `PlanStatus` from engine.rs. -/
inductive PlanStatus where
  | planning
  | approved
  | rejected
deriving DecidableEq, Repr

/-- `RecoveryPolicy` from engine.rs (default `AutoReassign`). -/
inductive RecoveryPolicy where
  | autoReassign
  | manual
deriving DecidableEq, Repr

/-- `TeamDisplayMode` from engine.rs. -/
inductive TeamDisplayMode where
  | inProcess
  | splitPane
  | auto
deriving DecidableEq, Repr

/-- `TeamMessagePriority` from engine.rs (default `Normal`). -/
inductive TeamMessagePriority where
  | low
  | normal
  | high
  | urgent
deriving DecidableEq, Repr

/-- `PaneState` from engine.rs. -/
structure PaneState where
  id : Nat
  title : String
  cwd : Option String
deriving DecidableEq, Repr

/-- `WindowState` from engine.rs. -/
structure WindowState where
  id : Nat
  title : String
  panes : List PaneState
  active_pane : Nat
deriving DecidableEq, Repr

/-- `SessionState` from engine.rs. -/
structure SessionState where
  name : String
  windows : List WindowState
  active_window : Nat
deriving DecidableEq, Repr

/-- `MemberState` from engine.rs; `cost_usd : f64` is idealized as `ℚ`. -/
structure MemberState where
  id : Nat
  name : String
  model : String
  is_lead : Bool
  status : MemberStatus
  terminated_at : Option Nat
  termination_reason : Option String
  require_plan_approval : Bool
  plan_status : PlanStatus
  latest_plan : Option String
  plan_updated_at : Option Nat
  input_tokens : Nat
  output_tokens : Nat
  cost_usd : ℚ
deriving DecidableEq, Repr

/-- `TeamTask` from engine.rs; `cost_usd : f64` is idealized as `ℚ`. -/
structure TeamTask where
  id : Nat
  title : String
  status : TaskStatus
  assignee : Option Nat
  deps : List Nat
  touched_files : List String
  input_tokens : Nat
  output_tokens : Nat
  cost_usd : ℚ
  created_at : Nat
  updated_at : Nat
deriving DecidableEq, Repr

/-- `TeamMessage` from engine.rs. -/
structure TeamMessage where
  id : Nat
  from_member : Option Nat
  to_member : Option Nat
  text : String
  priority : TeamMessagePriority
  created_at : Nat
  read_by : List Nat
deriving DecidableEq, Repr

/-- `AgentTeam` from engine.rs. -/
structure AgentTeam where
  id : String
  mode : TeamDisplayMode
  delegation_only : Bool
  recovery_policy : RecoveryPolicy
  members : List MemberState
  tasks : List TeamTask
  messages : List TeamMessage
  next_member_id : Nat
  next_task_id : Nat
  next_message_id : Nat
deriving DecidableEq, Repr

/-- `EngineState` from engine.rs: the aggregate root.  The two `BTreeMap`s are
modelled as association lists (iteration order is the list order; reachable
states keep them sorted and key-unique because insertion is guarded and
ordered). -/
structure EngineState where
  sessions : List (String × SessionState)
  active_session : Option String
  teams : List (String × AgentTeam)
deriving DecidableEq, Repr

/-- `TeamUsage` from engine.rs. -/
structure TeamUsage where
  input_tokens : Nat
  output_tokens : Nat
  cost_usd : ℚ
  active_tasks : Nat
deriving DecidableEq, Repr

/-! ### Association-list counterparts of the `BTreeMap` operations -/

/-- `BTreeMap::get`: first value stored under key `k`. -/
def mapLookup {α : Type} (k : String) : List (String × α) → Option α
  | [] => none
  | (k', v) :: rest => if k' == k then some v else mapLookup k rest

/-- `BTreeMap::contains_key`. -/
def mapContains {α : Type} (k : String) (l : List (String × α)) : Bool :=
  (mapLookup k l).isSome

/-- `BTreeMap::insert`: ordered insertion, replacing an existing entry. -/
def mapInsert {α : Type} (k : String) (v : α) : List (String × α) → List (String × α)
  | [] => [(k, v)]
  | (k', v') :: rest =>
    if k < k' then (k, v) :: (k', v') :: rest
    else if k == k' then (k, v) :: rest
    else (k', v') :: mapInsert k v rest

/-- Write-back of a mutated value under an existing key (the effect of
mutating through `BTreeMap::get_mut`). -/
def mapSet {α : Type} (k : String) (v : α) (l : List (String × α)) : List (String × α) :=
  l.map (fun p => if p.1 == k then (k, v) else p)

/-- `BTreeMap::remove` (dropping the returned value). -/
def mapRemove {α : Type} (k : String) : List (String × α) → List (String × α)
  | [] => []
  | (k', v') :: rest => if k' == k then rest else (k', v') :: mapRemove k rest

/-- Mutation through `iter_mut().find(pred)`: rewrite the first matching
element only. -/
def updateFirst {α : Type} (p : α → Bool) (f : α → α) : List α → List α
  | [] => []
  | x :: xs => if p x then f x :: xs else x :: updateFirst p f xs

/-! ### Errors

Each `anyhow::bail!`/`anyhow!` site in engine.rs is mapped to one constructor,
so distinct failure modes yield distinct error values. -/

/-- The domain-level errors raised by `EngineState` methods in engine.rs. -/
inductive EngineError where
  | teamExists (team_id : String)
  | unknownTeam (team_id : String)
  | unknownMember (member_id : Nat)
  | unknownTask (task_id : Nat)
  | unknownMessage (message_id : Nat)
  | unknownDependency (dep : Nat)
  | memberNotActive (member_id : Nat)
  | delegationOnlyLead
  | planApprovalRequired (member_id : Nat)
  | taskNotPending (task_id : Nat)
  | fileConflict (task_id : Nat)
  | taskNotInProgress (task_id : Nat)
  | notAssignee (member_id task_id : Nat)
  | missingDep (task_id dep : Nat)
  | invalidTaskIndex
deriving DecidableEq, Repr

/-! ### Pure helpers from engine.rs -/

/-- `s.trim().to_ascii_lowercase()` used by `has_file_conflict`, modelled on
the underlying character list: whitespace is dropped from both ends and every
character is lowercased (`Char.toLower` lowercases exactly the ASCII range,
like `to_ascii_lowercase`). -/
def normPath (s : String) : String :=
  String.mk ((((s.data.dropWhile Char.isWhitespace).reverse.dropWhile
    Char.isWhitespace).reverse).map Char.toLower)

/-- The normalized, empty-filtered touched-file set built by
`has_file_conflict` (as a list; only membership is ever consulted). -/
def normFiles (files : List String) : List String :=
  (files.map normPath).filter (fun p => p ≠ "")

/-- Ids of the `Done` tasks (the `done` set in `refresh_task_blocking`). -/
def doneTaskIds (tasks : List TeamTask) : List Nat :=
  (tasks.filter (fun t => t.status == TaskStatus.done)).map (fun t => t.id)

/-- One iteration of the `refresh_task_blocking` loop body on a single task:
skip `InProgress`/`Done`, fail on a missing dependency, otherwise recompute
`Blocked`/`Pending` and bump `updated_at` when the status changes. -/
def refreshStep (now : Nat) (doneIds existingIds : List Nat) (task : TeamTask) :
    Except EngineError TeamTask :=
  if task.status == TaskStatus.inProgress || task.status == TaskStatus.done then
    Except.ok task
  else
    match task.deps.find? (fun d => !existingIds.contains d) with
    | some d => Except.error (EngineError.missingDep task.id d)
    | none =>
      let isBlocked := task.deps.any (fun d => !doneIds.contains d)
      let ns := if isBlocked then TaskStatus.blocked else TaskStatus.pending
      if task.status == ns then Except.ok task
      else Except.ok { task with status := ns, updated_at := now }

/-- The `refresh_task_blocking` loop over the task vector.  On the first
error the loop stops: earlier tasks keep their updates, the current and later
tasks are returned unchanged (mirroring `&mut` iteration with `bail!`). -/
def refreshTasksAux (now : Nat) (doneIds existingIds : List Nat) :
    List TeamTask → Option EngineError × List TeamTask
  | [] => (none, [])
  | t :: rest =>
    match refreshStep now doneIds existingIds t with
    | Except.error e => (some e, t :: rest)
    | Except.ok t' =>
      let r := refreshTasksAux now doneIds existingIds rest
      (r.1, t' :: r.2)

/-- `EngineState::refresh_task_blocking` (engine.rs:655-684). -/
def refreshTaskBlocking (now : Nat) (team : AgentTeam) : Option EngineError × AgentTeam :=
  let doneIds := doneTaskIds team.tasks
  let existing := team.tasks.map (fun t => t.id)
  let r := refreshTasksAux now doneIds existing team.tasks
  (r.1, { team with tasks := r.2 })

/-- `EngineState::has_file_conflict` (engine.rs:625-653). -/
def hasFileConflict (team : AgentTeam) (candIdx : Nat) : Except EngineError Bool :=
  match team.tasks[candIdx]? with
  | none => Except.error EngineError.invalidTaskIndex
  | some cand =>
    if cand.touched_files.isEmpty then Except.ok false
    else
      let cfs := normFiles cand.touched_files
      if cfs.isEmpty then Except.ok false
      else
        Except.ok <| team.tasks.enum.any fun p =>
          p.1 != candIdx && p.2.status == TaskStatus.inProgress &&
            p.2.touched_files.any (fun path => cfs.contains (normPath path))

/-- `ensure_member_active` (engine.rs:604-609). -/
def ensureMemberActive (m : MemberState) : Except EngineError Unit :=
  if m.status != MemberStatus.active then Except.error (EngineError.memberNotActive m.id)
  else Except.ok ()

/-- `ensure_member_allowed_to_execute` (engine.rs:611-616). -/
def ensureMemberAllowedToExecute (team : AgentTeam) (m : MemberState) : Except EngineError Unit :=
  if team.delegation_only && m.is_lead then Except.error EngineError.delegationOnlyLead
  else Except.ok ()

/-- `ensure_plan_gate` (engine.rs:618-623). -/
def ensurePlanGate (m : MemberState) : Except EngineError Unit :=
  if m.require_plan_approval && m.plan_status != PlanStatus.approved then
    Except.error (EngineError.planApprovalRequired m.id)
  else Except.ok ()

/-! ### Public operations of the store

Every fallible `&mut self` method is modelled as a function producing the
result together with the post-call state; error paths return exactly the
partially mutated state the Rust method leaves behind (almost always the
untouched input, but e.g. `claim_task` refreshes blocking before its task
checks). -/

/-- The single fresh session value built in `Default::default` and
`create_session`. -/
def freshSession (name : String) : SessionState :=
  { name := name
    windows := [{ id := 0, title := "Window 0",
                  panes := [{ id := 0, title := "Pane 0", cwd := none }],
                  active_pane := 0 }]
    active_window := 0 }

/-- `EngineState::default` (engine.rs:39-66). -/
def EngineState.default : EngineState :=
  { sessions := [("default", freshSession "default")]
    active_session := some "default"
    teams := [] }

/-- `EngineState::create_session` (engine.rs:69-91). -/
def createSession (name : String) (s : EngineState) : EngineState :=
  if mapContains name s.sessions then s
  else { s with sessions := mapInsert name (freshSession name) s.sessions,
                active_session := some name }

/-- `EngineState::list_sessions` (engine.rs:93-95). -/
def listSessions (s : EngineState) : List String :=
  s.sessions.map (fun p => p.1)

/-- `EngineState::set_active_session` (engine.rs:97-101). -/
def setActiveSession (name : String) (s : EngineState) : EngineState :=
  if mapContains name s.sessions then { s with active_session := some name } else s

/-- `EngineState::create_team` (engine.rs:123-148). -/
def createTeam (team_id : String) (mode : TeamDisplayMode) (delegation_only : Bool)
    (s : EngineState) : Except EngineError Unit × EngineState :=
  if mapContains team_id s.teams then (Except.error (EngineError.teamExists team_id), s)
  else
    let team : AgentTeam :=
      { id := team_id, mode := mode, delegation_only := delegation_only
        recovery_policy := RecoveryPolicy.autoReassign
        members := [], tasks := [], messages := []
        next_member_id := 0, next_task_id := 0, next_message_id := 0 }
    (Except.ok (), { s with teams := mapInsert team_id team s.teams })

/-- `EngineState::add_member` (engine.rs:150-185). -/
def addMember (team_id mname mmodel : String) (require_plan_approval is_lead : Bool)
    (s : EngineState) : Except EngineError MemberState × EngineState :=
  match mapLookup team_id s.teams with
  | none => (Except.error (EngineError.unknownTeam team_id), s)
  | some team =>
    let member : MemberState :=
      { id := team.next_member_id, name := mname, model := mmodel
        is_lead := is_lead, status := MemberStatus.active
        terminated_at := none, termination_reason := none
        require_plan_approval := require_plan_approval
        plan_status := if require_plan_approval then PlanStatus.planning else PlanStatus.approved
        latest_plan := none, plan_updated_at := none
        input_tokens := 0, output_tokens := 0, cost_usd := 0 }
    let team' := { team with next_member_id := team.next_member_id + 1,
                             members := team.members ++ [member] }
    (Except.ok member, { s with teams := mapSet team_id team' s.teams })

/-- `EngineState::add_task` (engine.rs:187-226). -/
def addTask (now : Nat) (team_id title : String) (deps : List Nat)
    (touched_files : List String) (s : EngineState) :
    Except EngineError TeamTask × EngineState :=
  match mapLookup team_id s.teams with
  | none => (Except.error (EngineError.unknownTeam team_id), s)
  | some team =>
    match deps.find? (fun d => !team.tasks.any (fun t => t.id == d)) with
    | some d => (Except.error (EngineError.unknownDependency d), s)
    | none =>
      let task : TeamTask :=
        { id := team.next_task_id, title := title, status := TaskStatus.pending
          assignee := none, deps := deps, touched_files := touched_files
          input_tokens := 0, output_tokens := 0, cost_usd := 0
          created_at := now, updated_at := now }
      let team1 := { team with next_task_id := team.next_task_id + 1,
                               tasks := team.tasks ++ [task] }
      let r := refreshTaskBlocking now team1
      let s' := { s with teams := mapSet team_id r.2 s.teams }
      match r.1 with
      | some e => (Except.error e, s')
      | none =>
        match r.2.tasks.find? (fun t => t.id == task.id) with
        | some updated => (Except.ok updated, s')
        | none => (Except.ok task, s')

/-- `EngineState::submit_plan` (engine.rs:228-243). -/
def submitPlan (now : Nat) (team_id : String) (member_id : Nat) (plan : String)
    (s : EngineState) : Except EngineError Unit × EngineState :=
  match mapLookup team_id s.teams with
  | none => (Except.error (EngineError.unknownTeam team_id), s)
  | some team =>
    match team.members.find? (fun m => m.id == member_id) with
    | none => (Except.error (EngineError.unknownMember member_id), s)
    | some member =>
      match ensureMemberActive member with
      | Except.error e => (Except.error e, s)
      | Except.ok _ =>
        let members' := updateFirst (fun m => m.id == member_id)
          (fun m => { m with latest_plan := some plan
                             plan_updated_at := some now
                             plan_status := PlanStatus.planning }) team.members
        (Except.ok (), { s with teams := mapSet team_id { team with members := members' } s.teams })

/-- `EngineState::claim_task` (engine.rs:245-277). -/
def claimTask (now : Nat) (team_id : String) (member_id task_id : Nat)
    (s : EngineState) : Except EngineError Unit × EngineState :=
  match mapLookup team_id s.teams with
  | none => (Except.error (EngineError.unknownTeam team_id), s)
  | some team =>
    match team.members.find? (fun m => m.id == member_id) with
    | none => (Except.error (EngineError.unknownMember member_id), s)
    | some member =>
      match ensureMemberActive member with
      | Except.error e => (Except.error e, s)
      | Except.ok _ =>
      match ensureMemberAllowedToExecute team member with
      | Except.error e => (Except.error e, s)
      | Except.ok _ =>
      match ensurePlanGate member with
      | Except.error e => (Except.error e, s)
      | Except.ok _ =>
        let r := refreshTaskBlocking now team
        let s1 := { s with teams := mapSet team_id r.2 s.teams }
        match r.1 with
        | some e => (Except.error e, s1)
        | none =>
          let team1 := r.2
          match team1.tasks.enum.find? (fun p => p.2.id == task_id) with
          | none => (Except.error (EngineError.unknownTask task_id), s1)
          | some (idx, t) =>
            if t.status != TaskStatus.pending then
              (Except.error (EngineError.taskNotPending task_id), s1)
            else
              match hasFileConflict team1 idx with
              | Except.error e => (Except.error e, s1)
              | Except.ok true => (Except.error (EngineError.fileConflict task_id), s1)
              | Except.ok false =>
                let t' := { t with status := TaskStatus.inProgress
                                   assignee := some member_id, updated_at := now }
                let team2 := { team1 with tasks := team1.tasks.set idx t' }
                (Except.ok (), { s with teams := mapSet team_id team2 s.teams })

/-- `EngineState::complete_task` (engine.rs:279-320). -/
def completeTask (now : Nat) (team_id : String) (member_id task_id : Nat)
    (input_tokens output_tokens : Nat) (cost_usd : ℚ) (s : EngineState) :
    Except EngineError Unit × EngineState :=
  match mapLookup team_id s.teams with
  | none => (Except.error (EngineError.unknownTeam team_id), s)
  | some team =>
    match team.members.find? (fun m => m.id == member_id) with
    | none => (Except.error (EngineError.unknownMember member_id), s)
    | some member =>
      match ensureMemberActive member with
      | Except.error e => (Except.error e, s)
      | Except.ok _ =>
      match team.tasks.find? (fun t => t.id == task_id) with
      | none => (Except.error (EngineError.unknownTask task_id), s)
      | some t =>
        if t.status != TaskStatus.inProgress then
          (Except.error (EngineError.taskNotInProgress task_id), s)
        else if t.assignee != some member_id then
          (Except.error (EngineError.notAssignee member_id task_id), s)
        else
          let tasks1 := updateFirst (fun u => u.id == task_id)
            (fun u => { u with status := TaskStatus.done, updated_at := now
                               input_tokens := u.input_tokens + input_tokens
                               output_tokens := u.output_tokens + output_tokens
                               cost_usd := u.cost_usd + max cost_usd 0 }) team.tasks
          let members1 := updateFirst (fun m => m.id == member_id)
            (fun m => { m with input_tokens := m.input_tokens + input_tokens
                               output_tokens := m.output_tokens + output_tokens
                               cost_usd := m.cost_usd + max cost_usd 0 }) team.members
          let team1 := { team with tasks := tasks1, members := members1 }
          let r := refreshTaskBlocking now team1
          let s' := { s with teams := mapSet team_id r.2 s.teams }
          match r.1 with
          | some e => (Except.error e, s')
          | none => (Except.ok (), s')

/-- The `for idx in 0..team.tasks.len()` scan of `auto_claim_next_task`:
starting at `idx` with `fuel` iterations left, claim the first `Pending`
task without a file conflict. -/
def autoClaimScan (now member_id : Nat) (team : AgentTeam) :
    Nat → Nat → Except EngineError (Option Nat × AgentTeam)
  | _, 0 => Except.ok (none, team)
  | idx, fuel + 1 =>
    match team.tasks[idx]? with
    | none => Except.ok (none, team)
    | some t =>
      if t.status != TaskStatus.pending then autoClaimScan now member_id team (idx + 1) fuel
      else
        match hasFileConflict team idx with
        | Except.error e => Except.error e
        | Except.ok true => autoClaimScan now member_id team (idx + 1) fuel
        | Except.ok false =>
          let t' := { t with status := TaskStatus.inProgress
                             assignee := some member_id, updated_at := now }
          Except.ok (some t.id, { team with tasks := team.tasks.set idx t' })

/-- `EngineState::auto_claim_next_task` (engine.rs:322-357). -/
def autoClaimNextTask (now : Nat) (team_id : String) (member_id : Nat)
    (s : EngineState) : Except EngineError (Option Nat) × EngineState :=
  match mapLookup team_id s.teams with
  | none => (Except.error (EngineError.unknownTeam team_id), s)
  | some team =>
    match team.members.find? (fun m => m.id == member_id) with
    | none => (Except.error (EngineError.unknownMember member_id), s)
    | some member =>
      match ensureMemberActive member with
      | Except.error e => (Except.error e, s)
      | Except.ok _ =>
      match ensureMemberAllowedToExecute team member with
      | Except.error e => (Except.error e, s)
      | Except.ok _ =>
      match ensurePlanGate member with
      | Except.error e => (Except.error e, s)
      | Except.ok _ =>
        let r := refreshTaskBlocking now team
        let s1 := { s with teams := mapSet team_id r.2 s.teams }
        match r.1 with
        | some e => (Except.error e, s1)
        | none =>
          match autoClaimScan now member_id r.2 0 r.2.tasks.length with
          | Except.error e => (Except.error e, s1)
          | Except.ok (claimed, team2) =>
            (Except.ok claimed, { s with teams := mapSet team_id team2 s.teams })

/-- `EngineState::set_plan_status` (engine.rs:359-378). -/
def setPlanStatus (now : Nat) (team_id : String) (member_id : Nat) (status : PlanStatus)
    (s : EngineState) : Except EngineError Unit × EngineState :=
  match mapLookup team_id s.teams with
  | none => (Except.error (EngineError.unknownTeam team_id), s)
  | some team =>
    match team.members.find? (fun m => m.id == member_id) with
    | none => (Except.error (EngineError.unknownMember member_id), s)
    | some member =>
      match ensureMemberActive member with
      | Except.error e => (Except.error e, s)
      | Except.ok _ =>
        let members' := updateFirst (fun m => m.id == member_id)
          (fun m => { m with plan_status := status, plan_updated_at := some now }) team.members
        (Except.ok (), { s with teams := mapSet team_id { team with members := members' } s.teams })

/-- `EngineState::set_delegation_only` (engine.rs:380-387). -/
def setDelegationOnly (team_id : String) (delegation_only : Bool) (s : EngineState) :
    Except EngineError Unit × EngineState :=
  match mapLookup team_id s.teams with
  | none => (Except.error (EngineError.unknownTeam team_id), s)
  | some team =>
    let team' := { team with delegation_only := delegation_only }
    (Except.ok (), { s with teams := mapSet team_id team' s.teams })

/-- `EngineState::set_team_mode` (engine.rs:389-396). -/
def setTeamMode (team_id : String) (mode : TeamDisplayMode) (s : EngineState) :
    Except EngineError Unit × EngineState :=
  match mapLookup team_id s.teams with
  | none => (Except.error (EngineError.unknownTeam team_id), s)
  | some team =>
    (Except.ok (), { s with teams := mapSet team_id { team with mode := mode } s.teams })

/-- `EngineState::set_recovery_policy` (engine.rs:398-409). -/
def setRecoveryPolicy (team_id : String) (recovery_policy : RecoveryPolicy)
    (s : EngineState) : Except EngineError Unit × EngineState :=
  match mapLookup team_id s.teams with
  | none => (Except.error (EngineError.unknownTeam team_id), s)
  | some team =>
    let team' := { team with recovery_policy := recovery_policy }
    (Except.ok (), { s with teams := mapSet team_id team' s.teams })

/-- `EngineState::remove_member` (engine.rs:411-439). -/
def removeMember (now : Nat) (team_id : String) (member_id : Nat) (reason : String)
    (s : EngineState) : Except EngineError Unit × EngineState :=
  match mapLookup team_id s.teams with
  | none => (Except.error (EngineError.unknownTeam team_id), s)
  | some team =>
    match team.members.find? (fun m => m.id == member_id) with
    | none => (Except.error (EngineError.unknownMember member_id), s)
    | some _ =>
      let members1 := updateFirst (fun m => m.id == member_id)
        (fun m => { m with status := MemberStatus.terminated
                           terminated_at := some now
                           termination_reason := some reason }) team.members
      let tasks1 := team.tasks.map fun t =>
        if t.assignee == some member_id && t.status != TaskStatus.done then
          { t with assignee := none, updated_at := now
                   status := match team.recovery_policy with
                     | RecoveryPolicy.autoReassign => TaskStatus.pending
                     | RecoveryPolicy.manual => TaskStatus.blocked }
        else t
      let team1 := { team with members := members1, tasks := tasks1 }
      let r := refreshTaskBlocking now team1
      let s' := { s with teams := mapSet team_id r.2 s.teams }
      match r.1 with
      | some e => (Except.error e, s')
      | none => (Except.ok (), s')

/-- `EngineState::restart_member` (engine.rs:441-455). -/
def restartMember (team_id : String) (member_id : Nat) (s : EngineState) :
    Except EngineError Unit × EngineState :=
  match mapLookup team_id s.teams with
  | none => (Except.error (EngineError.unknownTeam team_id), s)
  | some team =>
    match team.members.find? (fun m => m.id == member_id) with
    | none => (Except.error (EngineError.unknownMember member_id), s)
    | some _ =>
      let members1 := updateFirst (fun m => m.id == member_id)
        (fun m => { m with status := MemberStatus.active
                           terminated_at := none
                           termination_reason := none }) team.members
      (Except.ok (), { s with teams := mapSet team_id { team with members := members1 } s.teams })

/-- `EngineState::cleanup_team` (engine.rs:457-462). -/
def cleanupTeam (team_id : String) (s : EngineState) :
    Except EngineError Unit × EngineState :=
  if mapContains team_id s.teams then
    (Except.ok (), { s with teams := mapRemove team_id s.teams })
  else (Except.error (EngineError.unknownTeam team_id), s)

/-- `EngineState::prune_terminated` (engine.rs:464-481). -/
def pruneTerminated (team_id : String) (s : EngineState) :
    Except EngineError Unit × EngineState :=
  match mapLookup team_id s.teams with
  | none => (Except.error (EngineError.unknownTeam team_id), s)
  | some team =>
    let activeIds := (team.members.filter
      (fun m => m.status == MemberStatus.active)).map (fun m => m.id)
    let members1 := team.members.filter (fun m => m.status == MemberStatus.active)
    let messages1 := team.messages.map fun msg =>
      { msg with read_by := msg.read_by.filter (fun mid => activeIds.contains mid) }
    let team' := { team with members := members1, messages := messages1 }
    (Except.ok (), { s with teams := mapSet team_id team' s.teams })

/-- The `if let Some(member_id) = ...` sender/recipient checks of
`post_message`: a present id must resolve to an `Active` member. -/
def checkOptMemberActive (team : AgentTeam) : Option Nat → Except EngineError Unit
  | none => Except.ok ()
  | some mid =>
    match team.members.find? (fun m => m.id == mid) with
    | none => Except.error (EngineError.unknownMember mid)
    | some member => ensureMemberActive member

/-- `EngineState::post_message` (engine.rs:483-515). -/
def postMessage (now : Nat) (team_id : String) (from_member to_member : Option Nat)
    (text : String) (priority : TeamMessagePriority) (s : EngineState) :
    Except EngineError TeamMessage × EngineState :=
  match mapLookup team_id s.teams with
  | none => (Except.error (EngineError.unknownTeam team_id), s)
  | some team =>
    match checkOptMemberActive team from_member with
    | Except.error e => (Except.error e, s)
    | Except.ok _ =>
    match checkOptMemberActive team to_member with
    | Except.error e => (Except.error e, s)
    | Except.ok _ =>
      let msg : TeamMessage :=
        { id := team.next_message_id, from_member := from_member, to_member := to_member
          text := text, priority := priority, created_at := now, read_by := [] }
      let team1 := { team with next_message_id := team.next_message_id + 1,
                               messages := team.messages ++ [msg] }
      (Except.ok msg, { s with teams := mapSet team_id team1 s.teams })

/-- `EngineState::team_messages` (engine.rs:517-553); read-only. -/
def teamMessages (team_id : String) (viewer_member : Option Nat) (unread_only : Bool)
    (s : EngineState) : Except EngineError (List TeamMessage) :=
  match mapLookup team_id s.teams with
  | none => Except.error (EngineError.unknownTeam team_id)
  | some team =>
    match viewer_member with
    | some viewer =>
      if team.members.any (fun m => m.id == viewer) then
        Except.ok <| team.messages.filter fun msg =>
          (msg.to_member == none || msg.to_member == some viewer) &&
            !(unread_only && msg.read_by.contains viewer)
      else Except.error (EngineError.unknownMember viewer)
    | none => Except.ok team.messages

/-- `EngineState::mark_message_read` (engine.rs:555-576). -/
def markMessageRead (team_id : String) (member_id message_id : Nat) (s : EngineState) :
    Except EngineError Unit × EngineState :=
  match mapLookup team_id s.teams with
  | none => (Except.error (EngineError.unknownTeam team_id), s)
  | some team =>
    match team.members.find? (fun m => m.id == member_id) with
    | none => (Except.error (EngineError.unknownMember member_id), s)
    | some member =>
      match ensureMemberActive member with
      | Except.error e => (Except.error e, s)
      | Except.ok _ =>
      match team.messages.find? (fun m => m.id == message_id) with
      | none => (Except.error (EngineError.unknownMessage message_id), s)
      | some _ =>
        let messages1 := updateFirst (fun m => m.id == message_id)
          (fun m => if m.read_by.contains member_id then m
                    else { m with read_by := m.read_by ++ [member_id] }) team.messages
        (Except.ok (), { s with teams := mapSet team_id { team with messages := messages1 } s.teams })

/-- `EngineState::team_usage` (engine.rs:578-595); read-only. -/
def teamUsage (team_id : String) (s : EngineState) : Except EngineError TeamUsage :=
  match mapLookup team_id s.teams with
  | none => Except.error (EngineError.unknownTeam team_id)
  | some team =>
    Except.ok
      { input_tokens := (team.tasks.map (fun t => t.input_tokens)).sum
        output_tokens := (team.tasks.map (fun t => t.output_tokens)).sum
        cost_usd := (team.tasks.map (fun t => t.cost_usd)).sum
        active_tasks :=
          (team.tasks.filter (fun t => t.status == TaskStatus.inProgress)).length }

/-! ### The store's public operation alphabet and reachability -/

/-- One public operation of the store, with its arguments (the alphabet the
server dispatches over). -/
inductive Op where
  | createSession (name : String)
  | setActiveSession (name : String)
  | listSessions
  | createTeam (team_id : String) (mode : TeamDisplayMode) (delegation_only : Bool)
  | addMember (team_id mname mmodel : String) (require_plan_approval is_lead : Bool)
  | addTask (team_id title : String) (deps : List Nat) (touched_files : List String)
  | submitPlan (team_id : String) (member_id : Nat) (plan : String)
  | claimTask (team_id : String) (member_id task_id : Nat)
  | completeTask (team_id : String) (member_id task_id input_tokens output_tokens : Nat)
      (cost_usd : ℚ)
  | autoClaimNextTask (team_id : String) (member_id : Nat)
  | setPlanStatus (team_id : String) (member_id : Nat) (status : PlanStatus)
  | setDelegationOnly (team_id : String) (delegation_only : Bool)
  | setTeamMode (team_id : String) (mode : TeamDisplayMode)
  | setRecoveryPolicy (team_id : String) (recovery_policy : RecoveryPolicy)
  | removeMember (team_id : String) (member_id : Nat) (reason : String)
  | restartMember (team_id : String) (member_id : Nat)
  | cleanupTeam (team_id : String)
  | pruneTerminated (team_id : String)
  | postMessage (team_id : String) (from_member to_member : Option Nat) (text : String)
      (priority : TeamMessagePriority)
  | teamMessages (team_id : String) (viewer_member : Option Nat) (unread_only : Bool)
  | markMessageRead (team_id : String) (member_id message_id : Nat)
  | teamUsage (team_id : String)
deriving Repr

/-- Result values returned by the operations (the `Ok(..)` payloads). -/
inductive RetVal where
  | unit
  | sessionNames (names : List String)
  | member (m : MemberState)
  | task (t : TeamTask)
  | claimed (t : Option Nat)
  | message (m : TeamMessage)
  | messageList (l : List TeamMessage)
  | usage (u : TeamUsage)
deriving DecidableEq, Repr

/-- Dispatch one operation against the store: the result plus the post-call
state (for error results, the state the `&mut self` method leaves behind).
`now` is the value returned by `now_unix_secs` during the call. -/
def runOp (now : Nat) (op : Op) (s : EngineState) : Except EngineError RetVal × EngineState :=
  match op with
  | Op.createSession name => (Except.ok RetVal.unit, createSession name s)
  | Op.setActiveSession name => (Except.ok RetVal.unit, setActiveSession name s)
  | Op.listSessions => (Except.ok (RetVal.sessionNames (listSessions s)), s)
  | Op.createTeam tid mode d =>
    let r := createTeam tid mode d s
    (r.1.map (fun _ => RetVal.unit), r.2)
  | Op.addMember tid mname mmodel rpa lead =>
    let r := addMember tid mname mmodel rpa lead s
    (r.1.map RetVal.member, r.2)
  | Op.addTask tid title deps files =>
    let r := addTask now tid title deps files s
    (r.1.map RetVal.task, r.2)
  | Op.submitPlan tid mid plan =>
    let r := submitPlan now tid mid plan s
    (r.1.map (fun _ => RetVal.unit), r.2)
  | Op.claimTask tid mid task_id =>
    let r := claimTask now tid mid task_id s
    (r.1.map (fun _ => RetVal.unit), r.2)
  | Op.completeTask tid mid task_id inTok outTok cost =>
    let r := completeTask now tid mid task_id inTok outTok cost s
    (r.1.map (fun _ => RetVal.unit), r.2)
  | Op.autoClaimNextTask tid mid =>
    let r := autoClaimNextTask now tid mid s
    (r.1.map RetVal.claimed, r.2)
  | Op.setPlanStatus tid mid status =>
    let r := setPlanStatus now tid mid status s
    (r.1.map (fun _ => RetVal.unit), r.2)
  | Op.setDelegationOnly tid d =>
    let r := setDelegationOnly tid d s
    (r.1.map (fun _ => RetVal.unit), r.2)
  | Op.setTeamMode tid mode =>
    let r := setTeamMode tid mode s
    (r.1.map (fun _ => RetVal.unit), r.2)
  | Op.setRecoveryPolicy tid pol =>
    let r := setRecoveryPolicy tid pol s
    (r.1.map (fun _ => RetVal.unit), r.2)
  | Op.removeMember tid mid reason =>
    let r := removeMember now tid mid reason s
    (r.1.map (fun _ => RetVal.unit), r.2)
  | Op.restartMember tid mid =>
    let r := restartMember tid mid s
    (r.1.map (fun _ => RetVal.unit), r.2)
  | Op.cleanupTeam tid =>
    let r := cleanupTeam tid s
    (r.1.map (fun _ => RetVal.unit), r.2)
  | Op.pruneTerminated tid =>
    let r := pruneTerminated tid s
    (r.1.map (fun _ => RetVal.unit), r.2)
  | Op.postMessage tid fromM toM text prio =>
    let r := postMessage now tid fromM toM text prio s
    (r.1.map RetVal.message, r.2)
  | Op.teamMessages tid viewer unread =>
    ((teamMessages tid viewer unread s).map RetVal.messageList, s)
  | Op.markMessageRead tid mid msg_id =>
    let r := markMessageRead tid mid msg_id s
    (r.1.map (fun _ => RetVal.unit), r.2)
  | Op.teamUsage tid => ((teamUsage tid s).map RetVal.usage, s)

/-- The state after one operation (whatever its result). -/
def applyOp (now : Nat) (op : Op) (s : EngineState) : EngineState :=
  (runOp now op s).2

/-- States of the engine reachable from the default state through the store's
public operations (time values are arbitrary at each step). -/
inductive Reachable : EngineState → Prop where
  | base : Reachable EngineState.default
  | step {s : EngineState} (now : Nat) (op : Op) : Reachable s → Reachable (applyOp now op s)

/-! ### Well-formedness of a reachable state -/

/-- Tasks appear in strictly increasing id order (they are only ever pushed
with the next fresh id). -/
def sortedByIdB : List TeamTask → Bool
  | [] => true
  | [_] => true
  | a :: b :: r => decide (a.id < b.id) && sortedByIdB (b :: r)

/-- Every task id is below the team's task counter. -/
def idsBoundedB (team : AgentTeam) : Bool :=
  team.tasks.all (fun t => decide (t.id < team.next_task_id))

/-- Every declared dependency refers to a task of the same team. -/
def depsClosedB (team : AgentTeam) : Bool :=
  team.tasks.all (fun t => t.deps.all (fun d => team.tasks.any (fun u => u.id == d)))

/-- One task agrees with the dependency-derived status (unless it is
`InProgress` or `Done`). -/
def taskConsistentB (doneIds : List Nat) (t : TeamTask) : Bool :=
  t.status == TaskStatus.inProgress || t.status == TaskStatus.done ||
    t.status ==
      (if t.deps.any (fun d => !doneIds.contains d) then TaskStatus.blocked
       else TaskStatus.pending)

/-- Every task that is not `InProgress`/`Done` is `Blocked` iff some
dependency is not `Done`, else `Pending`. -/
def statusConsistentB (team : AgentTeam) : Bool :=
  team.tasks.all (taskConsistentB (doneTaskIds team.tasks))

/-- No element of `as` occurs in `bs`. -/
def filesDisjointB (as bs : List String) : Bool :=
  as.all (fun f => !bs.contains f)

/-- No two distinct positions hold `InProgress` tasks with intersecting
normalized touched-file sets. -/
def noConflictL (tasks : List TeamTask) : Bool :=
  (List.range tasks.length).all fun i =>
    (List.range tasks.length).all fun j =>
      i == j ||
        (match tasks[i]?, tasks[j]? with
         | some a, some b =>
           a.status != TaskStatus.inProgress || b.status != TaskStatus.inProgress ||
             filesDisjointB (normFiles a.touched_files) (normFiles b.touched_files)
         | _, _ => true)

/-- No two distinct `InProgress` tasks have intersecting normalized
touched-file sets. -/
def noConflictB (team : AgentTeam) : Bool := noConflictL team.tasks

/-- The per-team invariant maintained by every operation. -/
def wfTeamB (team : AgentTeam) : Bool :=
  sortedByIdB team.tasks && idsBoundedB team && depsClosedB team &&
    statusConsistentB team && noConflictB team

/-- Keys of an association list are pairwise distinct. -/
def keysUniqueB {α : Type} : List (String × α) → Bool
  | [] => true
  | (k, _) :: rest => !(rest.any (fun p => p.1 == k)) && keysUniqueB rest

/-- The aggregate invariant: team keys unique, every team well-formed. -/
def stateWF (s : EngineState) : Bool :=
  keysUniqueB s.teams && s.teams.all (fun p => wfTeamB p.2)

/-! ### Lemmas about the association-list map operations -/

theorem list_any_map {α β : Type} (f : α → β) (l : List α) (p : β → Bool) :
    (l.map f).any p = l.any (fun a => p (f a)) := by
  induction l with
  | nil => rfl
  | cons x xs ih => simp [List.any_cons, ih]

theorem list_all_map {α β : Type} (f : α → β) (l : List α) (p : β → Bool) :
    (l.map f).all p = l.all (fun a => p (f a)) := by
  induction l with
  | nil => rfl
  | cons x xs ih => simp [List.all_cons, ih]

theorem mapLookup_mem {α : Type} {k : String} {v : α} {l : List (String × α)}
    (h : mapLookup k l = some v) : (k, v) ∈ l := by
  induction l with
  | nil => simp [mapLookup] at h
  | cons p rest ih =>
    obtain ⟨k', v'⟩ := p
    by_cases hk : k' == k
    · simp [mapLookup, hk] at h
      subst h
      simp at hk
      subst hk
      exact List.mem_cons_self _ _
    · simp [mapLookup, hk] at h
      exact List.mem_cons_of_mem _ (ih h)

theorem mapSet_mem {α : Type} {k : String} {v : α} {l : List (String × α)}
    {p : String × α} (h : p ∈ mapSet k v l) : p = (k, v) ∨ p ∈ l := by
  unfold mapSet at h
  obtain ⟨q, hq, hpq⟩ := List.mem_map.mp h
  by_cases hk : q.1 == k
  · simp [hk] at hpq
    exact Or.inl hpq.symm
  · simp [hk] at hpq
    exact Or.inr (hpq ▸ hq)

theorem mapSet_keys {α : Type} (k : String) (v : α) (l : List (String × α)) :
    (mapSet k v l).map Prod.fst = l.map Prod.fst := by
  unfold mapSet
  rw [List.map_map]
  apply List.map_congr_left
  intro p _
  cases hk : (p.1 == k) with
  | true =>
    have hpk : p.1 = k := by simpa using hk
    simp [hpk]
  | false =>
    have hpk : ¬ p.1 = k := by simpa using hk
    simp [hpk]

theorem keysUniqueB_eq_of_keys_eq {α β : Type} {l₁ : List (String × α)}
    {l₂ : List (String × β)} (h : l₁.map Prod.fst = l₂.map Prod.fst) :
    keysUniqueB l₁ = keysUniqueB l₂ := by
  induction l₁ generalizing l₂ with
  | nil =>
    cases l₂ with
    | nil => rfl
    | cons q r => simp at h
  | cons p r₁ ih =>
    cases l₂ with
    | nil => simp at h
    | cons q r₂ =>
      simp at h
      obtain ⟨hpq, hr⟩ := h
      obtain ⟨k₁, v₁⟩ := p
      obtain ⟨k₂, v₂⟩ := q
      simp at hpq
      subst hpq
      show (!(r₁.any (fun p => p.1 == k₁)) && keysUniqueB r₁) =
        (!(r₂.any (fun p => p.1 == k₁)) && keysUniqueB r₂)
      have hany : r₁.any (fun p => p.1 == k₁) = r₂.any (fun p => p.1 == k₁) := by
        have h₁ : ∀ (γ : Type) (r : List (String × γ)),
            r.any (fun p => p.1 == k₁) = (r.map Prod.fst).any (fun x => x == k₁) := by
          intro γ r
          exact (list_any_map Prod.fst r (fun x => x == k₁)).symm
        rw [h₁, h₁, hr]
      rw [hany, ih hr]

theorem keysUniqueB_mapSet {α : Type} (k : String) (v : α) (l : List (String × α)) :
    keysUniqueB (mapSet k v l) = keysUniqueB l :=
  keysUniqueB_eq_of_keys_eq (mapSet_keys k v l)

theorem mapLookup_mapSet_self {α : Type} {k : String} {w : α} (v : α)
    {l : List (String × α)} (h : mapLookup k l = some w) :
    mapLookup k (mapSet k v l) = some v := by
  induction l with
  | nil => simp [mapLookup] at h
  | cons p rest ih =>
    unfold mapLookup at h
    unfold mapSet
    simp only [List.map_cons]
    by_cases hk : (p.1 == k) = true
    · rw [if_pos hk]
      unfold mapLookup
      simp
    · rw [if_neg hk]
      rw [if_neg hk] at h
      unfold mapLookup
      rw [if_neg hk]
      exact ih h

theorem mapSet_eq_self_of_unique_entry {α : Type} {k : String} {v : α}
    {l : List (String × α)} (h : ∀ p ∈ l, p.1 = k → p = (k, v)) :
    mapSet k v l = l := by
  unfold mapSet
  conv_rhs => rw [← List.map_id l]
  apply List.map_congr_left
  intro p hp
  by_cases hk : p.1 == k
  · have := h p hp (by simpa using hk)
    simp [hk, this]
  · simp [hk]

theorem lookup_entry_unique {α : Type} {k : String} {v : α} {l : List (String × α)}
    (hu : keysUniqueB l = true) (h : mapLookup k l = some v) :
    ∀ p ∈ l, p.1 = k → p = (k, v) := by
  induction l with
  | nil => intro p hp; simp at hp
  | cons q rest ih =>
    obtain ⟨k', v'⟩ := q
    unfold keysUniqueB at hu
    simp only [Bool.and_eq_true, Bool.not_eq_true'] at hu
    obtain ⟨hnot, hurest⟩ := hu
    unfold mapLookup at h
    intro p hp hpk
    by_cases hk : k' == k
    · rw [if_pos hk] at h
      have hkk : k' = k := by simpa using hk
      subst hkk
      injection h with h
      subst h
      rcases List.mem_cons.mp hp with hhead | htail
      · exact hhead
      · exfalso
        have : rest.any (fun p => p.1 == k') = true :=
          List.any_eq_true.mpr ⟨p, htail, by simpa using hpk⟩
        rw [hnot] at this
        exact Bool.false_ne_true this
    · rw [if_neg (by simpa using hk)] at h
      rcases List.mem_cons.mp hp with hhead | htail
      · exfalso
        apply hk
        rw [hhead] at hpk
        simpa using hpk
      · exact ih hurest h p htail hpk

theorem mapSet_self {α : Type} {k : String} {v : α} {l : List (String × α)}
    (hu : keysUniqueB l = true) (h : mapLookup k l = some v) :
    mapSet k v l = l :=
  mapSet_eq_self_of_unique_entry (lookup_entry_unique hu h)

/-! ### Lemmas about `refresh_task_blocking` -/

/-- The total effect of one refresh-loop iteration when no dependency is
missing. -/
def stepOkFn (now : Nat) (doneIds : List Nat) (task : TeamTask) : TeamTask :=
  if task.status == TaskStatus.inProgress || task.status == TaskStatus.done then task
  else
    let isBlocked := task.deps.any (fun d => !doneIds.contains d)
    let ns := if isBlocked then TaskStatus.blocked else TaskStatus.pending
    if task.status == ns then task else { task with status := ns, updated_at := now }

theorem refreshStep_ok (now : Nat) (doneIds existingIds : List Nat) (task : TeamTask)
    (h : ∀ d ∈ task.deps, existingIds.contains d = true) :
    refreshStep now doneIds existingIds task = Except.ok (stepOkFn now doneIds task) := by
  unfold refreshStep stepOkFn
  by_cases hst : (task.status == TaskStatus.inProgress || task.status == TaskStatus.done) = true
  · rw [if_pos hst, if_pos hst]
  · rw [if_neg hst, if_neg hst]
    have hfind : task.deps.find? (fun d => !existingIds.contains d) = none := by
      apply List.find?_eq_none.mpr
      intro d hd
      simpa using h d hd
    rw [hfind]
    dsimp only
    by_cases hsame :
        (task.status ==
          (if task.deps.any (fun d => !doneIds.contains d) then TaskStatus.blocked
           else TaskStatus.pending)) = true
    · rw [if_pos hsame, if_pos hsame]
    · rw [if_neg hsame, if_neg hsame]

theorem refreshTasksAux_ok (now : Nat) (doneIds eIds : List Nat) (tasks : List TeamTask)
    (h : ∀ t ∈ tasks, ∀ d ∈ t.deps, eIds.contains d = true) :
    refreshTasksAux now doneIds eIds tasks = (none, tasks.map (stepOkFn now doneIds)) := by
  induction tasks with
  | nil => rfl
  | cons t rest ih =>
    unfold refreshTasksAux
    rw [refreshStep_ok now doneIds eIds t (h t (List.mem_cons_self t rest))]
    rw [ih (fun u hu => h u (List.mem_cons_of_mem t hu))]
    rfl

/-- `depsClosedB` in elementwise form. -/
theorem depsClosed_iff {team : AgentTeam} :
    depsClosedB team = true ↔
      ∀ t ∈ team.tasks, ∀ d ∈ t.deps, ∃ u ∈ team.tasks, u.id = d := by
  unfold depsClosedB
  simp [List.all_eq_true, List.any_eq_true]

theorem refreshTaskBlocking_ok (now : Nat) {team : AgentTeam}
    (h : depsClosedB team = true) :
    refreshTaskBlocking now team =
      (none, { team with tasks := team.tasks.map (stepOkFn now (doneTaskIds team.tasks)) }) := by
  have hcl : ∀ t ∈ team.tasks, ∀ d ∈ t.deps,
      (team.tasks.map (fun t => t.id)).contains d = true := by
    intro t ht d hd
    obtain ⟨u, hu, hud⟩ := depsClosed_iff.mp h t ht d hd
    have : d ∈ team.tasks.map (fun t => t.id) := List.mem_map.mpr ⟨u, hu, hud⟩
    simpa using this
  unfold refreshTaskBlocking
  simp only [refreshTasksAux_ok now (doneTaskIds team.tasks)
    (team.tasks.map (fun t => t.id)) team.tasks hcl]

/-- `stepOkFn` either keeps the task or only rewrites `status`/`updated_at`. -/
theorem stepOkFn_cases (now : Nat) (dIds : List Nat) (t : TeamTask) :
    stepOkFn now dIds t = t ∨
      (t.status ≠ TaskStatus.inProgress ∧ t.status ≠ TaskStatus.done ∧
        stepOkFn now dIds t =
          { t with
              status := if t.deps.any (fun d => !dIds.contains d) then TaskStatus.blocked
                else TaskStatus.pending
              updated_at := now }) := by
  unfold stepOkFn
  by_cases hst : (t.status == TaskStatus.inProgress || t.status == TaskStatus.done) = true
  · rw [if_pos hst]
    exact Or.inl rfl
  · rw [if_neg hst]
    simp only [Bool.or_eq_true, beq_iff_eq] at hst
    push_neg at hst
    by_cases hsame :
        (t.status ==
          (if t.deps.any (fun d => !dIds.contains d) then TaskStatus.blocked
           else TaskStatus.pending)) = true
    · rw [if_pos hsame]
      exact Or.inl rfl
    · rw [if_neg hsame]
      exact Or.inr ⟨hst.1, hst.2, rfl⟩

theorem stepOkFn_id (now : Nat) (dIds : List Nat) (t : TeamTask) :
    (stepOkFn now dIds t).id = t.id := by
  rcases stepOkFn_cases now dIds t with h | ⟨_, _, h⟩ <;> rw [h]

theorem stepOkFn_deps (now : Nat) (dIds : List Nat) (t : TeamTask) :
    (stepOkFn now dIds t).deps = t.deps := by
  rcases stepOkFn_cases now dIds t with h | ⟨_, _, h⟩ <;> rw [h]

theorem stepOkFn_touched_files (now : Nat) (dIds : List Nat) (t : TeamTask) :
    (stepOkFn now dIds t).touched_files = t.touched_files := by
  rcases stepOkFn_cases now dIds t with h | ⟨_, _, h⟩ <;> rw [h]

theorem stepOkFn_of_done (now : Nat) (dIds : List Nat) {t : TeamTask}
    (h : t.status = TaskStatus.done) : stepOkFn now dIds t = t := by
  unfold stepOkFn
  simp [h]

theorem stepOkFn_of_inP (now : Nat) (dIds : List Nat) {t : TeamTask}
    (h : t.status = TaskStatus.inProgress) : stepOkFn now dIds t = t := by
  unfold stepOkFn
  simp [h]

theorem stepOkFn_status (now : Nat) (dIds : List Nat) {t : TeamTask}
    (h1 : t.status ≠ TaskStatus.inProgress) (h2 : t.status ≠ TaskStatus.done) :
    (stepOkFn now dIds t).status =
      (if t.deps.any (fun d => !dIds.contains d) then TaskStatus.blocked
       else TaskStatus.pending) := by
  unfold stepOkFn
  have hst : (t.status == TaskStatus.inProgress || t.status == TaskStatus.done) = false := by
    simp [h1, h2]
  rw [hst]
  simp only [Bool.false_eq_true, if_false]
  by_cases hsame :
      (t.status ==
        (if t.deps.any (fun d => !dIds.contains d) then TaskStatus.blocked
         else TaskStatus.pending)) = true
  · rw [if_pos hsame]
    simpa using hsame
  · rw [if_neg hsame]

theorem stepOkFn_status_inP_iff (now : Nat) (dIds : List Nat) (t : TeamTask) :
    (stepOkFn now dIds t).status = TaskStatus.inProgress ↔
      t.status = TaskStatus.inProgress := by
  by_cases h1 : t.status = TaskStatus.inProgress
  · rw [stepOkFn_of_inP now dIds h1]
  by_cases h2 : t.status = TaskStatus.done
  · rw [stepOkFn_of_done now dIds h2]
  rw [stepOkFn_status now dIds h1 h2]
  constructor
  · intro hc
    split at hc <;> exact absurd hc (by decide)
  · intro hc
    exact absurd hc h1

theorem stepOkFn_status_done_iff (now : Nat) (dIds : List Nat) (t : TeamTask) :
    (stepOkFn now dIds t).status = TaskStatus.done ↔ t.status = TaskStatus.done := by
  by_cases h1 : t.status = TaskStatus.inProgress
  · rw [stepOkFn_of_inP now dIds h1]
  by_cases h2 : t.status = TaskStatus.done
  · rw [stepOkFn_of_done now dIds h2]
  rw [stepOkFn_status now dIds h1 h2]
  constructor
  · intro hc
    split at hc <;> exact absurd hc (by decide)
  · intro hc
    exact absurd hc h2

theorem stepOkFn_eq_self_of_consistent (now : Nat) {dIds : List Nat} {t : TeamTask}
    (h : taskConsistentB dIds t = true) : stepOkFn now dIds t = t := by
  by_cases h1 : t.status = TaskStatus.inProgress
  · exact stepOkFn_of_inP now dIds h1
  by_cases h2 : t.status = TaskStatus.done
  · exact stepOkFn_of_done now dIds h2
  have hc : t.status =
      (if t.deps.any (fun d => !dIds.contains d) then TaskStatus.blocked
       else TaskStatus.pending) := by
    unfold taskConsistentB at h
    simp only [Bool.or_eq_true, beq_iff_eq] at h
    tauto
  unfold stepOkFn
  rw [if_neg (by simp [h1, h2])]
  rw [if_pos (by simpa using hc)]

/-! ### Generic list lemmas -/

theorem list_all_congr {α : Type} {p q : α → Bool} (l : List α)
    (h : ∀ x ∈ l, p x = q x) : l.all p = l.all q := by
  induction l with
  | nil => rfl
  | cons x xs ih =>
    simp only [List.all_cons]
    rw [h x (List.mem_cons_self x xs), ih (fun y hy => h y (List.mem_cons_of_mem x hy))]

theorem list_any_congr {α : Type} {p q : α → Bool} (l : List α)
    (h : ∀ x ∈ l, p x = q x) : l.any p = l.any q := by
  induction l with
  | nil => rfl
  | cons x xs ih =>
    simp only [List.any_cons]
    rw [h x (List.mem_cons_self x xs), ih (fun y hy => h y (List.mem_cons_of_mem x hy))]

theorem list_set_id {α : Type} {l : List α} {i : Nat} {a : α}
    (h : l[i]? = some a) : l.set i a = l := by
  induction l generalizing i with
  | nil => simp at h
  | cons x xs ih =>
    cases i with
    | zero =>
      simp at h
      simp [List.set, h]
    | succ j =>
      simp at h
      simp [List.set, ih h]

/-- Ids (and hence order/boundedness facts) are preserved by the refresh
pass. -/
theorem refresh_ids (now : Nat) (d : List Nat) (tasks : List TeamTask) :
    (tasks.map (stepOkFn now d)).map (fun t => t.id) = tasks.map (fun t => t.id) := by
  rw [List.map_map]
  apply List.map_congr_left
  intro t _
  exact stepOkFn_id now d t

theorem sortedByIdB_eq_of_ids_eq : ∀ {l₁ l₂ : List TeamTask},
    l₁.map (fun t => t.id) = l₂.map (fun t => t.id) → sortedByIdB l₁ = sortedByIdB l₂ := by
  intro l₁
  induction l₁ with
  | nil =>
    intro l₂ h
    cases l₂ with
    | nil => rfl
    | cons b r₂ => simp at h
  | cons a r ih =>
    intro l₂ h
    cases l₂ with
    | nil => simp at h
    | cons a₂ r₂ =>
      simp only [List.map_cons, List.cons.injEq] at h
      obtain ⟨hid, hr⟩ := h
      cases r with
      | nil =>
        cases r₂ with
        | nil => rfl
        | cons b₂ rr₂ => simp at hr
      | cons b rr =>
        cases r₂ with
        | nil => simp at hr
        | cons b₂ rr₂ =>
          have hb : b.id = b₂.id := by
            simp only [List.map_cons, List.cons.injEq] at hr
            exact hr.1
          show (decide (a.id < b.id) && sortedByIdB (b :: rr)) =
            (decide (a₂.id < b₂.id) && sortedByIdB (b₂ :: rr₂))
          rw [hid, hb, ih hr]

theorem doneTaskIds_map_stepOkFn (now : Nat) (d : List Nat) (tasks : List TeamTask) :
    doneTaskIds (tasks.map (stepOkFn now d)) = doneTaskIds tasks := by
  induction tasks with
  | nil => rfl
  | cons t rest ih =>
    unfold doneTaskIds at ih ⊢
    simp only [List.map_cons, List.filter_cons]
    by_cases hd : t.status = TaskStatus.done
    · rw [stepOkFn_of_done now d hd]
      rw [if_pos (by simp [hd]), if_pos (by simp [hd])]
      simp only [List.map_cons]
      rw [ih]
    · have h1 : ((stepOkFn now d t).status == TaskStatus.done) = false := by
        rw [Bool.eq_false_iff]
        intro hc
        exact hd ((stepOkFn_status_done_iff now d t).mp (by simpa using hc))
      have h2 : (t.status == TaskStatus.done) = false := by
        rw [Bool.eq_false_iff]
        intro hc
        exact hd (by simpa using hc)
      rw [h1, h2]
      simpa using ih

theorem taskConsistentB_stepOkFn (now : Nat) (d : List Nat) (t : TeamTask) :
    taskConsistentB d (stepOkFn now d t) = true := by
  by_cases h1 : t.status = TaskStatus.inProgress
  · rw [stepOkFn_of_inP now d h1]
    unfold taskConsistentB
    simp [h1]
  by_cases h2 : t.status = TaskStatus.done
  · rw [stepOkFn_of_done now d h2]
    unfold taskConsistentB
    simp [h2]
  unfold taskConsistentB
  rw [stepOkFn_status now d h1 h2, stepOkFn_deps now d t]
  simp

/-- After the refresh pass the dependency/status invariant holds. -/
theorem statusConsistent_refresh (now : Nat) (team : AgentTeam) :
    statusConsistentB
      { team with tasks := team.tasks.map (stepOkFn now (doneTaskIds team.tasks)) } = true := by
  unfold statusConsistentB
  show (team.tasks.map (stepOkFn now (doneTaskIds team.tasks))).all
    (taskConsistentB (doneTaskIds
      (team.tasks.map (stepOkFn now (doneTaskIds team.tasks))))) = true
  rw [doneTaskIds_map_stepOkFn, list_all_map]
  apply List.all_eq_true.mpr
  intro t _
  exact taskConsistentB_stepOkFn now (doneTaskIds team.tasks) t

/-- On an already consistent task list the refresh pass is the identity. -/
theorem map_stepOkFn_eq_self {team : AgentTeam} (now : Nat)
    (h : statusConsistentB team = true) :
    team.tasks.map (stepOkFn now (doneTaskIds team.tasks)) = team.tasks := by
  have := List.all_eq_true.mp h
  conv_rhs => rw [← List.map_id team.tasks]
  apply List.map_congr_left
  intro t ht
  exact stepOkFn_eq_self_of_consistent now (this t ht)

/-- On a well-formed team, `refresh_task_blocking` succeeds and changes
nothing. -/
theorem refreshTaskBlocking_id {team : AgentTeam} (now : Nat)
    (hdeps : depsClosedB team = true) (hcons : statusConsistentB team = true) :
    refreshTaskBlocking now team = (none, team) := by
  rw [refreshTaskBlocking_ok now hdeps, map_stepOkFn_eq_self now hcons]

/-! ### File-conflict characterizations -/

theorem filesDisjointB_iff {as bs : List String} :
    filesDisjointB as bs = true ↔ ∀ x ∈ as, x ∉ bs := by
  unfold filesDisjointB
  simp [List.all_eq_true]

theorem filesDisjointB_symm {as bs : List String} (h : filesDisjointB as bs = true) :
    filesDisjointB bs as = true := by
  rw [filesDisjointB_iff] at h ⊢
  intro x hx hmem
  exact h x hmem hx

theorem empty_not_mem_normFiles (files : List String) : "" ∉ normFiles files := by
  unfold normFiles
  intro h
  have := (List.mem_filter.mp h).2
  simp at this

theorem mem_normFiles {files : List String} {x : String} :
    x ∈ normFiles files ↔ (∃ p ∈ files, normPath p = x) ∧ x ≠ "" := by
  unfold normFiles
  rw [List.mem_filter, List.mem_map]
  simp

theorem any_contains_norm_eq_false_iff {files cfs : List String}
    (hne : ("" : String) ∉ cfs) :
    files.any (fun path => cfs.contains (normPath path)) = false ↔
      filesDisjointB (normFiles files) cfs = true := by
  rw [List.any_eq_false, filesDisjointB_iff]
  constructor
  · intro h x hx hmem
    obtain ⟨⟨p, hp, hpx⟩, hxne⟩ := mem_normFiles.mp hx
    apply h p hp
    rw [hpx]
    simpa using hmem
  · intro h p hp hc
    have hmem : normPath p ∈ cfs := by simpa using hc
    by_cases hemp : normPath p = ""
    · rw [hemp] at hmem
      exact hne hmem
    · exact h (normPath p) (mem_normFiles.mpr ⟨⟨p, hp, rfl⟩, hemp⟩) hmem

theorem hasFileConflict_ok {team : AgentTeam} {idx : Nat} {t : TeamTask}
    (h : team.tasks[idx]? = some t) :
    hasFileConflict team idx = Except.ok
      (team.tasks.enum.any fun p =>
        p.1 != idx && p.2.status == TaskStatus.inProgress &&
          p.2.touched_files.any
            (fun path => (normFiles t.touched_files).contains (normPath path))) := by
  unfold hasFileConflict
  rw [h]
  dsimp only
  by_cases h1 : t.touched_files.isEmpty = true
  · rw [if_pos h1]
    have hf : t.touched_files = [] := by simpa using h1
    have hany : (team.tasks.enum.any fun p =>
        p.1 != idx && p.2.status == TaskStatus.inProgress &&
          p.2.touched_files.any
            (fun path => (normFiles t.touched_files).contains (normPath path))) = false := by
      apply List.any_eq_false.mpr
      intro p _
      simp [hf, normFiles]
    rw [hany]
  · rw [if_neg h1]
    by_cases h2 : (normFiles t.touched_files).isEmpty = true
    · rw [if_pos h2]
      have hcfs : normFiles t.touched_files = [] := by simpa using h2
      have hany : (team.tasks.enum.any fun p =>
          p.1 != idx && p.2.status == TaskStatus.inProgress &&
            p.2.touched_files.any
              (fun path => (normFiles t.touched_files).contains (normPath path))) = false := by
        apply List.any_eq_false.mpr
        intro p _
        simp [hcfs]
      rw [hany]
    · rw [if_neg h2]

/-- Semantic reading of a negative file-conflict check. -/
theorem hasFileConflict_false_iff {team : AgentTeam} {idx : Nat} {t : TeamTask}
    (h : team.tasks[idx]? = some t) :
    hasFileConflict team idx = Except.ok false ↔
      ∀ (j : Nat) (b : TeamTask), j ≠ idx → team.tasks[j]? = some b →
        b.status = TaskStatus.inProgress →
        filesDisjointB (normFiles t.touched_files) (normFiles b.touched_files) = true := by
  rw [hasFileConflict_ok h]
  constructor
  · intro hc j b hj hb hsb
    have hc2 : (team.tasks.enum.any fun p =>
        p.1 != idx && p.2.status == TaskStatus.inProgress &&
          p.2.touched_files.any
            (fun path => (normFiles t.touched_files).contains (normPath path))) = false := by
      simpa using hc
    have hany := List.any_eq_false.mp hc2 (j, b)
      (List.mem_enum_iff_getElem?.mpr (by simpa using hb))
    simp only [Bool.and_eq_true, not_and, Bool.not_eq_true] at hany
    have : b.touched_files.any
        (fun path => (normFiles t.touched_files).contains (normPath path)) = false := by
      by_cases hca : (b.touched_files.any
          (fun path => (normFiles t.touched_files).contains (normPath path))) = true
      · exfalso
        have h1 : ((j, b).1 != idx) = true := by simpa using hj
        have h2 : ((j, b).2.status == TaskStatus.inProgress) = true := by simpa using hsb
        have := hany ⟨h1, h2⟩
        rw [hca] at this
        exact Bool.noConfusion this
      · simpa using hca
    exact filesDisjointB_symm
      ((any_contains_norm_eq_false_iff (empty_not_mem_normFiles _)).mp this)
  · intro hc
    congr 1
    apply List.any_eq_false.mpr
    intro p hp
    rcases p with ⟨j, b⟩
    have hb : team.tasks[j]? = some b := by
      simpa using List.mem_enum_iff_getElem?.mp hp
    simp only [Bool.and_eq_true, not_and, Bool.not_eq_true]
    intro hcond
    have hj : j ≠ idx := by simpa using hcond.1
    have hsb : b.status = TaskStatus.inProgress := by simpa using hcond.2
    exact (any_contains_norm_eq_false_iff (empty_not_mem_normFiles _)).mpr
      (filesDisjointB_symm (hc j b hj hb hsb))

/-- Index-pair reading of the no-conflict invariant. -/
theorem noConflictL_iff {tasks : List TeamTask} :
    noConflictL tasks = true ↔
      ∀ (i j : Nat) (a b : TeamTask), i ≠ j → tasks[i]? = some a → tasks[j]? = some b →
        a.status = TaskStatus.inProgress → b.status = TaskStatus.inProgress →
        filesDisjointB (normFiles a.touched_files) (normFiles b.touched_files) = true := by
  unfold noConflictL
  simp only [List.all_eq_true, List.mem_range]
  constructor
  · intro h i j a b hij ha hb hsa hsb
    have hi : i < tasks.length := (List.getElem?_eq_some.mp ha).1
    have hj : j < tasks.length := (List.getElem?_eq_some.mp hb).1
    have hb' := h i hi j hj
    rw [ha, hb] at hb'
    simpa [hsa, hsb, hij] using hb'
  · intro h i hi j hj
    by_cases hij : i = j
    · simp [hij]
    · have hijb : (i == j) = false := by simpa using hij
      rw [hijb]
      simp only [Bool.false_or]
      cases ha : tasks[i]? with
      | none => rfl
      | some a =>
        cases hb : tasks[j]? with
        | none => rfl
        | some b =>
          by_cases hsa : a.status = TaskStatus.inProgress
          · by_cases hsb : b.status = TaskStatus.inProgress
            · simpa [hsa, hsb] using h i j a b hij ha hb hsa hsb
            · simp [hsb]
          · simp [hsa]

/-- Replacing tasks by ones that are pointwise equal-or-not-in-progress
preserves the no-conflict invariant. -/
theorem noConflictL_mono {l l' : List TeamTask}
    (h : ∀ i : Nat, l'[i]? = l[i]? ∨
      (∀ a : TeamTask, l'[i]? = some a → a.status ≠ TaskStatus.inProgress))
    (hnc : noConflictL l = true) : noConflictL l' = true := by
  rw [noConflictL_iff] at hnc ⊢
  intro i j a b hij ha hb hsa hsb
  rcases h i with hi | hi
  · rcases h j with hj | hj
    · exact hnc i j a b hij (hi ▸ ha) (hj ▸ hb) hsa hsb
    · exact absurd hsb (hj b hb)
  · exact absurd hsa (hi a ha)

/-- Claiming a conflict-free pending task preserves the no-conflict
invariant. -/
theorem noConflictL_set_claim {tasks : List TeamTask} {idx : Nat} {t t' : TeamTask}
    (h : tasks[idx]? = some t)
    (hfiles : t'.touched_files = t.touched_files)
    (hdisj : ∀ (j : Nat) (b : TeamTask), j ≠ idx → tasks[j]? = some b →
      b.status = TaskStatus.inProgress →
      filesDisjointB (normFiles t.touched_files) (normFiles b.touched_files) = true)
    (hnc : noConflictL tasks = true) : noConflictL (tasks.set idx t') = true := by
  rw [noConflictL_iff] at hnc ⊢
  intro i j a b hij ha hb hsa hsb
  have hlen : idx < tasks.length := (List.getElem?_eq_some.mp h).1
  rw [List.getElem?_set] at ha hb
  by_cases hi : idx = i
  · subst hi
    rw [if_pos rfl, if_pos hlen] at ha
    injection ha with ha
    subst ha
    rw [if_neg (by omega)] at hb
    rw [hfiles]
    exact hdisj j b (by omega) hb hsb
  · rw [if_neg hi] at ha
    by_cases hj : idx = j
    · subst hj
      rw [if_pos rfl, if_pos hlen] at hb
      injection hb with hb
      subst hb
      rw [hfiles]
      exact filesDisjointB_symm (hdisj i a (by omega) ha hsa)
    · rw [if_neg hj] at hb
      exact hnc i j a b hij ha hb hsa hsb

/-! ### Task-list surgery lemmas -/

theorem map_set_eq_of {β : Type} {tasks : List TeamTask} {idx : Nat} {t t' : TeamTask}
    (f : TeamTask → β) (h : tasks[idx]? = some t) (hf : f t' = f t) :
    (tasks.set idx t').map f = tasks.map f := by
  rw [List.map_set, hf]
  apply list_set_id
  rw [List.getElem?_map, h]
  rfl

theorem doneTaskIds_set {tasks : List TeamTask} {idx : Nat} {t t' : TeamTask}
    (h : tasks[idx]? = some t)
    (hst : (t'.status == TaskStatus.done) = (t.status == TaskStatus.done))
    (hid : t'.id = t.id) :
    doneTaskIds (tasks.set idx t') = doneTaskIds tasks := by
  induction tasks generalizing idx with
  | nil => simp at h
  | cons x xs ih =>
    cases idx with
    | zero =>
      simp at h
      subst h
      unfold doneTaskIds
      show ((t' :: xs).filter _).map _ = _
      rw [List.filter_cons, List.filter_cons, hst]
      by_cases hd : (x.status == TaskStatus.done) = true
      · rw [if_pos hd, if_pos hd]
        simp [hid]
      · rw [if_neg hd, if_neg hd]
    | succ n =>
      simp at h
      unfold doneTaskIds
      show ((x :: xs.set n t').filter _).map _ = _
      rw [List.filter_cons, List.filter_cons]
      have htail := ih h
      unfold doneTaskIds at htail
      by_cases hd : (x.status == TaskStatus.done) = true
      · rw [if_pos hd, if_pos hd]
        simp only [List.map_cons]
        rw [htail]
      · rw [if_neg hd, if_neg hd]
        exact htail

theorem statusConsistentB_set_claim {team : AgentTeam} {idx : Nat} {t t' : TeamTask}
    (h : team.tasks[idx]? = some t)
    (hcons : statusConsistentB team = true)
    (ht : t.status ≠ TaskStatus.done) (ht' : t'.status = TaskStatus.inProgress)
    (hid : t'.id = t.id) :
    statusConsistentB { team with tasks := team.tasks.set idx t' } = true := by
  unfold statusConsistentB at hcons ⊢
  dsimp only
  have hdone : doneTaskIds (team.tasks.set idx t') = doneTaskIds team.tasks := by
    apply doneTaskIds_set h _ hid
    have h1 : (t'.status == TaskStatus.done) = false := by simp [ht']
    have h2 : (t.status == TaskStatus.done) = false := by simp [ht]
    rw [h1, h2]
  rw [hdone]
  apply List.all_eq_true.mpr
  intro u hu
  rcases List.mem_or_eq_of_mem_set hu with hmem | heq
  · exact List.all_eq_true.mp hcons u hmem
  · subst heq
    unfold taskConsistentB
    simp [ht']

theorem ids_of_keys {l₁ l₂ : List TeamTask}
    (h : l₁.map (fun u => (u.id, u.deps)) = l₂.map (fun u => (u.id, u.deps))) :
    l₁.map (fun u => u.id) = l₂.map (fun u => u.id) := by
  have := congrArg (List.map Prod.fst) h
  rw [List.map_map, List.map_map] at this
  exact this

theorem mem_map_transfer {α β : Type} {f : α → β} {l₁ l₂ : List α} {x : α}
    (h : l₁.map f = l₂.map f) (hx : x ∈ l₁) : ∃ y ∈ l₂, f y = f x := by
  have : f x ∈ l₂.map f := h ▸ List.mem_map_of_mem f hx
  obtain ⟨y, hy, hyx⟩ := List.mem_map.mp this
  exact ⟨y, hy, hyx⟩

theorem depsClosedB_of_keys {team team' : AgentTeam}
    (h : team'.tasks.map (fun u => (u.id, u.deps)) = team.tasks.map (fun u => (u.id, u.deps)))
    (hd : depsClosedB team = true) : depsClosedB team' = true := by
  rw [depsClosed_iff] at hd ⊢
  intro t ht d hdep
  obtain ⟨u, hu, huk⟩ := mem_map_transfer h ht
  simp only [Prod.mk.injEq] at huk
  obtain ⟨w, hw, hwid⟩ := hd u hu d (by rw [huk.2]; exact hdep)
  obtain ⟨w', hw', hw'k⟩ := mem_map_transfer h.symm hw
  simp only [Prod.mk.injEq] at hw'k
  exact ⟨w', hw', by rw [hw'k.1, hwid]⟩

theorem idsBounded_conv (tk : List TeamTask) (N : Nat) :
    tk.all (fun t => decide (t.id < N)) =
      (tk.map (fun t => t.id)).all (fun i => decide (i < N)) := by
  rw [list_all_map]

theorem idsBoundedB_of_ids {team team' : AgentTeam}
    (hn : team'.next_task_id = team.next_task_id)
    (h : team'.tasks.map (fun u => u.id) = team.tasks.map (fun u => u.id))
    (hb : idsBoundedB team = true) : idsBoundedB team' = true := by
  unfold idsBoundedB at hb ⊢
  rw [idsBounded_conv, hn, h, ← idsBounded_conv]
  exact hb

/-- Sortedness by id gives the pairwise order relation. -/
theorem sortedByIdB_pairwise {l : List TeamTask} (h : sortedByIdB l = true) :
    l.Pairwise (fun a b => a.id < b.id) := by
  induction l with
  | nil => exact List.Pairwise.nil
  | cons x xs ih =>
    cases xs with
    | nil => simp
    | cons y ys =>
      have h' : (decide (x.id < y.id) && sortedByIdB (y :: ys)) = true := h
      simp only [Bool.and_eq_true, decide_eq_true_eq] at h'
      obtain ⟨hxy, hrest⟩ := h'
      have hp := ih hrest
      rw [List.pairwise_cons]
      refine ⟨?_, hp⟩
      intro b hb
      rcases List.mem_cons.mp hb with hby | hbys
      · rw [hby]
        exact hxy
      · have := (List.pairwise_cons.mp hp).1 b hbys
        omega

/-- Distinct positions in an id-sorted task list hold distinct ids. -/
theorem sorted_ids_distinct {l : List TeamTask} (h : sortedByIdB l = true)
    {i j : Nat} {a b : TeamTask} (hij : i ≠ j) (ha : l[i]? = some a)
    (hb : l[j]? = some b) : a.id ≠ b.id := by
  have hp := List.pairwise_iff_getElem.mp (sortedByIdB_pairwise h)
  obtain ⟨hi, hai⟩ := List.getElem?_eq_some.mp ha
  obtain ⟨hj, hbj⟩ := List.getElem?_eq_some.mp hb
  rcases Nat.lt_or_ge i j with hlt | hge
  · have := hp i j hi hj hlt
    rw [hai, hbj] at this
    omega
  · have hlt : j < i := by omega
    have := hp j i hj hi hlt
    rw [hai, hbj] at this
    omega

theorem sortedByIdB_append {l : List TeamTask} {t : TeamTask}
    (hs : sortedByIdB l = true) (hlt : ∀ u ∈ l, u.id < t.id) :
    sortedByIdB (l ++ [t]) = true := by
  induction l with
  | nil => rfl
  | cons x xs ih =>
    cases xs with
    | nil =>
      show (decide (x.id < t.id) && sortedByIdB [t]) = true
      have h1 : x.id < t.id := hlt x (List.mem_cons_self x [])
      have h2 : sortedByIdB [t] = true := rfl
      simp [h1, h2]
    | cons y ys =>
      have h' : (decide (x.id < y.id) && sortedByIdB (y :: ys)) = true := hs
      simp only [Bool.and_eq_true, decide_eq_true_eq] at h'
      show (decide (x.id < y.id) && sortedByIdB ((y :: ys) ++ [t])) = true
      rw [ih h'.2 (fun u hu => hlt u (List.mem_cons_of_mem x hu))]
      simp [h'.1]

theorem noConflictL_map_stepOkFn (now : Nat) (d : List Nat) {l : List TeamTask}
    (h : noConflictL l = true) : noConflictL (l.map (stepOkFn now d)) = true := by
  apply noConflictL_mono _ h
  intro i
  cases hi : l[i]? with
  | none =>
    left
    rw [List.getElem?_map, hi]
    rfl
  | some a =>
    by_cases hip : a.status = TaskStatus.inProgress
    · left
      rw [List.getElem?_map, hi]
      simp [stepOkFn_of_inP now d hip]
    · right
      intro b hb
      rw [List.getElem?_map, hi] at hb
      simp only [Option.map_some'] at hb
      injection hb with hb
      subst hb
      intro hc
      exact hip ((stepOkFn_status_inP_iff now d a).mp hc)

theorem noConflictL_append_not_inP {l : List TeamTask} {t : TeamTask}
    (ht : t.status ≠ TaskStatus.inProgress) (h : noConflictL l = true) :
    noConflictL (l ++ [t]) = true := by
  apply noConflictL_mono _ h
  intro i
  rw [List.getElem?_append]
  by_cases hi : i < l.length
  · left
    rw [if_pos hi]
  · rw [if_neg hi]
    right
    intro a ha
    cases hn : i - l.length with
    | zero =>
      rw [hn] at ha
      simp at ha
      rw [← ha]
      exact ht
    | succ m =>
      rw [hn] at ha
      simp at ha

/-! ### Well-formedness plumbing -/

theorem wfTeamB_iff {team : AgentTeam} :
    wfTeamB team = true ↔
      sortedByIdB team.tasks = true ∧ idsBoundedB team = true ∧ depsClosedB team = true ∧
        statusConsistentB team = true ∧ noConflictB team = true := by
  unfold wfTeamB
  simp [Bool.and_eq_true, and_assoc]

theorem stateWF_iff {s : EngineState} :
    stateWF s = true ↔
      keysUniqueB s.teams = true ∧ ∀ p ∈ s.teams, wfTeamB p.2 = true := by
  unfold stateWF
  simp [List.all_eq_true]

theorem wf_of_lookup {s : EngineState} {tid : String} {team : AgentTeam}
    (h : stateWF s = true) (hl : mapLookup tid s.teams = some team) :
    wfTeamB team = true :=
  (stateWF_iff.mp h).2 (tid, team) (mapLookup_mem hl)

theorem stateWF_mapSet {s : EngineState} {tid : String} {team' : AgentTeam}
    (sess : List (String × SessionState)) (act : Option String)
    (h : stateWF s = true) (hw : wfTeamB team' = true) :
    stateWF { sessions := sess, active_session := act
              teams := mapSet tid team' s.teams } = true := by
  rw [stateWF_iff] at h ⊢
  refine ⟨?_, ?_⟩
  · show keysUniqueB (mapSet tid team' s.teams) = true
    rw [keysUniqueB_mapSet]
    exact h.1
  · intro p hp
    rcases mapSet_mem hp with he | hmem
    · rw [he]
      exact hw
    · exact h.2 p hmem

theorem wfTeamB_same_tasks (team : AgentTeam) {team' : AgentTeam} (hT : team'.tasks = team.tasks)
    (hN : team'.next_task_id = team.next_task_id) (h : wfTeamB team = true) :
    wfTeamB team' = true := by
  rw [wfTeamB_iff] at h ⊢
  obtain ⟨h1, h2, h3, h4, h5⟩ := h
  refine ⟨?_, ?_, ?_, ?_, ?_⟩
  · rw [hT]
    exact h1
  · unfold idsBoundedB at h2 ⊢
    rw [hT, hN]
    exact h2
  · unfold depsClosedB at h3 ⊢
    rw [hT]
    exact h3
  · unfold statusConsistentB at h4 ⊢
    rw [hT]
    exact h4
  · unfold noConflictB at h5 ⊢
    rw [hT]
    exact h5

theorem refresh_keys (now : Nat) (d : List Nat) (tasks : List TeamTask) :
    (tasks.map (stepOkFn now d)).map (fun u => (u.id, u.deps)) =
      tasks.map (fun u => (u.id, u.deps)) := by
  rw [List.map_map]
  apply List.map_congr_left
  intro t _
  show ((stepOkFn now d t).id, (stepOkFn now d t).deps) = (t.id, t.deps)
  rw [stepOkFn_id, stepOkFn_deps]

/-- The refresh pass keeps a team well-formed (given everything except status
consistency, which it re-establishes). -/
theorem wfTeamB_after_refresh (now : Nat) {team : AgentTeam}
    (hs : sortedByIdB team.tasks = true) (hb : idsBoundedB team = true)
    (hd : depsClosedB team = true) (hn : noConflictB team = true) :
    wfTeamB
      { team with tasks := team.tasks.map (stepOkFn now (doneTaskIds team.tasks)) } = true := by
  rw [wfTeamB_iff]
  refine ⟨?_, ?_, ?_, ?_, ?_⟩
  · show sortedByIdB (team.tasks.map (stepOkFn now (doneTaskIds team.tasks))) = true
    rw [sortedByIdB_eq_of_ids_eq (refresh_ids now (doneTaskIds team.tasks) team.tasks)]
    exact hs
  · exact @idsBoundedB_of_ids team
      { team with tasks := team.tasks.map (stepOkFn now (doneTaskIds team.tasks)) }
      rfl (refresh_ids now (doneTaskIds team.tasks) team.tasks) hb
  · apply depsClosedB_of_keys _ hd
    exact refresh_keys now (doneTaskIds team.tasks) team.tasks
  · exact statusConsistent_refresh now team
  · show noConflictL (team.tasks.map (stepOkFn now (doneTaskIds team.tasks))) = true
    exact noConflictL_map_stepOkFn now (doneTaskIds team.tasks) hn

/-- The task rewrite performed by a successful claim. -/
def claimedTask (member_id now : Nat) (t : TeamTask) : TeamTask :=
  { t with status := TaskStatus.inProgress, assignee := some member_id, updated_at := now }

/-- A successful claim (`Pending` task, negative conflict check) keeps the
team well-formed. -/
theorem wfTeamB_set_claim {team : AgentTeam} {idx : Nat} {t : TeamTask}
    (member_id now : Nat) (h : team.tasks[idx]? = some t)
    (hw : wfTeamB team = true) (ht : t.status = TaskStatus.pending)
    (hcf : hasFileConflict team idx = Except.ok false) :
    wfTeamB
      { team with tasks := team.tasks.set idx (claimedTask member_id now t) } = true := by
  obtain ⟨h1, h2, h3, h4, h5⟩ := wfTeamB_iff.mp hw
  rw [wfTeamB_iff]
  refine ⟨?_, ?_, ?_, ?_, ?_⟩
  · show sortedByIdB (team.tasks.set idx (claimedTask member_id now t)) = true
    rw [sortedByIdB_eq_of_ids_eq
      (@map_set_eq_of Nat team.tasks idx t (claimedTask member_id now t)
        (fun u => u.id) h rfl)]
    exact h1
  · exact @idsBoundedB_of_ids team
      { team with tasks := team.tasks.set idx (claimedTask member_id now t) }
      rfl (@map_set_eq_of Nat team.tasks idx t (claimedTask member_id now t)
        (fun u => u.id) h rfl) h2
  · apply depsClosedB_of_keys _ h3
    exact @map_set_eq_of (Nat × List Nat) team.tasks idx t (claimedTask member_id now t)
      (fun u => (u.id, u.deps)) h rfl
  · apply @statusConsistentB_set_claim team idx t (claimedTask member_id now t) h h4 _ rfl rfl
    rw [ht]
    intro hc
    exact TaskStatus.noConfusion hc
  · show noConflictL (team.tasks.set idx (claimedTask member_id now t)) = true
    apply @noConflictL_set_claim team.tasks idx t (claimedTask member_id now t) h rfl _ h5
    exact (hasFileConflict_false_iff h).mp hcf

/-! ### `mapInsert` / `mapRemove` uniqueness -/

theorem mapContains_false_iff {α : Type} {k : String} {l : List (String × α)} :
    mapContains k l = false ↔ ∀ p ∈ l, (p.1 == k) = false := by
  induction l with
  | nil => simp [mapContains, mapLookup]
  | cons q rest ih =>
    unfold mapContains mapLookup
    by_cases hk : (q.1 == k) = true
    · constructor
      · intro h
        rw [if_pos hk] at h
        simp at h
      · intro h
        exact absurd (h q (List.mem_cons_self q rest)) (by simp [hk])
    · rw [if_neg hk]
      unfold mapContains at ih
      rw [ih]
      constructor
      · intro h p hp
        rcases List.mem_cons.mp hp with he | hm
        · rw [he]
          simpa using hk
        · exact h p hm
      · intro h p hp
        exact h p (List.mem_cons_of_mem q hp)

theorem mapInsert_mem {α : Type} {k : String} {v : α} {l : List (String × α)}
    {p : String × α} (h : p ∈ mapInsert k v l) : p = (k, v) ∨ p ∈ l := by
  induction l with
  | nil => simpa [mapInsert] using h
  | cons q rest ih =>
    unfold mapInsert at h
    by_cases h1 : k < q.1
    · rw [if_pos h1] at h
      rcases List.mem_cons.mp h with he | hm
      · exact Or.inl he
      · exact Or.inr hm
    · rw [if_neg h1] at h
      by_cases h2 : (k == q.1) = true
      · rw [if_pos h2] at h
        rcases List.mem_cons.mp h with he | hm
        · exact Or.inl he
        · exact Or.inr (List.mem_cons_of_mem q hm)
      · rw [if_neg h2] at h
        rcases List.mem_cons.mp h with he | hm
        · exact Or.inr (he ▸ List.mem_cons_self q rest)
        · rcases ih hm with he | hmm
          · exact Or.inl he
          · exact Or.inr (List.mem_cons_of_mem q hmm)

theorem any_false_of_subset {α : Type} {l l' : List α} {q : α → Bool}
    (hsub : ∀ p ∈ l', p ∈ l) (h : l.any q = false) : l'.any q = false := by
  apply List.any_eq_false.mpr
  intro x hx
  exact List.any_eq_false.mp h x (hsub x hx)

theorem keysUniqueB_mapInsert {α : Type} {k : String} (v : α) {l : List (String × α)}
    (hnc : mapContains k l = false) (hu : keysUniqueB l = true) :
    keysUniqueB (mapInsert k v l) = true := by
  induction l with
  | nil => rfl
  | cons q rest ih =>
    have hq : (q.1 == k) = false :=
      mapContains_false_iff.mp hnc q (List.mem_cons_self q rest)
    have hrest : mapContains k rest = false := by
      rw [mapContains_false_iff]
      intro p hp
      exact mapContains_false_iff.mp hnc p (List.mem_cons_of_mem q hp)
    unfold keysUniqueB at hu
    rcases q with ⟨k', v'⟩
    simp only [Bool.and_eq_true, Bool.not_eq_true'] at hu
    obtain ⟨hnot, hurest⟩ := hu
    unfold mapInsert
    by_cases h1 : k < k'
    · rw [if_pos h1]
      show (!(((k', v') :: rest).any (fun p => p.1 == k)) &&
        keysUniqueB ((k', v') :: rest)) = true
      have hany : ((k', v') :: rest).any (fun p => p.1 == k) = false := by
        apply List.any_eq_false.mpr
        intro p hp
        simp [mapContains_false_iff.mp hnc p hp]
      rw [hany]
      show (!false && (!(rest.any (fun p => p.1 == k')) && keysUniqueB rest)) = true
      simp [hnot, hurest]
    · rw [if_neg h1]
      by_cases h2 : (k == k') = true
      · exfalso
        have : (k' == k) = true := by
          have := (beq_iff_eq.mp h2).symm
          simpa using this
        rw [this] at hq
        exact Bool.noConfusion hq
      · rw [if_neg h2]
        show (!((mapInsert k v rest).any (fun p => p.1 == k')) &&
          keysUniqueB (mapInsert k v rest)) = true
        have hany : (mapInsert k v rest).any (fun p => p.1 == k') = false := by
          apply List.any_eq_false.mpr
          intro p hp
          rcases mapInsert_mem hp with he | hm
          · rw [he]
            simpa using fun hc => h2 (by simp [hc])
          · exact List.any_eq_false.mp hnot p hm
        rw [hany]
        simp [ih hrest hurest]

theorem mapRemove_mem {α : Type} {k : String} {l : List (String × α)}
    {p : String × α} (h : p ∈ mapRemove k l) : p ∈ l := by
  induction l with
  | nil => simp [mapRemove] at h
  | cons q rest ih =>
    unfold mapRemove at h
    by_cases hk : (q.1 == k) = true
    · rw [if_pos hk] at h
      exact List.mem_cons_of_mem q h
    · rw [if_neg hk] at h
      rcases List.mem_cons.mp h with he | hm
      · exact he ▸ List.mem_cons_self q rest
      · exact List.mem_cons_of_mem q (ih hm)

theorem keysUniqueB_mapRemove {α : Type} {k : String} {l : List (String × α)}
    (hu : keysUniqueB l = true) : keysUniqueB (mapRemove k l) = true := by
  induction l with
  | nil => rfl
  | cons q rest ih =>
    rcases q with ⟨k', v'⟩
    unfold keysUniqueB at hu
    simp only [Bool.and_eq_true, Bool.not_eq_true'] at hu
    obtain ⟨hnot, hurest⟩ := hu
    unfold mapRemove
    by_cases hk : (k' == k) = true
    · rw [if_pos hk]
      exact hurest
    · rw [if_neg hk]
      show (!((mapRemove k rest).any (fun p => p.1 == k')) &&
        keysUniqueB (mapRemove k rest)) = true
      have hany : (mapRemove k rest).any (fun p => p.1 == k') = false :=
        any_false_of_subset (fun p hp => mapRemove_mem hp) hnot
      rw [hany]
      simp [ih hurest]

/-! ### `updateFirst` and scan characterizations -/

theorem updateFirst_map_eq {α β : Type} (p : α → Bool) (g : α → α) (F : α → β)
    (hF : ∀ x, F (g x) = F x) (l : List α) :
    (updateFirst p g l).map F = l.map F := by
  induction l with
  | nil => rfl
  | cons x xs ih =>
    unfold updateFirst
    by_cases hp : p x = true
    · rw [if_pos hp]
      simp only [List.map_cons, hF]
    · rw [if_neg hp]
      simp only [List.map_cons, ih]

theorem updateFirst_getElem? {α : Type} (p : α → Bool) (g : α → α) (l : List α)
    (i : Nat) :
    (updateFirst p g l)[i]? = l[i]? ∨
      ∃ x, l[i]? = some x ∧ p x = true ∧ (updateFirst p g l)[i]? = some (g x) := by
  induction l generalizing i with
  | nil => exact Or.inl rfl
  | cons x xs ih =>
    unfold updateFirst
    by_cases hp : p x = true
    · rw [if_pos hp]
      cases i with
      | zero => exact Or.inr ⟨x, by simp, hp, by simp⟩
      | succ n =>
        left
        simp
    · rw [if_neg hp]
      cases i with
      | zero =>
        left
        simp
      | succ n =>
        rcases ih n with h | ⟨y, hy, hpy, hgy⟩
        · left
          simpa using h
        · right
          exact ⟨y, by simpa using hy, hpy, by simpa using hgy⟩

theorem updateFirst_mem {α : Type} {p : α → Bool} {g : α → α} {l : List α} {y : α}
    (h : y ∈ updateFirst p g l) : y ∈ l ∨ ∃ x ∈ l, p x = true ∧ y = g x := by
  induction l with
  | nil => simp [updateFirst] at h
  | cons x xs ih =>
    unfold updateFirst at h
    by_cases hp : p x = true
    · rw [if_pos hp] at h
      rcases List.mem_cons.mp h with he | hm
      · exact Or.inr ⟨x, List.mem_cons_self x xs, hp, he⟩
      · exact Or.inl (List.mem_cons_of_mem x hm)
    · rw [if_neg hp] at h
      rcases List.mem_cons.mp h with he | hm
      · exact Or.inl (he ▸ List.mem_cons_self x xs)
      · rcases ih hm with hy | ⟨z, hz, hpz, hyz⟩
        · exact Or.inl (List.mem_cons_of_mem x hy)
        · exact Or.inr ⟨z, List.mem_cons_of_mem x hz, hpz, hyz⟩

/-- Full characterization of the `auto_claim_next_task` scan: either nothing
at or after `idx` qualifies and the team is untouched, or the first
qualifying position is claimed. -/
theorem autoClaimScan_spec (now member_id : Nat) (team : AgentTeam) :
    ∀ fuel idx, team.tasks.length ≤ idx + fuel →
    (autoClaimScan now member_id team idx fuel = Except.ok (none, team) ∧
      ∀ (j : Nat) (t : TeamTask), idx ≤ j → team.tasks[j]? = some t →
        ¬(t.status = TaskStatus.pending ∧ hasFileConflict team j = Except.ok false)) ∨
    (∃ (j : Nat) (t : TeamTask), idx ≤ j ∧ team.tasks[j]? = some t ∧
      t.status = TaskStatus.pending ∧ hasFileConflict team j = Except.ok false ∧
      (∀ (j' : Nat) (t' : TeamTask), idx ≤ j' → j' < j → team.tasks[j']? = some t' →
        ¬(t'.status = TaskStatus.pending ∧ hasFileConflict team j' = Except.ok false)) ∧
      autoClaimScan now member_id team idx fuel =
        Except.ok (some t.id,
          { team with tasks := team.tasks.set j (claimedTask member_id now t) })) := by
  intro fuel
  induction fuel with
  | zero =>
    intro idx hlen
    left
    refine ⟨rfl, ?_⟩
    intro j t hj ht
    have := (List.getElem?_eq_some.mp ht).1
    omega
  | succ fuel ih =>
    intro idx hlen
    cases ht : team.tasks[idx]? with
    | none =>
      left
      have hidx : team.tasks.length ≤ idx := by
        by_contra hc
        push_neg at hc
        rw [List.getElem?_eq_getElem hc] at ht
        exact Option.noConfusion ht
      constructor
      · conv_lhs => unfold autoClaimScan
        rw [ht]
      · intro j t hj htj
        have := (List.getElem?_eq_some.mp htj).1
        omega
    | some t =>
      by_cases hp : (t.status != TaskStatus.pending) = true
      · have hrec := ih (idx + 1) (by omega)
        have heq : autoClaimScan now member_id team idx (fuel + 1) =
            autoClaimScan now member_id team (idx + 1) fuel := by
          conv_lhs => unfold autoClaimScan
          rw [ht]
          dsimp only
          rw [if_pos hp]
        rcases hrec with ⟨hok, hnone⟩ | ⟨j, u, hj, hu, hupend, hucf, hmin, hclaim⟩
        · left
          refine ⟨heq ▸ hok, ?_⟩
          intro j v hj hv hcond
          by_cases hji : j = idx
          · subst hji
            rw [ht] at hv
            injection hv with hv
            subst hv
            simp only [bne_iff_ne, ne_eq] at hp
            exact hp hcond.1
          · exact hnone j v (by omega) hv hcond
        · right
          refine ⟨j, u, by omega, hu, hupend, hucf, ?_, heq ▸ hclaim⟩
          intro j' v hj' hj'lt hv hcond
          by_cases hji : j' = idx
          · subst hji
            rw [ht] at hv
            injection hv with hv
            subst hv
            simp only [bne_iff_ne, ne_eq] at hp
            exact hp hcond.1
          · exact hmin j' v (by omega) hj'lt hv hcond
      · have hpend : t.status = TaskStatus.pending := by
          simp only [bne_iff_ne, ne_eq, not_not] at hp
          exact hp
        have hcf := hasFileConflict_ok ht
        cases hb : (team.tasks.enum.any fun p =>
            p.1 != idx && p.2.status == TaskStatus.inProgress &&
              p.2.touched_files.any
                (fun path => (normFiles t.touched_files).contains (normPath path))) with
        | true =>
          have hcf' : hasFileConflict team idx = Except.ok true := by rw [hcf, hb]
          have hrec := ih (idx + 1) (by omega)
          have heq : autoClaimScan now member_id team idx (fuel + 1) =
              autoClaimScan now member_id team (idx + 1) fuel := by
            conv_lhs => unfold autoClaimScan
            rw [ht]
            dsimp only
            rw [if_neg hp, hcf']
          rcases hrec with ⟨hok, hnone⟩ | ⟨j, u, hj, hu, hupend, hucf, hmin, hclaim⟩
          · left
            refine ⟨heq ▸ hok, ?_⟩
            intro j v hj hv hcond
            by_cases hji : j = idx
            · subst hji
              rw [hcond.2] at hcf'
              injection hcf' with hcf'
              exact Bool.noConfusion hcf'
            · exact hnone j v (by omega) hv hcond
          · right
            refine ⟨j, u, by omega, hu, hupend, hucf, ?_, heq ▸ hclaim⟩
            intro j' v hj' hj'lt hv hcond
            by_cases hji : j' = idx
            · subst hji
              rw [hcond.2] at hcf'
              injection hcf' with hcf'
              exact Bool.noConfusion hcf'
            · exact hmin j' v (by omega) hj'lt hv hcond
        | false =>
          have hcf' : hasFileConflict team idx = Except.ok false := by rw [hcf, hb]
          right
          refine ⟨idx, t, Nat.le_refl idx, ht, hpend, hcf', ?_, ?_⟩
          · intro j' v hj' hj'lt _ _
            omega
          · conv_lhs => unfold autoClaimScan
            rw [ht]
            dsimp only
            rw [if_neg hp, hcf']
            rfl

/-! ### Well-formedness of the mutation patterns used by the operations -/

/-- A fresh team (as built by `create_team`) is well-formed. -/
theorem wfTeamB_newTeam (team_id : String) (mode : TeamDisplayMode) (d : Bool) :
    wfTeamB
      { id := team_id, mode := mode, delegation_only := d
        recovery_policy := RecoveryPolicy.autoReassign
        members := [], tasks := [], messages := []
        next_member_id := 0, next_task_id := 0, next_message_id := 0 } = true := by
  rw [wfTeamB_iff]
  exact ⟨rfl, rfl, rfl, rfl, rfl⟩

theorem stateWF_mapInsert {s : EngineState} {tid : String} {team' : AgentTeam}
    (sess : List (String × SessionState)) (act : Option String)
    (hnc : mapContains tid s.teams = false)
    (h : stateWF s = true) (hw : wfTeamB team' = true) :
    stateWF { sessions := sess, active_session := act
              teams := mapInsert tid team' s.teams } = true := by
  rw [stateWF_iff] at h ⊢
  refine ⟨keysUniqueB_mapInsert team' hnc h.1, ?_⟩
  intro p hp
  rcases mapInsert_mem hp with he | hmem
  · rw [he]
    exact hw
  · exact h.2 p hmem

theorem stateWF_mapRemove {s : EngineState} {tid : String}
    (sess : List (String × SessionState)) (act : Option String)
    (h : stateWF s = true) :
    stateWF { sessions := sess, active_session := act
              teams := mapRemove tid s.teams } = true := by
  rw [stateWF_iff] at h ⊢
  refine ⟨keysUniqueB_mapRemove h.1, ?_⟩
  intro p hp
  exact h.2 p (mapRemove_mem hp)

/-- Rewriting the first matched task with an id/deps-preserving,
non-`InProgress`-producing update and then refreshing keeps the team
well-formed (this is the `complete_task` shape). -/
theorem wfTeamB_updateFirst_refresh {team : AgentTeam} (now : Nat)
    (p : TeamTask → Bool) (g : TeamTask → TeamTask) (members1 : List MemberState)
    (hid : ∀ u, (g u).id = u.id) (hdeps : ∀ u, (g u).deps = u.deps)
    (hnp : ∀ u, (g u).status ≠ TaskStatus.inProgress)
    (hw : wfTeamB team = true) :
    (refreshTaskBlocking now
      { team with tasks := updateFirst p g team.tasks, members := members1 }).1 = none ∧
    wfTeamB (refreshTaskBlocking now
      { team with tasks := updateFirst p g team.tasks, members := members1 }).2 = true := by
  obtain ⟨h1, h2, h3, h4, h5⟩ := wfTeamB_iff.mp hw
  have hkeys : (updateFirst p g team.tasks).map (fun u => (u.id, u.deps)) =
      team.tasks.map (fun u => (u.id, u.deps)) :=
    updateFirst_map_eq p g _ (fun x => by rw [hid, hdeps]) team.tasks
  have hids : (updateFirst p g team.tasks).map (fun u => u.id) =
      team.tasks.map (fun u => u.id) :=
    updateFirst_map_eq p g _ (fun x => hid x) team.tasks
  have hsorted : sortedByIdB (updateFirst p g team.tasks) = true := by
    rw [sortedByIdB_eq_of_ids_eq hids]
    exact h1
  have hbound : idsBoundedB
      { team with tasks := updateFirst p g team.tasks, members := members1 } = true :=
    @idsBoundedB_of_ids team
      { team with tasks := updateFirst p g team.tasks, members := members1 } rfl hids h2
  have hclosed : depsClosedB
      { team with tasks := updateFirst p g team.tasks, members := members1 } = true :=
    depsClosedB_of_keys hkeys h3
  have hnc : noConflictL (updateFirst p g team.tasks) = true := by
    apply noConflictL_mono _ h5
    intro i
    rcases updateFirst_getElem? p g team.tasks i with he | ⟨x, hx, hpx, hgx⟩
    · exact Or.inl he
    · right
      intro a ha
      rw [hgx] at ha
      injection ha with ha
      exact ha ▸ hnp x
  rw [refreshTaskBlocking_ok now hclosed]
  exact ⟨rfl, wfTeamB_after_refresh now hsorted hbound hclosed hnc⟩

/-- Mapping an id/deps-preserving update that only rewrites tasks into
non-`InProgress` statuses, then refreshing, keeps the team well-formed
(this is the `remove_member` shape). -/
theorem wfTeamB_map_refresh {team : AgentTeam} (now : Nat)
    (g : TeamTask → TeamTask) (members1 : List MemberState)
    (hid : ∀ u, (g u).id = u.id) (hdeps : ∀ u, (g u).deps = u.deps)
    (hch : ∀ u, g u = u ∨ (g u).status ≠ TaskStatus.inProgress)
    (hw : wfTeamB team = true) :
    (refreshTaskBlocking now
      { team with tasks := team.tasks.map g, members := members1 }).1 = none ∧
    wfTeamB (refreshTaskBlocking now
      { team with tasks := team.tasks.map g, members := members1 }).2 = true := by
  obtain ⟨h1, h2, h3, h4, h5⟩ := wfTeamB_iff.mp hw
  have hkeys : (team.tasks.map g).map (fun u => (u.id, u.deps)) =
      team.tasks.map (fun u => (u.id, u.deps)) := by
    rw [List.map_map]
    apply List.map_congr_left
    intro u _
    show ((g u).id, (g u).deps) = (u.id, u.deps)
    rw [hid, hdeps]
  have hids : (team.tasks.map g).map (fun u => u.id) = team.tasks.map (fun u => u.id) := by
    rw [List.map_map]
    apply List.map_congr_left
    intro u _
    exact hid u
  have hsorted : sortedByIdB (team.tasks.map g) = true := by
    rw [sortedByIdB_eq_of_ids_eq hids]
    exact h1
  have hbound : idsBoundedB
      { team with tasks := team.tasks.map g, members := members1 } = true :=
    @idsBoundedB_of_ids team
      { team with tasks := team.tasks.map g, members := members1 } rfl hids h2
  have hclosed : depsClosedB
      { team with tasks := team.tasks.map g, members := members1 } = true :=
    depsClosedB_of_keys hkeys h3
  have hnc : noConflictL (team.tasks.map g) = true := by
    apply noConflictL_mono _ h5
    intro i
    cases hx : team.tasks[i]? with
    | none =>
      left
      rw [List.getElem?_map, hx]
      rfl
    | some x =>
      rcases hch x with he | hne
      · left
        rw [List.getElem?_map, hx]
        simp [he]
      · right
        intro a ha
        rw [List.getElem?_map, hx] at ha
        simp only [Option.map_some'] at ha
        injection ha with ha
        exact ha ▸ hne
  rw [refreshTaskBlocking_ok now hclosed]
  exact ⟨rfl, wfTeamB_after_refresh now hsorted hbound hclosed hnc⟩

/-- Appending a fresh pending task with validated dependencies and the next
free id, then refreshing, keeps the team well-formed (the `add_task`
shape). -/
theorem wfTeamB_append_refresh {team : AgentTeam} (now : Nat) {task : TeamTask}
    (hw : wfTeamB team = true)
    (hid : task.id = team.next_task_id)
    (hst : task.status = TaskStatus.pending)
    (hdeps : ∀ d ∈ task.deps, ∃ u ∈ team.tasks, u.id = d) :
    (refreshTaskBlocking now
      { team with tasks := team.tasks ++ [task]
                  next_task_id := team.next_task_id + 1 }).1 = none ∧
    wfTeamB (refreshTaskBlocking now
      { team with tasks := team.tasks ++ [task]
                  next_task_id := team.next_task_id + 1 }).2 = true := by
  obtain ⟨h1, h2, h3, h4, h5⟩ := wfTeamB_iff.mp hw
  have hboundOld : ∀ u ∈ team.tasks, u.id < team.next_task_id := by
    intro u hu
    have := List.all_eq_true.mp h2 u hu
    simpa using this
  have hsorted : sortedByIdB (team.tasks ++ [task]) = true := by
    apply sortedByIdB_append h1
    intro u hu
    rw [hid]
    exact hboundOld u hu
  have hbound : idsBoundedB
      { team with tasks := team.tasks ++ [task]
                  next_task_id := team.next_task_id + 1 } = true := by
    unfold idsBoundedB
    apply List.all_eq_true.mpr
    intro u hu
    rcases List.mem_append.mp hu with hm | hm
    · have := hboundOld u hm
      simp only [decide_eq_true_eq]
      show u.id < team.next_task_id + 1
      omega
    · simp only [List.mem_singleton] at hm
      subst hm
      simp only [decide_eq_true_eq]
      show u.id < team.next_task_id + 1
      omega
  have hclosed : depsClosedB
      { team with tasks := team.tasks ++ [task]
                  next_task_id := team.next_task_id + 1 } = true := by
    rw [depsClosed_iff]
    intro u hu d hd
    show ∃ w ∈ team.tasks ++ [task], w.id = d
    rcases List.mem_append.mp hu with hm | hm
    · obtain ⟨w, hw', hwd⟩ := depsClosed_iff.mp h3 u hm d hd
      exact ⟨w, List.mem_append.mpr (Or.inl hw'), hwd⟩
    · simp only [List.mem_singleton] at hm
      subst hm
      obtain ⟨w, hw', hwd⟩ := hdeps d hd
      exact ⟨w, List.mem_append.mpr (Or.inl hw'), hwd⟩
  have hnc : noConflictL (team.tasks ++ [task]) = true := by
    apply noConflictL_append_not_inP _ h5
    rw [hst]
    intro hc
    exact TaskStatus.noConfusion hc
  rw [refreshTaskBlocking_ok now hclosed]
  exact ⟨rfl, wfTeamB_after_refresh now hsorted hbound hclosed hnc⟩

/-! ### Every operation preserves well-formedness -/

theorem wf_createSession (name : String) {s : EngineState} (h : stateWF s = true) :
    stateWF (createSession name s) = true := by
  unfold createSession
  by_cases hc : mapContains name s.sessions = true
  · rw [if_pos hc]
    exact h
  · rw [if_neg hc]
    exact h

theorem wf_setActiveSession (name : String) {s : EngineState} (h : stateWF s = true) :
    stateWF (setActiveSession name s) = true := by
  unfold setActiveSession
  by_cases hc : mapContains name s.sessions = true
  · rw [if_pos hc]
    exact h
  · rw [if_neg hc]
    exact h

theorem wf_createTeam (tid : String) (mode : TeamDisplayMode) (d : Bool)
    {s : EngineState} (h : stateWF s = true) :
    stateWF (createTeam tid mode d s).2 = true := by
  unfold createTeam
  by_cases hc : mapContains tid s.teams = true
  · rw [if_pos hc]
    exact h
  · rw [if_neg hc]
    exact stateWF_mapInsert s.sessions s.active_session
      (Bool.eq_false_iff.mpr hc) h (wfTeamB_newTeam tid mode d)

theorem wf_addMember (tid mname mmodel : String) (rpa lead : Bool)
    {s : EngineState} (h : stateWF s = true) :
    stateWF (addMember tid mname mmodel rpa lead s).2 = true := by
  unfold addMember
  cases hlk : mapLookup tid s.teams with
  | none => exact h
  | some team =>
    exact stateWF_mapSet s.sessions s.active_session h
      (wfTeamB_same_tasks team rfl rfl (wf_of_lookup h hlk))

theorem wf_submitPlan (now : Nat) (tid : String) (mid : Nat) (plan : String)
    {s : EngineState} (h : stateWF s = true) :
    stateWF (submitPlan now tid mid plan s).2 = true := by
  unfold submitPlan
  cases hlk : mapLookup tid s.teams with
  | none => exact h
  | some team =>
    dsimp only
    cases hm : team.members.find? (fun m => m.id == mid) with
    | none => exact h
    | some member =>
      dsimp only
      cases ha : ensureMemberActive member with
      | error e => exact h
      | ok u =>
        exact stateWF_mapSet s.sessions s.active_session h
          (wfTeamB_same_tasks team rfl rfl (wf_of_lookup h hlk))

theorem wf_setPlanStatus (now : Nat) (tid : String) (mid : Nat) (status : PlanStatus)
    {s : EngineState} (h : stateWF s = true) :
    stateWF (setPlanStatus now tid mid status s).2 = true := by
  unfold setPlanStatus
  cases hlk : mapLookup tid s.teams with
  | none => exact h
  | some team =>
    dsimp only
    cases hm : team.members.find? (fun m => m.id == mid) with
    | none => exact h
    | some member =>
      dsimp only
      cases ha : ensureMemberActive member with
      | error e => exact h
      | ok u =>
        exact stateWF_mapSet s.sessions s.active_session h
          (wfTeamB_same_tasks team rfl rfl (wf_of_lookup h hlk))

theorem wf_setDelegationOnly (tid : String) (d : Bool) {s : EngineState}
    (h : stateWF s = true) : stateWF (setDelegationOnly tid d s).2 = true := by
  unfold setDelegationOnly
  cases hlk : mapLookup tid s.teams with
  | none => exact h
  | some team =>
    exact stateWF_mapSet s.sessions s.active_session h
      (wfTeamB_same_tasks team rfl rfl (wf_of_lookup h hlk))

theorem wf_setTeamMode (tid : String) (mode : TeamDisplayMode) {s : EngineState}
    (h : stateWF s = true) : stateWF (setTeamMode tid mode s).2 = true := by
  unfold setTeamMode
  cases hlk : mapLookup tid s.teams with
  | none => exact h
  | some team =>
    exact stateWF_mapSet s.sessions s.active_session h
      (wfTeamB_same_tasks team rfl rfl (wf_of_lookup h hlk))

theorem wf_setRecoveryPolicy (tid : String) (pol : RecoveryPolicy) {s : EngineState}
    (h : stateWF s = true) : stateWF (setRecoveryPolicy tid pol s).2 = true := by
  unfold setRecoveryPolicy
  cases hlk : mapLookup tid s.teams with
  | none => exact h
  | some team =>
    exact stateWF_mapSet s.sessions s.active_session h
      (wfTeamB_same_tasks team rfl rfl (wf_of_lookup h hlk))

theorem wf_restartMember (tid : String) (mid : Nat) {s : EngineState}
    (h : stateWF s = true) : stateWF (restartMember tid mid s).2 = true := by
  unfold restartMember
  cases hlk : mapLookup tid s.teams with
  | none => exact h
  | some team =>
    dsimp only
    cases hm : team.members.find? (fun m => m.id == mid) with
    | none => exact h
    | some member =>
      exact stateWF_mapSet s.sessions s.active_session h
        (wfTeamB_same_tasks team rfl rfl (wf_of_lookup h hlk))

theorem wf_cleanupTeam (tid : String) {s : EngineState} (h : stateWF s = true) :
    stateWF (cleanupTeam tid s).2 = true := by
  unfold cleanupTeam
  by_cases hc : mapContains tid s.teams = true
  · rw [if_pos hc]
    exact stateWF_mapRemove s.sessions s.active_session h
  · rw [if_neg hc]
    exact h

theorem wf_pruneTerminated (tid : String) {s : EngineState} (h : stateWF s = true) :
    stateWF (pruneTerminated tid s).2 = true := by
  unfold pruneTerminated
  cases hlk : mapLookup tid s.teams with
  | none => exact h
  | some team =>
    exact stateWF_mapSet s.sessions s.active_session h
      (wfTeamB_same_tasks team rfl rfl (wf_of_lookup h hlk))

theorem wf_postMessage (now : Nat) (tid : String) (fromM toM : Option Nat)
    (text : String) (prio : TeamMessagePriority) {s : EngineState}
    (h : stateWF s = true) :
    stateWF (postMessage now tid fromM toM text prio s).2 = true := by
  unfold postMessage
  cases hlk : mapLookup tid s.teams with
  | none => exact h
  | some team =>
    dsimp only
    cases hf : checkOptMemberActive team fromM with
    | error e => exact h
    | ok u =>
      dsimp only
      cases ht : checkOptMemberActive team toM with
      | error e => exact h
      | ok u =>
        exact stateWF_mapSet s.sessions s.active_session h
          (wfTeamB_same_tasks team rfl rfl (wf_of_lookup h hlk))

theorem wf_markMessageRead (tid : String) (mid msg_id : Nat) {s : EngineState}
    (h : stateWF s = true) : stateWF (markMessageRead tid mid msg_id s).2 = true := by
  unfold markMessageRead
  cases hlk : mapLookup tid s.teams with
  | none => exact h
  | some team =>
    dsimp only
    cases hm : team.members.find? (fun m => m.id == mid) with
    | none => exact h
    | some member =>
      dsimp only
      cases ha : ensureMemberActive member with
      | error e => exact h
      | ok u =>
        dsimp only
        cases hg : team.messages.find? (fun m => m.id == msg_id) with
        | none => exact h
        | some msg =>
          exact stateWF_mapSet s.sessions s.active_session h
            (wfTeamB_same_tasks team rfl rfl (wf_of_lookup h hlk))

theorem wf_addTask (now : Nat) (tid title : String) (deps : List Nat)
    (files : List String) {s : EngineState} (h : stateWF s = true) :
    stateWF (addTask now tid title deps files s).2 = true := by
  unfold addTask
  cases hlk : mapLookup tid s.teams with
  | none => exact h
  | some team =>
    dsimp only
    cases hdx : deps.find? (fun d => !team.tasks.any fun t => t.id == d) with
    | some d => exact h
    | none =>
      dsimp only
      have hdeps : ∀ d ∈ deps, ∃ u ∈ team.tasks, u.id = d := by
        intro d hd
        have := List.find?_eq_none.mp hdx d hd
        simp only [Bool.not_eq_true', Bool.not_eq_false] at this
        obtain ⟨u, hu, hud⟩ := List.any_eq_true.mp this
        exact ⟨u, hu, by simpa using hud⟩
      have spec := @wfTeamB_append_refresh team now
        { id := team.next_task_id, title := title, status := TaskStatus.pending,
          assignee := none, deps := deps, touched_files := files,
          input_tokens := 0, output_tokens := 0, cost_usd := 0,
          created_at := now, updated_at := now }
        (wf_of_lookup h hlk) rfl rfl hdeps
      split
      · exact stateWF_mapSet s.sessions s.active_session h spec.2
      · split <;> exact stateWF_mapSet s.sessions s.active_session h spec.2

theorem wf_claimTask (now : Nat) (tid : String) (mid task_id : Nat) {s : EngineState}
    (h : stateWF s = true) : stateWF (claimTask now tid mid task_id s).2 = true := by
  unfold claimTask
  cases hlk : mapLookup tid s.teams with
  | none => exact h
  | some team =>
    dsimp only
    have hwt := wf_of_lookup h hlk
    obtain ⟨hs1, hb1, hd1, hc1, hn1⟩ := wfTeamB_iff.mp hwt
    cases hm : team.members.find? (fun m => m.id == mid) with
    | none => exact h
    | some member =>
      dsimp only
      cases ha : ensureMemberActive member with
      | error e => exact h
      | ok u =>
        dsimp only
        cases hx : ensureMemberAllowedToExecute team member with
        | error e => exact h
        | ok u =>
          dsimp only
          cases hp : ensurePlanGate member with
          | error e => exact h
          | ok u =>
            dsimp only
            rw [refreshTaskBlocking_id now hd1 hc1]
            dsimp only
            cases hft : team.tasks.enum.find? (fun p => p.2.id == task_id) with
            | none => exact stateWF_mapSet s.sessions s.active_session h hwt
            | some pr =>
              obtain ⟨idx, t⟩ := pr
              dsimp only
              have hidx : team.tasks[idx]? = some t :=
                List.mem_enum_iff_getElem?.mp (List.mem_of_find?_eq_some hft)
              by_cases hpend : (t.status != TaskStatus.pending) = true
              · rw [if_pos hpend]
                exact stateWF_mapSet s.sessions s.active_session h hwt
              · rw [if_neg hpend]
                have hpend2 : t.status = TaskStatus.pending := by
                  simpa using hpend
                cases hcf : hasFileConflict team idx with
                | error e => exact stateWF_mapSet s.sessions s.active_session h hwt
                | ok b =>
                  cases b with
                  | true => exact stateWF_mapSet s.sessions s.active_session h hwt
                  | false =>
                    exact stateWF_mapSet s.sessions s.active_session h
                      (wfTeamB_set_claim mid now hidx hwt hpend2 hcf)

theorem wf_completeTask (now : Nat) (tid : String) (mid task_id inTok outTok : Nat)
    (c : ℚ) {s : EngineState} (h : stateWF s = true) :
    stateWF (completeTask now tid mid task_id inTok outTok c s).2 = true := by
  unfold completeTask
  cases hlk : mapLookup tid s.teams with
  | none => exact h
  | some team =>
    dsimp only
    cases hm : team.members.find? (fun m => m.id == mid) with
    | none => exact h
    | some member =>
      dsimp only
      cases ha : ensureMemberActive member with
      | error e => exact h
      | ok u =>
        dsimp only
        cases htk : team.tasks.find? (fun t => t.id == task_id) with
        | none => exact h
        | some t =>
          dsimp only
          by_cases h1 : (t.status != TaskStatus.inProgress) = true
          · rw [if_pos h1]
            exact h
          · rw [if_neg h1]
            by_cases h2 : (t.assignee != some mid) = true
            · rw [if_pos h2]
              exact h
            · rw [if_neg h2]
              have spec := wfTeamB_updateFirst_refresh now (fun u => u.id == task_id)
                (fun u => { u with status := TaskStatus.done, updated_at := now,
                                   input_tokens := u.input_tokens + inTok,
                                   output_tokens := u.output_tokens + outTok,
                                   cost_usd := u.cost_usd + max c 0 })
                (updateFirst (fun m => m.id == mid)
                  (fun m => { m with input_tokens := m.input_tokens + inTok,
                                     output_tokens := m.output_tokens + outTok,
                                     cost_usd := m.cost_usd + max c 0 }) team.members)
                (fun u => rfl) (fun u => rfl)
                (fun u hc => TaskStatus.noConfusion hc)
                (wf_of_lookup h hlk)
              split <;> exact stateWF_mapSet s.sessions s.active_session h spec.2

theorem wf_removeMember (now : Nat) (tid : String) (mid : Nat) (reason : String)
    {s : EngineState} (h : stateWF s = true) :
    stateWF (removeMember now tid mid reason s).2 = true := by
  unfold removeMember
  cases hlk : mapLookup tid s.teams with
  | none => exact h
  | some team =>
    dsimp only
    cases hm : team.members.find? (fun m => m.id == mid) with
    | none => exact h
    | some member =>
      dsimp only
      have spec := wfTeamB_map_refresh now
        (fun t => if t.assignee == some mid && t.status != TaskStatus.done then
          { t with assignee := none, updated_at := now,
                   status := match team.recovery_policy with
                     | RecoveryPolicy.autoReassign => TaskStatus.pending
                     | RecoveryPolicy.manual => TaskStatus.blocked }
          else t)
        (updateFirst (fun m => m.id == mid)
          (fun m => { m with status := MemberStatus.terminated,
                             terminated_at := some now,
                             termination_reason := some reason }) team.members)
        (fun u => by
          dsimp only
          by_cases hc : (u.assignee == some mid && u.status != TaskStatus.done) = true
          · rw [if_pos hc]
          · rw [if_neg hc])
        (fun u => by
          dsimp only
          by_cases hc : (u.assignee == some mid && u.status != TaskStatus.done) = true
          · rw [if_pos hc]
          · rw [if_neg hc])
        (fun u => by
          dsimp only
          by_cases hc : (u.assignee == some mid && u.status != TaskStatus.done) = true
          · right
            rw [if_pos hc]
            cases hpol : team.recovery_policy with
            | autoReassign =>
              intro hct
              exact TaskStatus.noConfusion hct
            | manual =>
              intro hct
              exact TaskStatus.noConfusion hct
          · left
            rw [if_neg hc])
        (wf_of_lookup h hlk)
      split <;> exact stateWF_mapSet s.sessions s.active_session h spec.2

theorem wf_autoClaimNextTask (now : Nat) (tid : String) (mid : Nat) {s : EngineState}
    (h : stateWF s = true) : stateWF (autoClaimNextTask now tid mid s).2 = true := by
  unfold autoClaimNextTask
  cases hlk : mapLookup tid s.teams with
  | none => exact h
  | some team =>
    dsimp only
    have hwt := wf_of_lookup h hlk
    obtain ⟨hs1, hb1, hd1, hc1, hn1⟩ := wfTeamB_iff.mp hwt
    cases hm : team.members.find? (fun m => m.id == mid) with
    | none => exact h
    | some member =>
      dsimp only
      cases ha : ensureMemberActive member with
      | error e => exact h
      | ok u =>
        dsimp only
        cases hx : ensureMemberAllowedToExecute team member with
        | error e => exact h
        | ok u =>
          dsimp only
          cases hp : ensurePlanGate member with
          | error e => exact h
          | ok u =>
            dsimp only
            rw [refreshTaskBlocking_id now hd1 hc1]
            dsimp only
            rcases autoClaimScan_spec now mid team team.tasks.length 0 (by omega) with
              ⟨heq, hnone⟩ | ⟨j, t, hj, ht, hpend, hcf, hmin, heq⟩
            · rw [heq]
              exact stateWF_mapSet s.sessions s.active_session h hwt
            · rw [heq]
              exact stateWF_mapSet s.sessions s.active_session h
                (wfTeamB_set_claim mid now ht hwt hpend hcf)

/-- Every public operation preserves the aggregate invariant. -/
theorem wf_runOp (now : Nat) (op : Op) {s : EngineState} (h : stateWF s = true) :
    stateWF (runOp now op s).2 = true := by
  cases op with
  | createSession name => exact wf_createSession name h
  | setActiveSession name => exact wf_setActiveSession name h
  | listSessions => exact h
  | createTeam tid mode d => exact wf_createTeam tid mode d h
  | addMember tid n m rpa lead => exact wf_addMember tid n m rpa lead h
  | addTask tid title deps files => exact wf_addTask now tid title deps files h
  | submitPlan tid mid plan => exact wf_submitPlan now tid mid plan h
  | claimTask tid mid task_id => exact wf_claimTask now tid mid task_id h
  | completeTask tid mid task_id inTok outTok c =>
    exact wf_completeTask now tid mid task_id inTok outTok c h
  | autoClaimNextTask tid mid => exact wf_autoClaimNextTask now tid mid h
  | setPlanStatus tid mid status => exact wf_setPlanStatus now tid mid status h
  | setDelegationOnly tid d => exact wf_setDelegationOnly tid d h
  | setTeamMode tid mode => exact wf_setTeamMode tid mode h
  | setRecoveryPolicy tid pol => exact wf_setRecoveryPolicy tid pol h
  | removeMember tid mid reason => exact wf_removeMember now tid mid reason h
  | restartMember tid mid => exact wf_restartMember tid mid h
  | cleanupTeam tid => exact wf_cleanupTeam tid h
  | pruneTerminated tid => exact wf_pruneTerminated tid h
  | postMessage tid fromM toM text prio => exact wf_postMessage now tid fromM toM text prio h
  | teamMessages tid viewer unread => exact h
  | markMessageRead tid mid msg_id => exact wf_markMessageRead tid mid msg_id h
  | teamUsage tid => exact h

/-- Every reachable state satisfies the aggregate invariant. -/
theorem reachable_wf {s : EngineState} (h : Reachable s) : stateWF s = true := by
  induction h with
  | base => rfl
  | step now op hr ih => exact wf_runOp now op ih

/-! ### Concrete reachable states used as witnesses -/

/-- A team, one dependency-blocked task: reached by `create_team`, `add_task
A []`, `add_task B [A]`. -/
def exampleState : EngineState :=
  applyOp 3 (Op.addTask "t" "B" [0] [])
    (applyOp 2 (Op.addTask "t" "A" [] [])
      (applyOp 1 (Op.createTeam "t" TeamDisplayMode.auto false) EngineState.default))

theorem exampleState_reachable : Reachable exampleState :=
  Reachable.step 3 _ (Reachable.step 2 _ (Reachable.step 1 _ Reachable.base))

def exampleTaskA : TeamTask :=
  { id := 0, title := "A", status := TaskStatus.pending, assignee := none,
    deps := [], touched_files := [], input_tokens := 0, output_tokens := 0,
    cost_usd := 0, created_at := 2, updated_at := 2 }

def exampleTaskB : TeamTask :=
  { id := 1, title := "B", status := TaskStatus.blocked, assignee := none,
    deps := [0], touched_files := [], input_tokens := 0, output_tokens := 0,
    cost_usd := 0, created_at := 3, updated_at := 3 }

def exampleTeam : AgentTeam :=
  { id := "t", mode := TeamDisplayMode.auto, delegation_only := false,
    recovery_policy := RecoveryPolicy.autoReassign, members := [],
    tasks := [exampleTaskA, exampleTaskB], messages := [],
    next_member_id := 0, next_task_id := 2, next_message_id := 0 }

theorem exampleState_lookup : mapLookup "t" exampleState.teams = some exampleTeam := by
  decide

/-- A team with one member and two claimed (`InProgress`) tasks touching
different files. -/
def exampleState2 : EngineState :=
  applyOp 6 (Op.claimTask "t" 0 1)
    (applyOp 5 (Op.claimTask "t" 0 0)
      (applyOp 4 (Op.addTask "t" "T2" [] ["b.rs"])
        (applyOp 3 (Op.addTask "t" "T1" [] ["a.rs"])
          (applyOp 2 (Op.addMember "t" "w" "m" false false)
            (applyOp 1 (Op.createTeam "t" TeamDisplayMode.auto false)
              EngineState.default)))))

theorem exampleState2_reachable : Reachable exampleState2 :=
  Reachable.step 6 _ (Reachable.step 5 _ (Reachable.step 4 _ (Reachable.step 3 _
    (Reachable.step 2 _ (Reachable.step 1 _ Reachable.base)))))

def exampleMemberW : MemberState :=
  { id := 0, name := "w", model := "m", is_lead := false,
    status := MemberStatus.active, terminated_at := none,
    termination_reason := none, require_plan_approval := false,
    plan_status := PlanStatus.approved, latest_plan := none,
    plan_updated_at := none, input_tokens := 0, output_tokens := 0, cost_usd := 0 }

def exampleTaskT1 : TeamTask :=
  { id := 0, title := "T1", status := TaskStatus.inProgress, assignee := some 0,
    deps := [], touched_files := ["a.rs"], input_tokens := 0, output_tokens := 0,
    cost_usd := 0, created_at := 3, updated_at := 5 }

def exampleTaskT2 : TeamTask :=
  { id := 1, title := "T2", status := TaskStatus.inProgress, assignee := some 0,
    deps := [], touched_files := ["b.rs"], input_tokens := 0, output_tokens := 0,
    cost_usd := 0, created_at := 4, updated_at := 6 }

def exampleTeam2 : AgentTeam :=
  { id := "t", mode := TeamDisplayMode.auto, delegation_only := false,
    recovery_policy := RecoveryPolicy.autoReassign, members := [exampleMemberW],
    tasks := [exampleTaskT1, exampleTaskT2], messages := [],
    next_member_id := 1, next_task_id := 2, next_message_id := 0 }

theorem exampleState2_lookup : mapLookup "t" exampleState2.teams = some exampleTeam2 := by
  decide

/-- A team with one member and one claimable `Pending` task. -/
def exampleState3 : EngineState :=
  applyOp 3 (Op.addTask "t" "T" [] ["a.rs"])
    (applyOp 2 (Op.addMember "t" "w" "m" false false)
      (applyOp 1 (Op.createTeam "t" TeamDisplayMode.auto false) EngineState.default))

theorem exampleState3_reachable : Reachable exampleState3 :=
  Reachable.step 3 _ (Reachable.step 2 _ (Reachable.step 1 _ Reachable.base))

def exampleTaskP : TeamTask :=
  { id := 0, title := "T", status := TaskStatus.pending, assignee := none,
    deps := [], touched_files := ["a.rs"], input_tokens := 0, output_tokens := 0,
    cost_usd := 0, created_at := 3, updated_at := 3 }

def exampleTeam3 : AgentTeam :=
  { id := "t", mode := TeamDisplayMode.auto, delegation_only := false,
    recovery_policy := RecoveryPolicy.autoReassign, members := [exampleMemberW],
    tasks := [exampleTaskP], messages := [],
    next_member_id := 1, next_task_id := 1, next_message_id := 0 }

theorem exampleState3_lookup : mapLookup "t" exampleState3.teams = some exampleTeam3 := by
  decide

/-! ### Each operation either succeeds or leaves the state untouched -/

theorem state_set_self {s : EngineState} {tid : String} {team : AgentTeam}
    (hwf : stateWF s = true) (hlk : mapLookup tid s.teams = some team) :
    ({ s with teams := mapSet tid team s.teams } : EngineState) = s := by
  rw [mapSet_self (stateWF_iff.mp hwf).1 hlk]

theorem createTeam_ok_or_id (tid : String) (mode : TeamDisplayMode) (d : Bool)
    (s : EngineState) :
    (createTeam tid mode d s).2 = s ∨ ∃ u, (createTeam tid mode d s).1 = Except.ok u := by
  unfold createTeam
  by_cases hc : mapContains tid s.teams = true
  · rw [if_pos hc]
    exact Or.inl rfl
  · rw [if_neg hc]
    exact Or.inr ⟨(), rfl⟩

theorem addMember_ok_or_id (tid mname mmodel : String) (rpa lead : Bool)
    (s : EngineState) :
    (addMember tid mname mmodel rpa lead s).2 = s ∨
      ∃ u, (addMember tid mname mmodel rpa lead s).1 = Except.ok u := by
  unfold addMember
  cases hlk : mapLookup tid s.teams with
  | none => exact Or.inl rfl
  | some team => exact Or.inr ⟨_, rfl⟩

theorem submitPlan_ok_or_id (now : Nat) (tid : String) (mid : Nat) (plan : String)
    (s : EngineState) :
    (submitPlan now tid mid plan s).2 = s ∨
      ∃ u, (submitPlan now tid mid plan s).1 = Except.ok u := by
  unfold submitPlan
  cases hlk : mapLookup tid s.teams with
  | none => exact Or.inl rfl
  | some team =>
    dsimp only
    cases hm : team.members.find? (fun m => m.id == mid) with
    | none => exact Or.inl rfl
    | some member =>
      dsimp only
      cases ha : ensureMemberActive member with
      | error e => exact Or.inl rfl
      | ok u => exact Or.inr ⟨(), rfl⟩

theorem setPlanStatus_ok_or_id (now : Nat) (tid : String) (mid : Nat)
    (status : PlanStatus) (s : EngineState) :
    (setPlanStatus now tid mid status s).2 = s ∨
      ∃ u, (setPlanStatus now tid mid status s).1 = Except.ok u := by
  unfold setPlanStatus
  cases hlk : mapLookup tid s.teams with
  | none => exact Or.inl rfl
  | some team =>
    dsimp only
    cases hm : team.members.find? (fun m => m.id == mid) with
    | none => exact Or.inl rfl
    | some member =>
      dsimp only
      cases ha : ensureMemberActive member with
      | error e => exact Or.inl rfl
      | ok u => exact Or.inr ⟨(), rfl⟩

theorem setDelegationOnly_ok_or_id (tid : String) (d : Bool) (s : EngineState) :
    (setDelegationOnly tid d s).2 = s ∨
      ∃ u, (setDelegationOnly tid d s).1 = Except.ok u := by
  unfold setDelegationOnly
  cases hlk : mapLookup tid s.teams with
  | none => exact Or.inl rfl
  | some team => exact Or.inr ⟨(), rfl⟩

theorem setTeamMode_ok_or_id (tid : String) (mode : TeamDisplayMode) (s : EngineState) :
    (setTeamMode tid mode s).2 = s ∨ ∃ u, (setTeamMode tid mode s).1 = Except.ok u := by
  unfold setTeamMode
  cases hlk : mapLookup tid s.teams with
  | none => exact Or.inl rfl
  | some team => exact Or.inr ⟨(), rfl⟩

theorem setRecoveryPolicy_ok_or_id (tid : String) (pol : RecoveryPolicy)
    (s : EngineState) :
    (setRecoveryPolicy tid pol s).2 = s ∨
      ∃ u, (setRecoveryPolicy tid pol s).1 = Except.ok u := by
  unfold setRecoveryPolicy
  cases hlk : mapLookup tid s.teams with
  | none => exact Or.inl rfl
  | some team => exact Or.inr ⟨(), rfl⟩

theorem restartMember_ok_or_id (tid : String) (mid : Nat) (s : EngineState) :
    (restartMember tid mid s).2 = s ∨
      ∃ u, (restartMember tid mid s).1 = Except.ok u := by
  unfold restartMember
  cases hlk : mapLookup tid s.teams with
  | none => exact Or.inl rfl
  | some team =>
    dsimp only
    cases hm : team.members.find? (fun m => m.id == mid) with
    | none => exact Or.inl rfl
    | some member => exact Or.inr ⟨(), rfl⟩

theorem cleanupTeam_ok_or_id (tid : String) (s : EngineState) :
    (cleanupTeam tid s).2 = s ∨ ∃ u, (cleanupTeam tid s).1 = Except.ok u := by
  unfold cleanupTeam
  by_cases hc : mapContains tid s.teams = true
  · rw [if_pos hc]
    exact Or.inr ⟨(), rfl⟩
  · rw [if_neg hc]
    exact Or.inl rfl

theorem pruneTerminated_ok_or_id (tid : String) (s : EngineState) :
    (pruneTerminated tid s).2 = s ∨ ∃ u, (pruneTerminated tid s).1 = Except.ok u := by
  unfold pruneTerminated
  cases hlk : mapLookup tid s.teams with
  | none => exact Or.inl rfl
  | some team => exact Or.inr ⟨(), rfl⟩

theorem postMessage_ok_or_id (now : Nat) (tid : String) (fromM toM : Option Nat)
    (text : String) (prio : TeamMessagePriority) (s : EngineState) :
    (postMessage now tid fromM toM text prio s).2 = s ∨
      ∃ u, (postMessage now tid fromM toM text prio s).1 = Except.ok u := by
  unfold postMessage
  cases hlk : mapLookup tid s.teams with
  | none => exact Or.inl rfl
  | some team =>
    dsimp only
    cases hf : checkOptMemberActive team fromM with
    | error e => exact Or.inl rfl
    | ok u =>
      dsimp only
      cases ht : checkOptMemberActive team toM with
      | error e => exact Or.inl rfl
      | ok u => exact Or.inr ⟨_, rfl⟩

theorem markMessageRead_ok_or_id (tid : String) (mid msg_id : Nat) (s : EngineState) :
    (markMessageRead tid mid msg_id s).2 = s ∨
      ∃ u, (markMessageRead tid mid msg_id s).1 = Except.ok u := by
  unfold markMessageRead
  cases hlk : mapLookup tid s.teams with
  | none => exact Or.inl rfl
  | some team =>
    dsimp only
    cases hm : team.members.find? (fun m => m.id == mid) with
    | none => exact Or.inl rfl
    | some member =>
      dsimp only
      cases ha : ensureMemberActive member with
      | error e => exact Or.inl rfl
      | ok u =>
        dsimp only
        cases hg : team.messages.find? (fun m => m.id == msg_id) with
        | none => exact Or.inl rfl
        | some msg => exact Or.inr ⟨(), rfl⟩

theorem addTask_ok_or_id (now : Nat) (tid title : String) (deps : List Nat)
    (files : List String) {s : EngineState} (hwf : stateWF s = true) :
    (addTask now tid title deps files s).2 = s ∨
      ∃ u, (addTask now tid title deps files s).1 = Except.ok u := by
  unfold addTask
  cases hlk : mapLookup tid s.teams with
  | none => exact Or.inl rfl
  | some team =>
    dsimp only
    cases hdx : deps.find? (fun d => !team.tasks.any fun t => t.id == d) with
    | some d => exact Or.inl rfl
    | none =>
      dsimp only
      have hdeps : ∀ d ∈ deps, ∃ u ∈ team.tasks, u.id = d := by
        intro d hd
        have := List.find?_eq_none.mp hdx d hd
        simp only [Bool.not_eq_true', Bool.not_eq_false] at this
        obtain ⟨u, hu, hud⟩ := List.any_eq_true.mp this
        exact ⟨u, hu, by simpa using hud⟩
      have spec := @wfTeamB_append_refresh team now
        { id := team.next_task_id, title := title, status := TaskStatus.pending,
          assignee := none, deps := deps, touched_files := files,
          input_tokens := 0, output_tokens := 0, cost_usd := 0,
          created_at := now, updated_at := now }
        (wf_of_lookup hwf hlk) rfl rfl hdeps
      rw [spec.1]
      split
      · rename_i e heq
        exact Option.noConfusion heq
      · split <;> exact Or.inr ⟨_, rfl⟩

theorem claimTask_ok_or_id (now : Nat) (tid : String) (mid task_id : Nat)
    {s : EngineState} (hwf : stateWF s = true) :
    (claimTask now tid mid task_id s).2 = s ∨
      ∃ u, (claimTask now tid mid task_id s).1 = Except.ok u := by
  unfold claimTask
  cases hlk : mapLookup tid s.teams with
  | none => exact Or.inl rfl
  | some team =>
    dsimp only
    have hwt := wf_of_lookup hwf hlk
    obtain ⟨hs1, hb1, hd1, hc1, hn1⟩ := wfTeamB_iff.mp hwt
    cases hm : team.members.find? (fun m => m.id == mid) with
    | none => exact Or.inl rfl
    | some member =>
      dsimp only
      cases ha : ensureMemberActive member with
      | error e => exact Or.inl rfl
      | ok u =>
        dsimp only
        cases hx : ensureMemberAllowedToExecute team member with
        | error e => exact Or.inl rfl
        | ok u =>
          dsimp only
          cases hp : ensurePlanGate member with
          | error e => exact Or.inl rfl
          | ok u =>
            dsimp only
            rw [refreshTaskBlocking_id now hd1 hc1]
            dsimp only
            cases hft : team.tasks.enum.find? (fun p => p.2.id == task_id) with
            | none => exact Or.inl (state_set_self hwf hlk)
            | some pr =>
              obtain ⟨idx, t⟩ := pr
              dsimp only
              by_cases hpend : (t.status != TaskStatus.pending) = true
              · rw [if_pos hpend]
                exact Or.inl (state_set_self hwf hlk)
              · rw [if_neg hpend]
                cases hcf : hasFileConflict team idx with
                | error e => exact Or.inl (state_set_self hwf hlk)
                | ok b =>
                  cases b with
                  | true => exact Or.inl (state_set_self hwf hlk)
                  | false => exact Or.inr ⟨(), rfl⟩

theorem completeTask_ok_or_id (now : Nat) (tid : String)
    (mid task_id inTok outTok : Nat) (c : ℚ) {s : EngineState}
    (hwf : stateWF s = true) :
    (completeTask now tid mid task_id inTok outTok c s).2 = s ∨
      ∃ u, (completeTask now tid mid task_id inTok outTok c s).1 = Except.ok u := by
  unfold completeTask
  cases hlk : mapLookup tid s.teams with
  | none => exact Or.inl rfl
  | some team =>
    dsimp only
    cases hm : team.members.find? (fun m => m.id == mid) with
    | none => exact Or.inl rfl
    | some member =>
      dsimp only
      cases ha : ensureMemberActive member with
      | error e => exact Or.inl rfl
      | ok u =>
        dsimp only
        cases htk : team.tasks.find? (fun t => t.id == task_id) with
        | none => exact Or.inl rfl
        | some t =>
          dsimp only
          by_cases h1 : (t.status != TaskStatus.inProgress) = true
          · rw [if_pos h1]
            exact Or.inl rfl
          · rw [if_neg h1]
            by_cases h2 : (t.assignee != some mid) = true
            · rw [if_pos h2]
              exact Or.inl rfl
            · rw [if_neg h2]
              have spec := wfTeamB_updateFirst_refresh now (fun u => u.id == task_id)
                (fun u => { u with status := TaskStatus.done, updated_at := now,
                                   input_tokens := u.input_tokens + inTok,
                                   output_tokens := u.output_tokens + outTok,
                                   cost_usd := u.cost_usd + max c 0 })
                (updateFirst (fun m => m.id == mid)
                  (fun m => { m with input_tokens := m.input_tokens + inTok,
                                     output_tokens := m.output_tokens + outTok,
                                     cost_usd := m.cost_usd + max c 0 }) team.members)
                (fun u => rfl) (fun u => rfl)
                (fun u hc => TaskStatus.noConfusion hc)
                (wf_of_lookup hwf hlk)
              rw [spec.1]
              exact Or.inr ⟨(), rfl⟩

theorem removeMember_ok_or_id (now : Nat) (tid : String) (mid : Nat) (reason : String)
    {s : EngineState} (hwf : stateWF s = true) :
    (removeMember now tid mid reason s).2 = s ∨
      ∃ u, (removeMember now tid mid reason s).1 = Except.ok u := by
  unfold removeMember
  cases hlk : mapLookup tid s.teams with
  | none => exact Or.inl rfl
  | some team =>
    dsimp only
    cases hm : team.members.find? (fun m => m.id == mid) with
    | none => exact Or.inl rfl
    | some member =>
      dsimp only
      have spec := wfTeamB_map_refresh now
        (fun t => if t.assignee == some mid && t.status != TaskStatus.done then
          { t with assignee := none, updated_at := now,
                   status := match team.recovery_policy with
                     | RecoveryPolicy.autoReassign => TaskStatus.pending
                     | RecoveryPolicy.manual => TaskStatus.blocked }
          else t)
        (updateFirst (fun m => m.id == mid)
          (fun m => { m with status := MemberStatus.terminated,
                             terminated_at := some now,
                             termination_reason := some reason }) team.members)
        (fun u => by
          dsimp only
          by_cases hc : (u.assignee == some mid && u.status != TaskStatus.done) = true
          · rw [if_pos hc]
          · rw [if_neg hc])
        (fun u => by
          dsimp only
          by_cases hc : (u.assignee == some mid && u.status != TaskStatus.done) = true
          · rw [if_pos hc]
          · rw [if_neg hc])
        (fun u => by
          dsimp only
          by_cases hc : (u.assignee == some mid && u.status != TaskStatus.done) = true
          · right
            rw [if_pos hc]
            cases hpol : team.recovery_policy with
            | autoReassign =>
              intro hct
              exact TaskStatus.noConfusion hct
            | manual =>
              intro hct
              exact TaskStatus.noConfusion hct
          · left
            rw [if_neg hc])
        (wf_of_lookup hwf hlk)
      rw [spec.1]
      exact Or.inr ⟨(), rfl⟩

theorem autoClaimNextTask_ok_or_id (now : Nat) (tid : String) (mid : Nat)
    {s : EngineState} (hwf : stateWF s = true) :
    (autoClaimNextTask now tid mid s).2 = s ∨
      ∃ u, (autoClaimNextTask now tid mid s).1 = Except.ok u := by
  unfold autoClaimNextTask
  cases hlk : mapLookup tid s.teams with
  | none => exact Or.inl rfl
  | some team =>
    dsimp only
    have hwt := wf_of_lookup hwf hlk
    obtain ⟨hs1, hb1, hd1, hc1, hn1⟩ := wfTeamB_iff.mp hwt
    cases hm : team.members.find? (fun m => m.id == mid) with
    | none => exact Or.inl rfl
    | some member =>
      dsimp only
      cases ha : ensureMemberActive member with
      | error e => exact Or.inl rfl
      | ok u =>
        dsimp only
        cases hx : ensureMemberAllowedToExecute team member with
        | error e => exact Or.inl rfl
        | ok u =>
          dsimp only
          cases hp : ensurePlanGate member with
          | error e => exact Or.inl rfl
          | ok u =>
            dsimp only
            rw [refreshTaskBlocking_id now hd1 hc1]
            dsimp only
            rcases autoClaimScan_spec now mid team team.tasks.length 0 (by omega) with
              ⟨heq, hnone⟩ | ⟨j, t, hj, ht, hpend, hcf, hmin, heq⟩ <;>
              rw [heq] <;> exact Or.inr ⟨_, rfl⟩

theorem except_map_ok_ne_error {α β ε : Type} {x : Except ε α} {f : α → β} {u : α}
    {e : ε} (hok : x = Except.ok u) : x.map f ≠ Except.error e := by
  rw [hok]
  intro hc
  exact Except.noConfusion hc

/-! ### Locating a task by id in a sorted task list -/

theorem sortedByIdB_tail {x : TeamTask} {rest : List TeamTask}
    (h : sortedByIdB (x :: rest) = true) : sortedByIdB rest = true := by
  cases rest with
  | nil => rfl
  | cons y ys =>
    have h' : (decide (x.id < y.id) && sortedByIdB (y :: ys)) = true := h
    simp only [Bool.and_eq_true] at h'
    exact h'.2

theorem enumFrom_find?_of_mem {tasks : List TeamTask} {task : TeamTask}
    (hs : sortedByIdB tasks = true) (hmem : task ∈ tasks) :
    ∀ n : Nat, ∃ idx, tasks[idx]? = some task ∧
      (List.enumFrom n tasks).find? (fun p => p.2.id == task.id) =
        some (n + idx, task) ∧
      ∀ (k : Nat) (b : TeamTask), k < idx → tasks[k]? = some b → b.id ≠ task.id := by
  induction tasks with
  | nil => exact absurd hmem (List.not_mem_nil task)
  | cons x rest ih =>
    intro n
    by_cases hx : (x.id == task.id) = true
    · have hxt : x = task := by
        rcases List.mem_cons.mp hmem with he | hm
        · exact he.symm
        · exfalso
          have hp := (List.pairwise_cons.mp (sortedByIdB_pairwise hs)).1 task hm
          have hxe : x.id = task.id := by simpa using hx
          exact absurd hxe (Nat.ne_of_lt hp)
      subst hxt
      refine ⟨0, by simp, ?_, ?_⟩
      · show List.find? _ ((n, x) :: List.enumFrom (n + 1) rest) = _
        rw [List.find?_cons]
        simp
      · intro k b hk
        omega
    · have hm : task ∈ rest := by
        rcases List.mem_cons.mp hmem with he | hm
        · exfalso
          apply hx
          rw [he]
          simp
        · exact hm
      obtain ⟨idx, h1, h2, h3⟩ := ih (sortedByIdB_tail hs) hm (n + 1)
      refine ⟨idx + 1, by simpa using h1, ?_, ?_⟩
      · show List.find? _ ((n, x) :: List.enumFrom (n + 1) rest) = _
        rw [List.find?_cons]
        have hxb : ((n, x).2.id == task.id) = false := by simpa using hx
        rw [hxb]
        rw [h2]
        have hn : n + 1 + idx = n + (idx + 1) := by omega
        rw [hn]
      · intro k b hk hb
        cases k with
        | zero =>
          simp at hb
          subst hb
          intro hc
          apply hx
          simp [hc]
        | succ j =>
          simp only [List.getElem?_cons_succ] at hb
          exact h3 j b (by omega) hb

theorem find?_set_self {l : List TeamTask} {idx : Nat} {t t' : TeamTask}
    {task_id : Nat} (h : l[idx]? = some t)
    (hfirst : ∀ (k : Nat) (b : TeamTask), k < idx → l[k]? = some b → b.id ≠ task_id)
    (hidp : t'.id = task_id) :
    (l.set idx t').find? (fun u => u.id == task_id) = some t' := by
  induction l generalizing idx with
  | nil => simp at h
  | cons x rest ih =>
    cases idx with
    | zero =>
      show List.find? _ (t' :: rest) = _
      rw [List.find?_cons]
      have : (t'.id == task_id) = true := by simp [hidp]
      rw [this]
    | succ j =>
      show List.find? _ (x :: rest.set j t') = _
      rw [List.find?_cons]
      have hxne : x.id ≠ task_id :=
        hfirst 0 x (Nat.succ_pos j) (by simp)
      have hxb : (x.id == task_id) = false := by simpa using hxne
      rw [hxb]
      exact ih (by simpa using h)
        (fun k b hk hb => hfirst (k + 1) b (by omega) (by simpa using hb))

/-- Converting the positional no-conflict condition of `has_file_conflict`
into the id-based condition (distinct positions carry distinct ids in a
sorted list). -/
theorem conflict_free_id_iff {team : AgentTeam} {idx : Nat} {task : TeamTask}
    (hs : sortedByIdB team.tasks = true) (h : team.tasks[idx]? = some task) :
    (∀ (j : Nat) (b : TeamTask), j ≠ idx → team.tasks[j]? = some b →
        b.status = TaskStatus.inProgress →
        filesDisjointB (normFiles task.touched_files) (normFiles b.touched_files) = true) ↔
      (∀ other ∈ team.tasks, other.id ≠ task.id →
        other.status = TaskStatus.inProgress →
        ∀ f ∈ normFiles task.touched_files, f ∉ normFiles other.touched_files) := by
  constructor
  · intro hp other hmem hne hst
    obtain ⟨j, hj⟩ := List.mem_iff_getElem?.mp hmem
    have hjne : j ≠ idx := by
      intro hc
      subst hc
      rw [h] at hj
      injection hj with hj
      rw [hj] at hne
      exact hne rfl
    exact filesDisjointB_iff.mp (hp j other hjne hj hst)
  · intro hp j b hjne hj hst
    have hbm : b ∈ team.tasks := by
      have := List.mem_iff_getElem?.mpr ⟨j, hj⟩
      exact this
    have hbne : b.id ≠ task.id := sorted_ids_distinct hs hjne hj h
    exact filesDisjointB_iff.mpr (hp b hbm hbne hst)

/-- On a sorted task list, `find?` by a member's id returns exactly that
member of the list. -/
theorem find?_of_mem_sorted {tasks : List TeamTask} {task : TeamTask}
    (hs : sortedByIdB tasks = true) (hmem : task ∈ tasks) :
    tasks.find? (fun u => u.id == task.id) = some task := by
  obtain ⟨idx, hidx, -, hmin⟩ := enumFrom_find?_of_mem hs hmem 0
  have h := @find?_set_self tasks idx task task task.id hidx hmin rfl
  rwa [list_set_id hidx] at h

theorem find?_id_map_stepOkFn (now : Nat) (d : List Nat) (l : List TeamTask) (i : Nat) :
    (l.map (stepOkFn now d)).find? (fun u => u.id == i) =
      (l.find? (fun u => u.id == i)).map (stepOkFn now d) := by
  induction l with
  | nil => rfl
  | cons x xs ih =>
    simp only [List.map_cons, List.find?_cons, stepOkFn_id]
    cases hx : (x.id == i) with
    | true => rfl
    | false => exact ih

theorem find?_updateFirst {α : Type} (p : α → Bool) (g : α → α) {l : List α} {x : α}
    (h : l.find? p = some x) (hgp : p (g x) = true) :
    (updateFirst p g l).find? p = some (g x) := by
  induction l with
  | nil => exact Option.noConfusion h
  | cons y ys ih =>
    unfold updateFirst
    by_cases hy : p y = true
    · rw [List.find?_cons_of_pos _ hy] at h
      injection h with h
      subst h
      rw [if_pos hy]
      exact List.find?_cons_of_pos _ hgp
    · rw [List.find?_cons_of_neg _ hy] at h
      rw [if_neg hy, List.find?_cons_of_neg _ hy]
      exact ih h

/-- In an id-sorted task list, a member with a smaller id than the one at
position `j` sits at an earlier position. -/
theorem sorted_id_lt_index {l : List TeamTask} (hs : sortedByIdB l = true)
    {j : Nat} {t u : TeamTask} (hj : l[j]? = some t) (hu : u ∈ l)
    (hlt : u.id < t.id) : ∃ j', j' < j ∧ l[j']? = some u := by
  obtain ⟨j', hj'⟩ := List.mem_iff_getElem?.mp hu
  refine ⟨j', ?_, hj'⟩
  by_contra hge
  push_neg at hge
  rcases Nat.eq_or_lt_of_le hge with he | hlt2
  · rw [← he] at hj'
    rw [hj'] at hj
    injection hj with hj
    rw [hj] at hlt
    omega
  · have hp := List.pairwise_iff_getElem.mp (sortedByIdB_pairwise hs)
    obtain ⟨hjlen, hjel⟩ := List.getElem?_eq_some.mp hj
    obtain ⟨hj'len, hj'el⟩ := List.getElem?_eq_some.mp hj'
    have := hp j j' hjlen hj'len hlt2
    rw [hjel, hj'el] at this
    omega

/-- A positive file-conflict check names an actual conflicting task. -/
theorem conflict_exists_of_true {team : AgentTeam} {j : Nat} {t : TeamTask}
    (hs : sortedByIdB team.tasks = true) (hj : team.tasks[j]? = some t)
    (hcf : hasFileConflict team j = Except.ok true) :
    ∃ other ∈ team.tasks, other.id ≠ t.id ∧ other.status = TaskStatus.inProgress ∧
      ∃ f ∈ normFiles t.touched_files, f ∈ normFiles other.touched_files := by
  by_contra hno
  push_neg at hno
  have hpos := (conflict_free_id_iff hs hj).mpr hno
  have hfalse := (hasFileConflict_false_iff hj).mpr hpos
  rw [hcf] at hfalse
  injection hfalse with hfalse
  exact Bool.noConfusion hfalse

/-- A pending task skipped by the auto-claim scan has a file conflict. -/
theorem pending_conflict_of_not_claimable {team : AgentTeam} {j : Nat} {u : TeamTask}
    (hs : sortedByIdB team.tasks = true) (hj : team.tasks[j]? = some u)
    (hnot : ¬(u.status = TaskStatus.pending ∧ hasFileConflict team j = Except.ok false))
    (hupend : u.status = TaskStatus.pending) :
    ∃ other ∈ team.tasks, other.id ≠ u.id ∧ other.status = TaskStatus.inProgress ∧
      ∃ f ∈ normFiles u.touched_files, f ∈ normFiles other.touched_files := by
  have hne : hasFileConflict team j ≠ Except.ok false := fun hcf => hnot ⟨hupend, hcf⟩
  cases hcf2 : hasFileConflict team j with
  | error e =>
    rw [hasFileConflict_ok hj] at hcf2
    exact Except.noConfusion hcf2
  | ok b =>
    cases b with
    | false => exact absurd hcf2 hne
    | true => exact conflict_exists_of_true hs hj hcf2

theorem stepOkFn_assignee (now : Nat) (dIds : List Nat) (t : TeamTask) :
    (stepOkFn now dIds t).assignee = t.assignee := by
  rcases stepOkFn_cases now dIds t with h | ⟨_, _, h⟩ <;> rw [h]

/-- A task rewrite that fixes `Done` tasks and never produces `Done` keeps
the set of done ids. -/
theorem doneTaskIds_map_of (g : TeamTask → TeamTask)
    (hdi : ∀ t, t.status = TaskStatus.done → g t = t)
    (hnd : ∀ t, t.status ≠ TaskStatus.done → (g t).status ≠ TaskStatus.done)
    (tasks : List TeamTask) :
    doneTaskIds (tasks.map g) = doneTaskIds tasks := by
  induction tasks with
  | nil => rfl
  | cons t rest ih =>
    unfold doneTaskIds at ih ⊢
    simp only [List.map_cons, List.filter_cons]
    by_cases hd2 : t.status = TaskStatus.done
    · rw [hdi t hd2, if_pos (by simp [hd2]), if_pos (by simp [hd2])]
      simp only [List.map_cons]
      rw [ih]
    · have h1 : ((g t).status == TaskStatus.done) = false := by
        rw [Bool.eq_false_iff]
        intro hco
        exact hnd t hd2 (by simpa using hco)
      have h2 : (t.status == TaskStatus.done) = false := by
        rw [Bool.eq_false_iff]
        intro hco
        exact hd2 (by simpa using hco)
      rw [h1, h2]
      simpa using ih

/-- The status a refreshed non-`InProgress`, non-`Done` task ends with,
read against the done-id set. -/
theorem removed_task_status (now : Nat) (d : List Nat) {u : TeamTask}
    (h1 : u.status ≠ TaskStatus.inProgress) (h2 : u.status ≠ TaskStatus.done) :
    ((stepOkFn now d u).status = TaskStatus.blocked ↔ ∃ x ∈ u.deps, x ∉ d) ∧
    ((stepOkFn now d u).status = TaskStatus.pending ↔ ∀ x ∈ u.deps, x ∈ d) := by
  rw [stepOkFn_status now d h1 h2]
  have hany : (u.deps.any (fun x => !d.contains x) = true) ↔ ∃ x ∈ u.deps, x ∉ d := by
    simp [List.any_eq_true]
  constructor
  · constructor
    · intro hb
      by_cases ha : u.deps.any (fun x => !d.contains x) = true
      · exact hany.mp ha
      · rw [if_neg ha] at hb
        exact absurd hb (by decide)
    · intro hex
      rw [if_pos (hany.mpr hex)]
  · constructor
    · intro hp x hx
      by_contra hnx
      rw [if_pos (hany.mpr ⟨x, hx, hnx⟩)] at hp
      exact absurd hp (by decide)
    · intro hall
      rw [if_neg]
      intro hco
      obtain ⟨x, hx, hnx⟩ := hany.mp hco
      exact hnx (hall x hx)

/-- A team with `Manual` recovery policy, one member and one task the member
has claimed (`InProgress`, no dependencies). -/
def exampleState4 : EngineState :=
  applyOp 5 (Op.claimTask "t" 0 0)
    (applyOp 4 (Op.addTask "t" "T" [] [])
      (applyOp 3 (Op.addMember "t" "w" "m" false false)
        (applyOp 2 (Op.setRecoveryPolicy "t" RecoveryPolicy.manual)
          (applyOp 1 (Op.createTeam "t" TeamDisplayMode.auto false)
            EngineState.default))))

theorem exampleState4_reachable : Reachable exampleState4 :=
  Reachable.step 5 _ (Reachable.step 4 _ (Reachable.step 3 _
    (Reachable.step 2 _ (Reachable.step 1 _ Reachable.base))))

def exampleTask4 : TeamTask :=
  { id := 0, title := "T", status := TaskStatus.inProgress, assignee := some 0,
    deps := [], touched_files := [], input_tokens := 0, output_tokens := 0,
    cost_usd := 0, created_at := 4, updated_at := 5 }

def exampleTeam4 : AgentTeam :=
  { id := "t", mode := TeamDisplayMode.auto, delegation_only := false,
    recovery_policy := RecoveryPolicy.manual, members := [exampleMemberW],
    tasks := [exampleTask4], messages := [],
    next_member_id := 1, next_task_id := 1, next_message_id := 0 }

theorem exampleState4_lookup : mapLookup "t" exampleState4.teams = some exampleTeam4 := by
  decide

/-! ### Persistence: the JSON document written by `save` and read by
`load_or_default` (engine.rs:103-121), modelled at the level of the JSON
value tree produced by `serde_json`.  Each `#[derive(Serialize,
Deserialize)]` struct becomes an object keyed by field name; enums with
`#[serde(rename_all = "snake_case")]` become strings; `Option` becomes
`null` or the value; `BTreeMap<String, _>` becomes an object; numbers are
rationals (`f64` is idealized as `ℚ` throughout the development).  The
decoder looks fields up by name and, exactly where the struct has
`#[serde(default)]` (or `default_plan_status`), substitutes the default for
a missing field. -/

inductive Json where
  | null
  | bool (b : Bool)
  | num (q : ℚ)
  | str (s : String)
  | arr (xs : List Json)
  | obj (fields : List (String × Json))

def Json.isNull : Json → Bool
  | Json.null => true
  | _ => false

def encodeNat (n : Nat) : Json := Json.num (n : ℚ)

def decodeNat : Json → Option Nat
  | Json.num q => if ((q.num.toNat : ℚ) = q) then some q.num.toNat else none
  | _ => none

def decodeRat : Json → Option ℚ
  | Json.num q => some q
  | _ => none

def decodeString : Json → Option String
  | Json.str s => some s
  | _ => none

def decodeBool : Json → Option Bool
  | Json.bool b => some b
  | _ => none

def encodeOption {α : Type} (e : α → Json) : Option α → Json
  | none => Json.null
  | some x => e x

def decodeOption {α : Type} (d : Json → Option α) (j : Json) : Option (Option α) :=
  if j.isNull then some none else (d j).map some

def decodeListAux {α : Type} (d : Json → Option α) : List Json → Option (List α)
  | [] => some []
  | j :: rest =>
    match d j with
    | none => none
    | some x =>
      match decodeListAux d rest with
      | none => none
      | some xs => some (x :: xs)

def decodeList {α : Type} (d : Json → Option α) : Json → Option (List α)
  | Json.arr xs => decodeListAux d xs
  | _ => none

def decodeAssocAux {α : Type} (d : Json → Option α) :
    List (String × Json) → Option (List (String × α))
  | [] => some []
  | p :: rest =>
    match d p.2 with
    | none => none
    | some x =>
      match decodeAssocAux d rest with
      | none => none
      | some xs => some ((p.1, x) :: xs)

/-- A field with `#[serde(default)]`: a missing key takes the default. -/
def fieldOr {α : Type} (fields : List (String × Json)) (k : String)
    (d : Json → Option α) (dflt : α) : Option α :=
  match mapLookup k fields with
  | none => some dflt
  | some j => d j

/-- A required field: a missing key fails the decode. -/
def fieldReq {α : Type} (fields : List (String × Json)) (k : String)
    (d : Json → Option α) : Option α :=
  match mapLookup k fields with
  | none => none
  | some j => d j

theorem decodeNat_encode (n : Nat) : decodeNat (encodeNat n) = some n := by
  unfold encodeNat decodeNat
  dsimp only
  have h : (((n : ℚ).num.toNat : ℚ)) = (n : ℚ) := by
    simp
  rw [if_pos h]
  simp

theorem decodeOption_encode {α : Type} {e : α → Json} {d : Json → Option α}
    (h : ∀ x, d (e x) = some x) (hnn : ∀ x, (e x).isNull = false)
    (o : Option α) : decodeOption d (encodeOption e o) = some o := by
  cases o with
  | none => rfl
  | some x =>
    show decodeOption d (e x) = some (some x)
    unfold decodeOption
    rw [hnn x]
    rw [if_neg (by decide)]
    rw [h x]
    rfl

theorem decodeListAux_encode {α : Type} {e : α → Json} {d : Json → Option α}
    (h : ∀ x, d (e x) = some x) (xs : List α) :
    decodeListAux d (xs.map e) = some xs := by
  induction xs with
  | nil => rfl
  | cons x rest ih =>
    show decodeListAux d (e x :: rest.map e) = some (x :: rest)
    unfold decodeListAux
    rw [h x, ih]

theorem decodeAssocAux_encode {α : Type} {e : α → Json} {d : Json → Option α}
    (h : ∀ x, d (e x) = some x) (l : List (String × α)) :
    decodeAssocAux d (l.map (fun p => (p.1, e p.2))) = some l := by
  induction l with
  | nil => rfl
  | cons p rest ih =>
    show decodeAssocAux d ((p.1, e p.2) :: rest.map (fun p => (p.1, e p.2))) = some (p :: rest)
    unfold decodeAssocAux
    rw [h p.2, ih]

def encodeTaskStatus : TaskStatus → Json
  | TaskStatus.pending => Json.str "pending"
  | TaskStatus.blocked => Json.str "blocked"
  | TaskStatus.inProgress => Json.str "in_progress"
  | TaskStatus.done => Json.str "done"

def decodeTaskStatus : Json → Option TaskStatus
  | Json.str "pending" => some TaskStatus.pending
  | Json.str "blocked" => some TaskStatus.blocked
  | Json.str "in_progress" => some TaskStatus.inProgress
  | Json.str "done" => some TaskStatus.done
  | _ => none

def encodeMemberStatus : MemberStatus → Json
  | MemberStatus.active => Json.str "active"
  | MemberStatus.terminated => Json.str "terminated"

def decodeMemberStatus : Json → Option MemberStatus
  | Json.str "active" => some MemberStatus.active
  | Json.str "terminated" => some MemberStatus.terminated
  | _ => none

def encodePlanStatus : PlanStatus → Json
  | PlanStatus.planning => Json.str "planning"
  | PlanStatus.approved => Json.str "approved"
  | PlanStatus.rejected => Json.str "rejected"

def decodePlanStatus : Json → Option PlanStatus
  | Json.str "planning" => some PlanStatus.planning
  | Json.str "approved" => some PlanStatus.approved
  | Json.str "rejected" => some PlanStatus.rejected
  | _ => none

def encodeRecoveryPolicy : RecoveryPolicy → Json
  | RecoveryPolicy.autoReassign => Json.str "auto_reassign"
  | RecoveryPolicy.manual => Json.str "manual"

def decodeRecoveryPolicy : Json → Option RecoveryPolicy
  | Json.str "auto_reassign" => some RecoveryPolicy.autoReassign
  | Json.str "manual" => some RecoveryPolicy.manual
  | _ => none

def encodeTeamDisplayMode : TeamDisplayMode → Json
  | TeamDisplayMode.inProcess => Json.str "in_process"
  | TeamDisplayMode.splitPane => Json.str "split_pane"
  | TeamDisplayMode.auto => Json.str "auto"

def decodeTeamDisplayMode : Json → Option TeamDisplayMode
  | Json.str "in_process" => some TeamDisplayMode.inProcess
  | Json.str "split_pane" => some TeamDisplayMode.splitPane
  | Json.str "auto" => some TeamDisplayMode.auto
  | _ => none

def encodeTeamMessagePriority : TeamMessagePriority → Json
  | TeamMessagePriority.low => Json.str "low"
  | TeamMessagePriority.normal => Json.str "normal"
  | TeamMessagePriority.high => Json.str "high"
  | TeamMessagePriority.urgent => Json.str "urgent"

def decodeTeamMessagePriority : Json → Option TeamMessagePriority
  | Json.str "low" => some TeamMessagePriority.low
  | Json.str "normal" => some TeamMessagePriority.normal
  | Json.str "high" => some TeamMessagePriority.high
  | Json.str "urgent" => some TeamMessagePriority.urgent
  | _ => none

theorem decodeTaskStatus_encode (x : TaskStatus) :
    decodeTaskStatus (encodeTaskStatus x) = some x := by
  cases x <;> rfl

theorem decodeMemberStatus_encode (x : MemberStatus) :
    decodeMemberStatus (encodeMemberStatus x) = some x := by
  cases x <;> rfl

theorem decodePlanStatus_encode (x : PlanStatus) :
    decodePlanStatus (encodePlanStatus x) = some x := by
  cases x <;> rfl

theorem decodeRecoveryPolicy_encode (x : RecoveryPolicy) :
    decodeRecoveryPolicy (encodeRecoveryPolicy x) = some x := by
  cases x <;> rfl

theorem decodeTeamDisplayMode_encode (x : TeamDisplayMode) :
    decodeTeamDisplayMode (encodeTeamDisplayMode x) = some x := by
  cases x <;> rfl

theorem decodeTeamMessagePriority_encode (x : TeamMessagePriority) :
    decodeTeamMessagePriority (encodeTeamMessagePriority x) = some x := by
  cases x <;> rfl

def encodePaneState (p : PaneState) : Json :=
  Json.obj [("id", encodeNat p.id), ("title", Json.str p.title),
    ("cwd", encodeOption Json.str p.cwd)]

def decodePaneState : Json → Option PaneState
  | Json.obj fields => do
    let id ← fieldReq fields "id" decodeNat
    let title ← fieldReq fields "title" decodeString
    let cwd ← fieldReq fields "cwd" (decodeOption decodeString)
    some { id := id, title := title, cwd := cwd }
  | _ => none

theorem decodePaneState_encode (p : PaneState) :
    decodePaneState (encodePaneState p) = some p := by
  have hos : ∀ o : Option String,
      decodeOption decodeString (encodeOption Json.str o) = some o :=
    decodeOption_encode (fun s => rfl) (fun s => rfl)
  simp [encodePaneState, decodePaneState, fieldReq, mapLookup,
    decodeNat_encode, decodeString, hos]

def encodeWindowState (w : WindowState) : Json :=
  Json.obj [("id", encodeNat w.id), ("title", Json.str w.title),
    ("panes", Json.arr (w.panes.map encodePaneState)),
    ("active_pane", encodeNat w.active_pane)]

def decodeWindowState : Json → Option WindowState
  | Json.obj fields => do
    let id ← fieldReq fields "id" decodeNat
    let title ← fieldReq fields "title" decodeString
    let panes ← fieldReq fields "panes" (decodeList decodePaneState)
    let active_pane ← fieldReq fields "active_pane" decodeNat
    some { id := id, title := title, panes := panes, active_pane := active_pane }
  | _ => none

theorem decodeWindowState_encode (w : WindowState) :
    decodeWindowState (encodeWindowState w) = some w := by
  have hlp : decodeListAux decodePaneState (w.panes.map encodePaneState) = some w.panes :=
    decodeListAux_encode decodePaneState_encode w.panes
  simp [encodeWindowState, decodeWindowState, fieldReq, mapLookup,
    decodeNat_encode, decodeString, decodeList, hlp]

def encodeSessionState (s : SessionState) : Json :=
  Json.obj [("name", Json.str s.name),
    ("windows", Json.arr (s.windows.map encodeWindowState)),
    ("active_window", encodeNat s.active_window)]

def decodeSessionState : Json → Option SessionState
  | Json.obj fields => do
    let name ← fieldReq fields "name" decodeString
    let windows ← fieldReq fields "windows" (decodeList decodeWindowState)
    let active_window ← fieldReq fields "active_window" decodeNat
    some { name := name, windows := windows, active_window := active_window }
  | _ => none

theorem decodeSessionState_encode (s : SessionState) :
    decodeSessionState (encodeSessionState s) = some s := by
  have hlw : decodeListAux decodeWindowState (s.windows.map encodeWindowState)
      = some s.windows :=
    decodeListAux_encode decodeWindowState_encode s.windows
  simp [encodeSessionState, decodeSessionState, fieldReq, mapLookup,
    decodeNat_encode, decodeString, decodeList, hlw]

def encodeMemberState (m : MemberState) : Json :=
  Json.obj [("id", encodeNat m.id), ("name", Json.str m.name),
    ("model", Json.str m.model), ("is_lead", Json.bool m.is_lead),
    ("status", encodeMemberStatus m.status),
    ("terminated_at", encodeOption encodeNat m.terminated_at),
    ("termination_reason", encodeOption Json.str m.termination_reason),
    ("require_plan_approval", Json.bool m.require_plan_approval),
    ("plan_status", encodePlanStatus m.plan_status),
    ("latest_plan", encodeOption Json.str m.latest_plan),
    ("plan_updated_at", encodeOption encodeNat m.plan_updated_at),
    ("input_tokens", encodeNat m.input_tokens),
    ("output_tokens", encodeNat m.output_tokens),
    ("cost_usd", Json.num m.cost_usd)]

def decodeMemberState : Json → Option MemberState
  | Json.obj fields => do
    let id ← fieldReq fields "id" decodeNat
    let name ← fieldReq fields "name" decodeString
    let model ← fieldReq fields "model" decodeString
    let is_lead ← fieldOr fields "is_lead" decodeBool false
    let status ← fieldOr fields "status" decodeMemberStatus MemberStatus.active
    let terminated_at ← fieldOr fields "terminated_at" (decodeOption decodeNat) none
    let termination_reason ←
      fieldOr fields "termination_reason" (decodeOption decodeString) none
    let require_plan_approval ← fieldOr fields "require_plan_approval" decodeBool false
    let plan_status ← fieldOr fields "plan_status" decodePlanStatus PlanStatus.planning
    let latest_plan ← fieldOr fields "latest_plan" (decodeOption decodeString) none
    let plan_updated_at ← fieldOr fields "plan_updated_at" (decodeOption decodeNat) none
    let input_tokens ← fieldOr fields "input_tokens" decodeNat 0
    let output_tokens ← fieldOr fields "output_tokens" decodeNat 0
    let cost_usd ← fieldOr fields "cost_usd" decodeRat 0
    some { id := id, name := name, model := model, is_lead := is_lead,
           status := status, terminated_at := terminated_at,
           termination_reason := termination_reason,
           require_plan_approval := require_plan_approval,
           plan_status := plan_status, latest_plan := latest_plan,
           plan_updated_at := plan_updated_at, input_tokens := input_tokens,
           output_tokens := output_tokens, cost_usd := cost_usd }
  | _ => none

theorem decodeMemberState_encode (m : MemberState) :
    decodeMemberState (encodeMemberState m) = some m := by
  have hos : ∀ o : Option String,
      decodeOption decodeString (encodeOption Json.str o) = some o :=
    decodeOption_encode (fun s => rfl) (fun s => rfl)
  have hon : ∀ o : Option Nat,
      decodeOption decodeNat (encodeOption encodeNat o) = some o :=
    decodeOption_encode decodeNat_encode (fun n => rfl)
  simp [encodeMemberState, decodeMemberState, fieldReq, fieldOr, mapLookup,
    decodeNat_encode, decodeString, decodeBool, decodeRat, hos, hon,
    decodeMemberStatus_encode, decodePlanStatus_encode]

def encodeTeamTask (t : TeamTask) : Json :=
  Json.obj [("id", encodeNat t.id), ("title", Json.str t.title),
    ("status", encodeTaskStatus t.status),
    ("assignee", encodeOption encodeNat t.assignee),
    ("deps", Json.arr (t.deps.map encodeNat)),
    ("touched_files", Json.arr (t.touched_files.map Json.str)),
    ("input_tokens", encodeNat t.input_tokens),
    ("output_tokens", encodeNat t.output_tokens),
    ("cost_usd", Json.num t.cost_usd),
    ("created_at", encodeNat t.created_at),
    ("updated_at", encodeNat t.updated_at)]

def decodeTeamTask : Json → Option TeamTask
  | Json.obj fields => do
    let id ← fieldReq fields "id" decodeNat
    let title ← fieldReq fields "title" decodeString
    let status ← fieldReq fields "status" decodeTaskStatus
    let assignee ← fieldReq fields "assignee" (decodeOption decodeNat)
    let deps ← fieldOr fields "deps" (decodeList decodeNat) []
    let touched_files ← fieldOr fields "touched_files" (decodeList decodeString) []
    let input_tokens ← fieldOr fields "input_tokens" decodeNat 0
    let output_tokens ← fieldOr fields "output_tokens" decodeNat 0
    let cost_usd ← fieldOr fields "cost_usd" decodeRat 0
    let created_at ← fieldOr fields "created_at" decodeNat 0
    let updated_at ← fieldOr fields "updated_at" decodeNat 0
    some { id := id, title := title, status := status, assignee := assignee,
           deps := deps, touched_files := touched_files,
           input_tokens := input_tokens, output_tokens := output_tokens,
           cost_usd := cost_usd, created_at := created_at,
           updated_at := updated_at }
  | _ => none

theorem decodeTeamTask_encode (t : TeamTask) :
    decodeTeamTask (encodeTeamTask t) = some t := by
  have hon : ∀ o : Option Nat,
      decodeOption decodeNat (encodeOption encodeNat o) = some o :=
    decodeOption_encode decodeNat_encode (fun n => rfl)
  have hln : decodeListAux decodeNat (t.deps.map encodeNat) = some t.deps :=
    decodeListAux_encode decodeNat_encode t.deps
  have hls : decodeListAux decodeString (t.touched_files.map Json.str)
      = some t.touched_files :=
    @decodeListAux_encode String Json.str decodeString (fun s => rfl) t.touched_files
  simp [encodeTeamTask, decodeTeamTask, fieldReq, fieldOr, mapLookup,
    decodeNat_encode, decodeString, decodeRat, decodeList, hon, hln, hls,
    decodeTaskStatus_encode]

def encodeTeamMessage (msg : TeamMessage) : Json :=
  Json.obj [("id", encodeNat msg.id),
    ("from_member", encodeOption encodeNat msg.from_member),
    ("to_member", encodeOption encodeNat msg.to_member),
    ("text", Json.str msg.text),
    ("priority", encodeTeamMessagePriority msg.priority),
    ("created_at", encodeNat msg.created_at),
    ("read_by", Json.arr (msg.read_by.map encodeNat))]

def decodeTeamMessage : Json → Option TeamMessage
  | Json.obj fields => do
    let id ← fieldReq fields "id" decodeNat
    let from_member ← fieldReq fields "from_member" (decodeOption decodeNat)
    let to_member ← fieldReq fields "to_member" (decodeOption decodeNat)
    let text ← fieldReq fields "text" decodeString
    let priority ←
      fieldOr fields "priority" decodeTeamMessagePriority TeamMessagePriority.normal
    let created_at ← fieldOr fields "created_at" decodeNat 0
    let read_by ← fieldOr fields "read_by" (decodeList decodeNat) []
    some { id := id, from_member := from_member, to_member := to_member,
           text := text, priority := priority, created_at := created_at,
           read_by := read_by }
  | _ => none

theorem decodeTeamMessage_encode (msg : TeamMessage) :
    decodeTeamMessage (encodeTeamMessage msg) = some msg := by
  have hon : ∀ o : Option Nat,
      decodeOption decodeNat (encodeOption encodeNat o) = some o :=
    decodeOption_encode decodeNat_encode (fun n => rfl)
  have hln : decodeListAux decodeNat (msg.read_by.map encodeNat) = some msg.read_by :=
    decodeListAux_encode decodeNat_encode msg.read_by
  simp [encodeTeamMessage, decodeTeamMessage, fieldReq, fieldOr, mapLookup,
    decodeNat_encode, decodeString, decodeList, hon, hln,
    decodeTeamMessagePriority_encode]

def encodeAgentTeam (team : AgentTeam) : Json :=
  Json.obj [("id", Json.str team.id),
    ("mode", encodeTeamDisplayMode team.mode),
    ("delegation_only", Json.bool team.delegation_only),
    ("recovery_policy", encodeRecoveryPolicy team.recovery_policy),
    ("members", Json.arr (team.members.map encodeMemberState)),
    ("tasks", Json.arr (team.tasks.map encodeTeamTask)),
    ("messages", Json.arr (team.messages.map encodeTeamMessage)),
    ("next_member_id", encodeNat team.next_member_id),
    ("next_task_id", encodeNat team.next_task_id),
    ("next_message_id", encodeNat team.next_message_id)]

def decodeAgentTeam : Json → Option AgentTeam
  | Json.obj fields => do
    let id ← fieldReq fields "id" decodeString
    let mode ← fieldReq fields "mode" decodeTeamDisplayMode
    let delegation_only ← fieldOr fields "delegation_only" decodeBool false
    let recovery_policy ←
      fieldOr fields "recovery_policy" decodeRecoveryPolicy RecoveryPolicy.autoReassign
    let members ← fieldOr fields "members" (decodeList decodeMemberState) []
    let tasks ← fieldOr fields "tasks" (decodeList decodeTeamTask) []
    let messages ← fieldOr fields "messages" (decodeList decodeTeamMessage) []
    let next_member_id ← fieldOr fields "next_member_id" decodeNat 0
    let next_task_id ← fieldOr fields "next_task_id" decodeNat 0
    let next_message_id ← fieldOr fields "next_message_id" decodeNat 0
    some { id := id, mode := mode, delegation_only := delegation_only,
           recovery_policy := recovery_policy, members := members,
           tasks := tasks, messages := messages,
           next_member_id := next_member_id, next_task_id := next_task_id,
           next_message_id := next_message_id }
  | _ => none

theorem decodeAgentTeam_encode (team : AgentTeam) :
    decodeAgentTeam (encodeAgentTeam team) = some team := by
  have hlm : decodeListAux decodeMemberState (team.members.map encodeMemberState)
      = some team.members :=
    decodeListAux_encode decodeMemberState_encode team.members
  have hlt : decodeListAux decodeTeamTask (team.tasks.map encodeTeamTask)
      = some team.tasks :=
    decodeListAux_encode decodeTeamTask_encode team.tasks
  have hlg : decodeListAux decodeTeamMessage (team.messages.map encodeTeamMessage)
      = some team.messages :=
    decodeListAux_encode decodeTeamMessage_encode team.messages
  simp [encodeAgentTeam, decodeAgentTeam, fieldReq, fieldOr, mapLookup,
    decodeNat_encode, decodeString, decodeBool, decodeList, hlm, hlt, hlg,
    decodeTeamDisplayMode_encode, decodeRecoveryPolicy_encode]

def encodeStringMap {α : Type} (e : α → Json) (l : List (String × α)) : Json :=
  Json.obj (l.map (fun p => (p.1, e p.2)))

def decodeStringMap {α : Type} (d : Json → Option α) : Json → Option (List (String × α))
  | Json.obj fs => decodeAssocAux d fs
  | _ => none

theorem decodeStringMap_encode {α : Type} {e : α → Json} {d : Json → Option α}
    (h : ∀ x, d (e x) = some x) (l : List (String × α)) :
    decodeStringMap d (encodeStringMap e l) = some l := by
  unfold encodeStringMap decodeStringMap
  exact decodeAssocAux_encode h l

/-- `EngineState::save` up to the JSON text layer: the document
`serde_json::to_string_pretty` renders. -/
def encodeEngineState (s : EngineState) : Json :=
  Json.obj [("sessions", encodeStringMap encodeSessionState s.sessions),
    ("active_session", encodeOption Json.str s.active_session),
    ("teams", encodeStringMap encodeAgentTeam s.teams)]

/-- `EngineState::load_or_default` after parsing: how `serde` rebuilds the
aggregate root from the document (`teams` falls back to the empty map under
its `#[serde(default)]`). -/
def decodeEngineState : Json → Option EngineState
  | Json.obj fields => do
    let sessions ← fieldReq fields "sessions" (decodeStringMap decodeSessionState)
    let active_session ← fieldReq fields "active_session" (decodeOption decodeString)
    let teams ← fieldOr fields "teams" (decodeStringMap decodeAgentTeam) []
    some { sessions := sessions, active_session := active_session, teams := teams }
  | _ => none

theorem decodeEngineState_encode (s : EngineState) :
    decodeEngineState (encodeEngineState s) = some s := by
  have hos : ∀ o : Option String,
      decodeOption decodeString (encodeOption Json.str o) = some o :=
    decodeOption_encode (fun x => rfl) (fun x => rfl)
  have hms : decodeStringMap decodeSessionState
      (encodeStringMap encodeSessionState s.sessions) = some s.sessions :=
    decodeStringMap_encode decodeSessionState_encode s.sessions
  have hmt : decodeStringMap decodeAgentTeam
      (encodeStringMap encodeAgentTeam s.teams) = some s.teams :=
    decodeStringMap_encode decodeAgentTeam_encode s.teams
  simp [encodeEngineState, decodeEngineState, fieldReq, fieldOr, mapLookup,
    hos, hms, hmt]

/-! ### The server loop (server.rs / protocol.rs)

`handle_client` parses a request, dispatches it against the engine under the
lock, then runs `let _ = guard.save();` — the persistence result is
discarded — and finally completes the precomputed response with the session
and team lists before writing it.  Whether the save succeeded is an
environment fact, so it enters the model as the `saveOk` argument of
`handleRequest`, bound exactly where `guard.save()` is called. -/

/-- `ServerRequest` from protocol.rs. -/
inductive ServerRequest where
  | ping
  | listSessions
  | createSession (name : String)
  | attachSession (name : String)
  | teamList
  | teamCreate (team_id : String) (mode : TeamDisplayMode) (delegation_only : Bool)
  | teamAddMember (team_id name mmodel : String) (require_plan_approval is_lead : Bool)
  | teamAddTask (team_id title : String) (deps : List Nat) (touched_files : List String)
  | teamSubmitPlan (team_id : String) (member_id : Nat) (plan : String)
  | teamClaimTask (team_id : String) (member_id task_id : Nat)
  | teamCompleteTask (team_id : String) (member_id task_id input_tokens output_tokens : Nat)
      (cost_usd : ℚ)
  | teamSetPlanStatus (team_id : String) (member_id : Nat) (status : PlanStatus)
  | teamAutoClaim (team_id : String) (member_id : Nat)
  | teamSetMode (team_id : String) (mode : TeamDisplayMode)
  | teamSetDelegationOnly (team_id : String) (delegation_only : Bool)
  | teamSetRecoveryPolicy (team_id : String) (recovery_policy : RecoveryPolicy)
  | teamRemoveMember (team_id : String) (member_id : Nat) (reason : String)
  | teamRestartMember (team_id : String) (member_id : Nat)
  | teamCleanup (team_id : String)
  | teamPruneTerminated (team_id : String)
  | teamPostMessage (team_id : String) (from_member to_member : Option Nat)
      (text : String) (priority : TeamMessagePriority)
  | teamListMessages (team_id : String) (viewer_member : Option Nat) (unread_only : Bool)
  | teamMarkMessageRead (team_id : String) (member_id message_id : Nat)
  | teamUsage (team_id : String)

/-- `ServerResponse` from protocol.rs. -/
structure ServerResponse where
  ok : Bool
  message : String
  sessions : List String
  teams : List AgentTeam
  tasks : List TeamTask
  messages : List TeamMessage
  usage : Option TeamUsage

/-- `ServerResponse::ok`. -/
def respOk (message : String) : ServerResponse :=
  { ok := true, message := message, sessions := [], teams := [], tasks := [],
    messages := [], usage := none }

/-- `ServerResponse::err`. -/
def respErr (message : String) : ServerResponse :=
  { ok := false, message := message, sessions := [], teams := [], tasks := [],
    messages := [], usage := none }

/-- `err.to_string()`: the message each `anyhow!`/`bail!` site renders. -/
def EngineError.render : EngineError → String
  | EngineError.teamExists team_id => "team already exists: " ++ team_id
  | EngineError.unknownTeam team_id => "unknown team: " ++ team_id
  | EngineError.unknownMember member_id => "unknown member id: " ++ toString member_id
  | EngineError.unknownTask task_id => "unknown task id: " ++ toString task_id
  | EngineError.unknownMessage message_id =>
    "unknown message id: " ++ toString message_id
  | EngineError.unknownDependency dep => "unknown dependency task id: " ++ toString dep
  | EngineError.memberNotActive member_id =>
    "member is not active: " ++ toString member_id
  | EngineError.delegationOnlyLead =>
    "delegation-only mode: lead member cannot execute tasks"
  | EngineError.planApprovalRequired member_id =>
    "plan approval required for member " ++ toString member_id
  | EngineError.taskNotPending task_id => "task is not pending: " ++ toString task_id
  | EngineError.fileConflict task_id =>
    "task has file conflict with another in-progress task: " ++ toString task_id
  | EngineError.taskNotInProgress task_id =>
    "task is not in progress: " ++ toString task_id
  | EngineError.notAssignee member_id task_id =>
    "member " ++ toString member_id ++ " is not assignee for task " ++ toString task_id
  | EngineError.missingDep task_id dep =>
    "task " ++ toString task_id ++ " has missing dependency " ++ toString dep
  | EngineError.invalidTaskIndex => "invalid task index"

/-- The `match req { ... }` of `handle_client` (server.rs:65-256): the
response and the in-memory state after the store call. -/
def dispatchRequest (now : Nat) (req : ServerRequest) (st : EngineState) :
    ServerResponse × EngineState :=
  match req with
  | ServerRequest.ping => (respOk "pong", st)
  | ServerRequest.listSessions =>
    ({ respOk "ok" with sessions := listSessions st }, st)
  | ServerRequest.createSession name =>
    (respOk ("created session: " ++ name), createSession name st)
  | ServerRequest.attachSession name =>
    (respOk ("active session: " ++ name), setActiveSession name st)
  | ServerRequest.teamList =>
    ({ respOk "ok" with teams := st.teams.map (fun p => p.2) }, st)
  | ServerRequest.teamCreate team_id mode delegation_only =>
    let r := createTeam team_id mode delegation_only st
    (match r.1 with
     | Except.ok _ => respOk ("created team: " ++ team_id)
     | Except.error e => respErr e.render, r.2)
  | ServerRequest.teamAddMember team_id name mmodel require_plan_approval is_lead =>
    let r := addMember team_id name mmodel require_plan_approval is_lead st
    (match r.1 with
     | Except.ok member =>
       respOk ("member added: " ++ member.name ++ " (id=" ++ toString member.id ++ ")")
     | Except.error e => respErr e.render, r.2)
  | ServerRequest.teamAddTask team_id title deps touched_files =>
    let r := addTask now team_id title deps touched_files st
    (match r.1 with
     | Except.ok task =>
       { respOk ("task added: " ++ task.title ++ " (id=" ++ toString task.id ++ ")") with
           tasks := [task] }
     | Except.error e => respErr e.render, r.2)
  | ServerRequest.teamSubmitPlan team_id member_id plan =>
    let r := submitPlan now team_id member_id plan st
    (match r.1 with
     | Except.ok _ => respOk ("plan submitted for member: " ++ toString member_id)
     | Except.error e => respErr e.render, r.2)
  | ServerRequest.teamClaimTask team_id member_id task_id =>
    let r := claimTask now team_id member_id task_id st
    (match r.1 with
     | Except.ok _ => respOk ("task claimed: " ++ toString task_id)
     | Except.error e => respErr e.render, r.2)
  | ServerRequest.teamCompleteTask team_id member_id task_id inTok outTok cost_usd =>
    let r := completeTask now team_id member_id task_id inTok outTok cost_usd st
    (match r.1 with
     | Except.ok _ => respOk ("task completed: " ++ toString task_id)
     | Except.error e => respErr e.render, r.2)
  | ServerRequest.teamSetPlanStatus team_id member_id status =>
    let r := setPlanStatus now team_id member_id status st
    (match r.1 with
     | Except.ok _ => respOk ("member plan status updated: " ++ toString member_id)
     | Except.error e => respErr e.render, r.2)
  | ServerRequest.teamAutoClaim team_id member_id =>
    let r := autoClaimNextTask now team_id member_id st
    (match r.1 with
     | Except.ok (some task_id) => respOk ("auto-claimed task: " ++ toString task_id)
     | Except.ok none => respOk "no claimable task"
     | Except.error e => respErr e.render, r.2)
  | ServerRequest.teamSetMode team_id mode =>
    let r := setTeamMode team_id mode st
    (match r.1 with
     | Except.ok _ => respOk "team mode updated"
     | Except.error e => respErr e.render, r.2)
  | ServerRequest.teamSetDelegationOnly team_id delegation_only =>
    let r := setDelegationOnly team_id delegation_only st
    (match r.1 with
     | Except.ok _ => respOk "delegation mode updated"
     | Except.error e => respErr e.render, r.2)
  | ServerRequest.teamSetRecoveryPolicy team_id recovery_policy =>
    let r := setRecoveryPolicy team_id recovery_policy st
    (match r.1 with
     | Except.ok _ => respOk "recovery policy updated"
     | Except.error e => respErr e.render, r.2)
  | ServerRequest.teamRemoveMember team_id member_id reason =>
    let r := removeMember now team_id member_id reason st
    (match r.1 with
     | Except.ok _ => respOk ("member terminated: " ++ toString member_id)
     | Except.error e => respErr e.render, r.2)
  | ServerRequest.teamRestartMember team_id member_id =>
    let r := restartMember team_id member_id st
    (match r.1 with
     | Except.ok _ => respOk ("member restarted: " ++ toString member_id)
     | Except.error e => respErr e.render, r.2)
  | ServerRequest.teamPruneTerminated team_id =>
    let r := pruneTerminated team_id st
    (match r.1 with
     | Except.ok _ => respOk "terminated members pruned"
     | Except.error e => respErr e.render, r.2)
  | ServerRequest.teamCleanup team_id =>
    let r := cleanupTeam team_id st
    (match r.1 with
     | Except.ok _ => respOk ("team removed: " ++ team_id)
     | Except.error e => respErr e.render, r.2)
  | ServerRequest.teamPostMessage team_id from_member to_member text priority =>
    let r := postMessage now team_id from_member to_member text priority st
    (match r.1 with
     | Except.ok msg =>
       { respOk ("message posted: " ++ toString msg.id) with messages := [msg] }
     | Except.error e => respErr e.render, r.2)
  | ServerRequest.teamListMessages team_id viewer_member unread_only =>
    (match teamMessages team_id viewer_member unread_only st with
     | Except.ok msgs => { respOk "ok" with messages := msgs }
     | Except.error e => respErr e.render, st)
  | ServerRequest.teamMarkMessageRead team_id member_id message_id =>
    let r := markMessageRead team_id member_id message_id st
    (match r.1 with
     | Except.ok _ => respOk "message marked as read"
     | Except.error e => respErr e.render, r.2)
  | ServerRequest.teamUsage team_id =>
    (match teamUsage team_id st with
     | Except.ok u => { respOk "ok" with usage := some u }
     | Except.error e => respErr e.render, st)

/-- One iteration of the `handle_client` loop after a request parses
(server.rs:62-270).  `saveOk` is whether `guard.save()` succeeded; the code
binds it to `_` and never consults it. -/
def handleRequest (now : Nat) (saveOk : Bool) (req : ServerRequest)
    (st : EngineState) : ServerResponse × EngineState :=
  let r := dispatchRequest now req st
  let resp1 := { r.1 with sessions := listSessions r.2 }
  let resp2 := if resp1.teams.isEmpty then
      { resp1 with teams := r.2.teams.map (fun p => p.2) }
    else resp1
  (resp2, r.2)

/-! ### The claims -/

/-- C5: in every reachable state, a store operation that returns a
domain-level error leaves the engine state exactly as it was — errors never
mutate state. -/
theorem error_leaves_state_unchanged {s : EngineState} (h : Reachable s)
    (now : Nat) (op : Op) {e : EngineError}
    (he : (runOp now op s).1 = Except.error e) :
    (runOp now op s).2 = s := by
  have hwf := reachable_wf h
  cases op with
  | createSession name => exact absurd he (by simp [runOp])
  | setActiveSession name => exact absurd he (by simp [runOp])
  | listSessions => rfl
  | teamMessages tid viewer unread => rfl
  | teamUsage tid => rfl
  | createTeam tid mode d =>
    rcases createTeam_ok_or_id tid mode d s with hst | ⟨u, hok⟩
    · exact hst
    · exact absurd he (except_map_ok_ne_error hok)
  | addMember tid n m rpa lead =>
    rcases addMember_ok_or_id tid n m rpa lead s with hst | ⟨u, hok⟩
    · exact hst
    · exact absurd he (except_map_ok_ne_error hok)
  | addTask tid title deps files =>
    rcases addTask_ok_or_id now tid title deps files hwf with hst | ⟨u, hok⟩
    · exact hst
    · exact absurd he (except_map_ok_ne_error hok)
  | submitPlan tid mid plan =>
    rcases submitPlan_ok_or_id now tid mid plan s with hst | ⟨u, hok⟩
    · exact hst
    · exact absurd he (except_map_ok_ne_error hok)
  | claimTask tid mid task_id =>
    rcases claimTask_ok_or_id now tid mid task_id hwf with hst | ⟨u, hok⟩
    · exact hst
    · exact absurd he (except_map_ok_ne_error hok)
  | completeTask tid mid task_id inTok outTok c =>
    rcases completeTask_ok_or_id now tid mid task_id inTok outTok c hwf with hst | ⟨u, hok⟩
    · exact hst
    · exact absurd he (except_map_ok_ne_error hok)
  | autoClaimNextTask tid mid =>
    rcases autoClaimNextTask_ok_or_id now tid mid hwf with hst | ⟨u, hok⟩
    · exact hst
    · exact absurd he (except_map_ok_ne_error hok)
  | setPlanStatus tid mid status =>
    rcases setPlanStatus_ok_or_id now tid mid status s with hst | ⟨u, hok⟩
    · exact hst
    · exact absurd he (except_map_ok_ne_error hok)
  | setDelegationOnly tid d =>
    rcases setDelegationOnly_ok_or_id tid d s with hst | ⟨u, hok⟩
    · exact hst
    · exact absurd he (except_map_ok_ne_error hok)
  | setTeamMode tid mode =>
    rcases setTeamMode_ok_or_id tid mode s with hst | ⟨u, hok⟩
    · exact hst
    · exact absurd he (except_map_ok_ne_error hok)
  | setRecoveryPolicy tid pol =>
    rcases setRecoveryPolicy_ok_or_id tid pol s with hst | ⟨u, hok⟩
    · exact hst
    · exact absurd he (except_map_ok_ne_error hok)
  | removeMember tid mid reason =>
    rcases removeMember_ok_or_id now tid mid reason hwf with hst | ⟨u, hok⟩
    · exact hst
    · exact absurd he (except_map_ok_ne_error hok)
  | restartMember tid mid =>
    rcases restartMember_ok_or_id tid mid s with hst | ⟨u, hok⟩
    · exact hst
    · exact absurd he (except_map_ok_ne_error hok)
  | cleanupTeam tid =>
    rcases cleanupTeam_ok_or_id tid s with hst | ⟨u, hok⟩
    · exact hst
    · exact absurd he (except_map_ok_ne_error hok)
  | pruneTerminated tid =>
    rcases pruneTerminated_ok_or_id tid s with hst | ⟨u, hok⟩
    · exact hst
    · exact absurd he (except_map_ok_ne_error hok)
  | postMessage tid fromM toM text prio =>
    rcases postMessage_ok_or_id now tid fromM toM text prio s with hst | ⟨u, hok⟩
    · exact hst
    · exact absurd he (except_map_ok_ne_error hok)
  | markMessageRead tid mid msg_id =>
    rcases markMessageRead_ok_or_id tid mid msg_id s with hst | ⟨u, hok⟩
    · exact hst
    · exact absurd he (except_map_ok_ne_error hok)

/-- Witness for C5: claiming an already-`InProgress` task fails with
`taskNotPending`, and the state after the failed call is the state before
it. -/
theorem error_leaves_state_unchanged_witness :
    (runOp 7 (Op.claimTask "t" 0 0) exampleState2).2 = exampleState2 :=
  @error_leaves_state_unchanged exampleState2 exampleState2_reachable 7
    (Op.claimTask "t" 0 0) (EngineError.taskNotPending 0) rfl

/-- C1: in every state reachable from the default state through the store's
public operations, every task that is not `InProgress` and not `Done` is
`Blocked` iff some declared dependency is not the id of a `Done` task of the
team, and `Pending` otherwise (`doneTaskIds` collects the ids of the tasks
whose status is `Done`). -/
theorem blocking_invariant_reachable {s : EngineState} (h : Reachable s) :
    ∀ (tid : String) (team : AgentTeam), mapLookup tid s.teams = some team →
      ∀ t ∈ team.tasks, t.status ≠ TaskStatus.inProgress → t.status ≠ TaskStatus.done →
        ((t.status = TaskStatus.blocked ↔ ∃ d ∈ t.deps, d ∉ doneTaskIds team.tasks) ∧
          (t.status = TaskStatus.pending ↔ ∀ d ∈ t.deps, d ∈ doneTaskIds team.tasks)) := by
  intro tid team hlk t ht h1 h2
  have hwt := wf_of_lookup (reachable_wf h) hlk
  have hcons := (wfTeamB_iff.mp hwt).2.2.2.1
  have hc := List.all_eq_true.mp hcons t ht
  unfold taskConsistentB at hc
  have hc2 : t.status =
      (if t.deps.any (fun d => !(doneTaskIds team.tasks).contains d) then TaskStatus.blocked
       else TaskStatus.pending) := by
    simp only [Bool.or_eq_true, beq_iff_eq] at hc
    tauto
  have hany : (t.deps.any (fun d => !(doneTaskIds team.tasks).contains d) = true) ↔
      ∃ d ∈ t.deps, d ∉ doneTaskIds team.tasks := by
    simp [List.any_eq_true]
  constructor
  · constructor
    · intro hb
      by_cases hbany : t.deps.any (fun d => !(doneTaskIds team.tasks).contains d) = true
      · exact hany.mp hbany
      · rw [if_neg hbany] at hc2
        exact absurd (hc2.symm.trans hb) (by decide)
    · intro hex
      rw [if_pos (hany.mpr hex)] at hc2
      exact hc2
  · constructor
    · intro hp d hd
      by_contra hnd
      rw [if_pos (hany.mpr ⟨d, hd, hnd⟩)] at hc2
      exact absurd (hc2.symm.trans hp) (by decide)
    · intro hall
      by_cases hbany : t.deps.any (fun d => !(doneTaskIds team.tasks).contains d) = true
      · obtain ⟨d, hd, hnd⟩ := hany.mp hbany
        exact absurd (hall d hd) hnd
      · rw [if_neg hbany] at hc2
        exact hc2

/-- Witness for C1 on a concrete reachable state: task `B` (dependent on the
not-yet-done task `A`) is `Blocked`, and would be `Pending` exactly if all
its dependencies were done. -/
theorem blocking_invariant_reachable_witness :
    (exampleTaskB.status = TaskStatus.blocked ↔
      ∃ d ∈ exampleTaskB.deps, d ∉ doneTaskIds exampleTeam.tasks) ∧
    (exampleTaskB.status = TaskStatus.pending ↔
      ∀ d ∈ exampleTaskB.deps, d ∈ doneTaskIds exampleTeam.tasks) :=
  blocking_invariant_reachable exampleState_reachable "t" exampleTeam
    exampleState_lookup exampleTaskB (by decide) (by decide) (by decide)

/-- C9: in every reachable state every dependency id of every task refers to
an existing task of the same team, and consequently `refresh_task_blocking`
never fails with its missing-dependency error on any team of a reachable
state. -/
theorem deps_closed_reachable {s : EngineState} (h : Reachable s) :
    ∀ (tid : String) (team : AgentTeam), mapLookup tid s.teams = some team →
      (∀ t ∈ team.tasks, ∀ d ∈ t.deps, ∃ u ∈ team.tasks, u.id = d) ∧
      ∀ now : Nat, (refreshTaskBlocking now team).1 = none := by
  intro tid team hlk
  have hwt := wf_of_lookup (reachable_wf h) hlk
  have hd := (wfTeamB_iff.mp hwt).2.2.1
  refine ⟨depsClosed_iff.mp hd, ?_⟩
  intro now
  rw [refreshTaskBlocking_ok now hd]

/-- Witness for C9 on a concrete reachable state. -/
theorem deps_closed_reachable_witness :
    (∀ t ∈ exampleTeam.tasks, ∀ d ∈ t.deps, ∃ u ∈ exampleTeam.tasks, u.id = d) ∧
    ∀ now : Nat, (refreshTaskBlocking now exampleTeam).1 = none :=
  deps_closed_reachable exampleState_reachable "t" exampleTeam exampleState_lookup

/-- C10: in every reachable state, no two distinct tasks of one team are both
`InProgress` with intersecting normalized (trimmed, ASCII-lowercased,
empty-filtered) touched-file sets — the file-conflict exclusion is an
invariant, not only a claim-time check. -/
theorem no_file_conflict_reachable {s : EngineState} (h : Reachable s) :
    ∀ (tid : String) (team : AgentTeam), mapLookup tid s.teams = some team →
      ∀ (i j : Nat) (a b : TeamTask), i ≠ j →
        team.tasks[i]? = some a → team.tasks[j]? = some b →
        a.status = TaskStatus.inProgress → b.status = TaskStatus.inProgress →
        ∀ f ∈ normFiles a.touched_files, f ∉ normFiles b.touched_files := by
  intro tid team hlk i j a b hij ha hb hsa hsb
  have hwt := wf_of_lookup (reachable_wf h) hlk
  have hn := (wfTeamB_iff.mp hwt).2.2.2.2
  have := noConflictL_iff.mp hn i j a b hij ha hb hsa hsb
  exact filesDisjointB_iff.mp this

/-- Witness for C10 on a concrete reachable state with two claimed tasks:
their normalized touched-file sets are disjoint. -/
theorem no_file_conflict_reachable_witness :
    "a.rs" ∉ normFiles exampleTaskT2.touched_files :=
  no_file_conflict_reachable exampleState2_reachable "t" exampleTeam2
    exampleState2_lookup 0 1 exampleTaskT1 exampleTaskT2 (by decide)
    (by decide) (by decide) (by decide) (by decide) "a.rs" (by decide)

/-- C3: for an existing team, member and task of a well-formed state,
`claim_task` succeeds exactly when the member is `Active`, it is not a lead
of a delegation-only team, its plan gate is satisfied, the task is `Pending`
and the task's normalized touched-file set meets no `InProgress` task's; on
success the task becomes `InProgress` with the member as assignee, and any
failure is reported as an error. -/
theorem claim_task_spec (now : Nat) {team_id : String} {member_id task_id : Nat}
    {s : EngineState} {team : AgentTeam} {member : MemberState} {task : TeamTask}
    (hWF : stateWF s = true)
    (hlk : mapLookup team_id s.teams = some team)
    (hmem : team.members.find? (fun m => m.id == member_id) = some member)
    (htk : task ∈ team.tasks) (hid : task.id = task_id) :
    ((claimTask now team_id member_id task_id s).1 = Except.ok () ↔
        (member.status = MemberStatus.active ∧
         ¬(team.delegation_only = true ∧ member.is_lead = true) ∧
         (member.require_plan_approval = false ∨
           member.plan_status = PlanStatus.approved) ∧
         task.status = TaskStatus.pending ∧
         ∀ other ∈ team.tasks, other.id ≠ task_id →
           other.status = TaskStatus.inProgress →
           ∀ f ∈ normFiles task.touched_files, f ∉ normFiles other.touched_files)) ∧
    ((claimTask now team_id member_id task_id s).1 = Except.ok () →
        ∃ team', mapLookup team_id (claimTask now team_id member_id task_id s).2.teams
            = some team' ∧
          team'.tasks.find? (fun u => u.id == task_id) =
            some (claimedTask member_id now task)) ∧
    ((claimTask now team_id member_id task_id s).1 ≠ Except.ok () →
        ∃ e, (claimTask now team_id member_id task_id s).1 = Except.error e) := by
  subst hid
  have hwfT := wf_of_lookup hWF hlk
  obtain ⟨hs, hb, hd, hc, hn⟩ := wfTeamB_iff.mp hwfT
  obtain ⟨idx, hidx, hfind, hmin⟩ := enumFrom_find?_of_mem hs htk 0
  have hfind0 : team.tasks.enum.find? (fun p => p.2.id == task.id) = some (idx, task) := by
    show List.find? (fun p => p.2.id == task.id) (List.enumFrom 0 team.tasks) =
      some (idx, task)
    rw [hfind, Nat.zero_add]
  have hrefresh : refreshTaskBlocking now team = (none, team) :=
    refreshTaskBlocking_id now hd hc
  unfold claimTask
  rw [hlk]
  dsimp only
  rw [hmem]
  dsimp only
  by_cases hact : member.status = MemberStatus.active
  · have ha : ensureMemberActive member = Except.ok () := by
      unfold ensureMemberActive
      rw [if_neg]
      simp [hact]
    rw [ha]
    dsimp only
    by_cases hdel : (team.delegation_only && member.is_lead) = true
    · have hx : ensureMemberAllowedToExecute team member =
          Except.error EngineError.delegationOnlyLead := by
        unfold ensureMemberAllowedToExecute
        rw [if_pos hdel]
      rw [hx]
      dsimp only
      refine ⟨?_, ?_, ?_⟩
      · constructor
        · intro hco
          exact Except.noConfusion hco
        · rintro ⟨-, h2, -⟩
          exact absurd (by simpa [Bool.and_eq_true] using hdel) h2
      · intro hco
        exact Except.noConfusion hco
      · intro hne
        exact ⟨_, rfl⟩
    · have hx : ensureMemberAllowedToExecute team member = Except.ok () := by
        unfold ensureMemberAllowedToExecute
        rw [if_neg hdel]
      rw [hx]
      dsimp only
      by_cases hpg :
          (member.require_plan_approval && member.plan_status != PlanStatus.approved) = true
      · have hp : ensurePlanGate member =
            Except.error (EngineError.planApprovalRequired member.id) := by
          unfold ensurePlanGate
          rw [if_pos hpg]
        rw [hp]
        dsimp only
        refine ⟨?_, ?_, ?_⟩
        · constructor
          · intro hco
            exact Except.noConfusion hco
          · rintro ⟨-, -, h3, -⟩
            simp only [Bool.and_eq_true] at hpg
            obtain ⟨hr, hps⟩ := hpg
            rcases h3 with h3 | h3
            · rw [h3] at hr
              exact Bool.noConfusion hr
            · rw [h3] at hps
              simp at hps
        · intro hco
          exact Except.noConfusion hco
        · intro hne
          exact ⟨_, rfl⟩
      · have hp : ensurePlanGate member = Except.ok () := by
          unfold ensurePlanGate
          rw [if_neg hpg]
        rw [hp]
        dsimp only
        rw [hrefresh]
        dsimp only
        rw [hfind0]
        dsimp only
        have h3ok : member.require_plan_approval = false ∨
            member.plan_status = PlanStatus.approved := by
          by_cases hr : member.require_plan_approval = true
          · right
            by_contra hps
            exact hpg (by simp [hr, hps])
          · left
            simpa using hr
        have h2ok : ¬(team.delegation_only = true ∧ member.is_lead = true) := by
          rintro ⟨hdo, hlead⟩
          exact hdel (by simp [hdo, hlead])
        by_cases hpend : (task.status != TaskStatus.pending) = true
        · rw [if_pos hpend]
          refine ⟨?_, ?_, ?_⟩
          · constructor
            · intro hco
              exact Except.noConfusion hco
            · rintro ⟨-, -, -, h4, -⟩
              exact absurd h4 (by simpa using hpend)
          · intro hco
            exact Except.noConfusion hco
          · intro hne
            exact ⟨_, rfl⟩
        · rw [if_neg hpend]
          have hpendEq : task.status = TaskStatus.pending := by
            simpa using hpend
          cases hcf : hasFileConflict team idx with
          | error e =>
            rw [hasFileConflict_ok hidx] at hcf
            exact Except.noConfusion hcf
          | ok b =>
            cases b with
            | true =>
              dsimp only
              refine ⟨?_, ?_, ?_⟩
              · constructor
                · intro hco
                  exact Except.noConfusion hco
                · rintro ⟨-, -, -, -, h5⟩
                  have hpos := (conflict_free_id_iff hs hidx).mpr h5
                  have hfalse := (hasFileConflict_false_iff hidx).mpr hpos
                  rw [hcf] at hfalse
                  injection hfalse with hfalse
                  exact Bool.noConfusion hfalse
              · intro hco
                exact Except.noConfusion hco
              · intro hne
                exact ⟨_, rfl⟩
            | false =>
              dsimp only
              refine ⟨?_, ?_, ?_⟩
              · constructor
                · intro _
                  refine ⟨hact, h2ok, h3ok, hpendEq, ?_⟩
                  exact (conflict_free_id_iff hs hidx).mp
                    ((hasFileConflict_false_iff hidx).mp hcf)
                · intro _
                  rfl
              · intro _
                refine ⟨{ team with tasks := team.tasks.set idx (claimedTask member_id now task) },
                  mapLookup_mapSet_self _ hlk, ?_⟩
                exact find?_set_self hidx hmin rfl
              · intro hne
                exact absurd rfl hne
  · have ha : ensureMemberActive member =
        Except.error (EngineError.memberNotActive member.id) := by
      have hbne : (member.status != MemberStatus.active) = true := by
        simpa using hact
      unfold ensureMemberActive
      rw [if_pos hbne]
    rw [ha]
    dsimp only
    refine ⟨?_, ?_, ?_⟩
    · constructor
      · intro hco
        exact Except.noConfusion hco
      · rintro ⟨h1, -⟩
        exact absurd h1 hact
    · intro hco
      exact Except.noConfusion hco
    · intro hne
      exact ⟨_, rfl⟩

/-- Witness for C3: on a concrete state with an active member and a
conflict-free `Pending` task, the claim succeeds. -/
theorem claim_task_spec_witness :
    (claimTask 9 "t" 0 0 exampleState3).1 = Except.ok () :=
  (@claim_task_spec 9 "t" 0 0 exampleState3 exampleTeam3 exampleMemberW exampleTaskP
    (by decide) exampleState3_lookup (by decide) (by decide) (by decide)).1.mpr
    (by decide)

/-- C4: for an existing team, member and task of a well-formed state,
`complete_task` succeeds exactly when the member is `Active`, the task is
`InProgress` and the member is its assignee; a wrong status and a wrong
assignee yield distinct errors; on success the task becomes `Done` and the
task's and the member's counters each grow by exactly the supplied token
counts and by the cost clamped below at zero. -/
theorem complete_task_spec (now : Nat) {team_id : String} {member_id task_id : Nat}
    (input_tokens output_tokens : Nat) (cost_usd : ℚ)
    {s : EngineState} {team : AgentTeam} {member : MemberState} {task : TeamTask}
    (hWF : stateWF s = true)
    (hlk : mapLookup team_id s.teams = some team)
    (hmem : team.members.find? (fun m => m.id == member_id) = some member)
    (htk : task ∈ team.tasks) (hid : task.id = task_id) :
    ((completeTask now team_id member_id task_id input_tokens output_tokens
        cost_usd s).1 = Except.ok () ↔
      (member.status = MemberStatus.active ∧ task.status = TaskStatus.inProgress ∧
        task.assignee = some member_id)) ∧
    ((completeTask now team_id member_id task_id input_tokens output_tokens
        cost_usd s).1 = Except.ok () →
      ∃ team', mapLookup team_id
          (completeTask now team_id member_id task_id input_tokens output_tokens
            cost_usd s).2.teams = some team' ∧
        team'.tasks.find? (fun u => u.id == task_id) = some
          { task with status := TaskStatus.done, updated_at := now,
                      input_tokens := task.input_tokens + input_tokens,
                      output_tokens := task.output_tokens + output_tokens,
                      cost_usd := task.cost_usd + max cost_usd 0 } ∧
        team'.members.find? (fun m => m.id == member_id) = some
          { member with input_tokens := member.input_tokens + input_tokens,
                        output_tokens := member.output_tokens + output_tokens,
                        cost_usd := member.cost_usd + max cost_usd 0 }) ∧
    (member.status = MemberStatus.active → task.status ≠ TaskStatus.inProgress →
      (completeTask now team_id member_id task_id input_tokens output_tokens
        cost_usd s).1 = Except.error (EngineError.taskNotInProgress task_id)) ∧
    (member.status = MemberStatus.active → task.status = TaskStatus.inProgress →
      task.assignee ≠ some member_id →
      (completeTask now team_id member_id task_id input_tokens output_tokens
        cost_usd s).1 = Except.error (EngineError.notAssignee member_id task_id)) := by
  subst hid
  have hwfT := wf_of_lookup hWF hlk
  obtain ⟨hs, hb, hd, hc, hn⟩ := wfTeamB_iff.mp hwfT
  have hfindTk : team.tasks.find? (fun t => t.id == task.id) = some task :=
    find?_of_mem_sorted hs htk
  unfold completeTask
  rw [hlk]
  dsimp only
  rw [hmem]
  dsimp only
  by_cases hact : member.status = MemberStatus.active
  · have ha : ensureMemberActive member = Except.ok () := by
      unfold ensureMemberActive
      rw [if_neg]
      simp [hact]
    rw [ha]
    dsimp only
    rw [hfindTk]
    dsimp only
    by_cases h1 : (task.status != TaskStatus.inProgress) = true
    · rw [if_pos h1]
      have h1ne : task.status ≠ TaskStatus.inProgress := by simpa using h1
      refine ⟨?_, ?_, ?_, ?_⟩
      · constructor
        · intro hco
          exact Except.noConfusion hco
        · rintro ⟨-, h2, -⟩
          exact absurd h2 h1ne
      · intro hco
        exact Except.noConfusion hco
      · intro _ _
        rfl
      · intro _ h2 _
        exact absurd h2 h1ne
    · rw [if_neg h1]
      have h1eq : task.status = TaskStatus.inProgress := by simpa using h1
      by_cases h2 : (task.assignee != some member_id) = true
      · rw [if_pos h2]
        have h2ne : task.assignee ≠ some member_id := by simpa using h2
        refine ⟨?_, ?_, ?_, ?_⟩
        · constructor
          · intro hco
            exact Except.noConfusion hco
          · rintro ⟨-, -, h3⟩
            exact absurd h3 h2ne
        · intro hco
          exact Except.noConfusion hco
        · intro _ hns
          exact absurd h1eq hns
        · intro _ _ _
          rfl
      · rw [if_neg h2]
        have h2eq : task.assignee = some member_id := by simpa using h2
        have hkeys : (updateFirst (fun u => u.id == task.id)
            (fun u => { u with status := TaskStatus.done, updated_at := now,
                               input_tokens := u.input_tokens + input_tokens,
                               output_tokens := u.output_tokens + output_tokens,
                               cost_usd := u.cost_usd + max cost_usd 0 })
              team.tasks).map (fun u => (u.id, u.deps)) =
            team.tasks.map (fun u => (u.id, u.deps)) :=
          updateFirst_map_eq (fun u => u.id == task.id)
            (fun u => { u with status := TaskStatus.done, updated_at := now,
                               input_tokens := u.input_tokens + input_tokens,
                               output_tokens := u.output_tokens + output_tokens,
                               cost_usd := u.cost_usd + max cost_usd 0 })
            (fun u => (u.id, u.deps)) (fun x => rfl) team.tasks
        have hclosed : depsClosedB
            { team with
                tasks := updateFirst (fun u => u.id == task.id)
                  (fun u => { u with status := TaskStatus.done, updated_at := now,
                                     input_tokens := u.input_tokens + input_tokens,
                                     output_tokens := u.output_tokens + output_tokens,
                                     cost_usd := u.cost_usd + max cost_usd 0 })
                    team.tasks,
                members := updateFirst (fun m => m.id == member_id)
                  (fun m => { m with input_tokens := m.input_tokens + input_tokens,
                                     output_tokens := m.output_tokens + output_tokens,
                                     cost_usd := m.cost_usd + max cost_usd 0 })
                    team.members } = true :=
          depsClosedB_of_keys hkeys hd
        rw [refreshTaskBlocking_ok now hclosed]
        dsimp only
        refine ⟨?_, ?_, ?_, ?_⟩
        · exact ⟨fun _ => ⟨hact, h1eq, h2eq⟩, fun _ => rfl⟩
        · intro _
          refine ⟨_, mapLookup_mapSet_self _ hlk, ?_, ?_⟩
          · dsimp only
            rw [find?_id_map_stepOkFn]
            have hupdate := find?_updateFirst (fun (u : TeamTask) => u.id == task.id)
              (fun (u : TeamTask) =>
                { u with status := TaskStatus.done, updated_at := now,
                         input_tokens := u.input_tokens + input_tokens,
                         output_tokens := u.output_tokens + output_tokens,
                         cost_usd := u.cost_usd + max cost_usd 0 })
              hfindTk (by simp)
            rw [hupdate, Option.map_some']
            exact congrArg some (stepOkFn_of_done _ _ rfl)
          · dsimp only
            exact find?_updateFirst (fun (m : MemberState) => m.id == member_id)
              (fun (m : MemberState) =>
                { m with input_tokens := m.input_tokens + input_tokens,
                         output_tokens := m.output_tokens + output_tokens,
                         cost_usd := m.cost_usd + max cost_usd 0 })
              hmem (by simpa using List.find?_some hmem)
        · intro _ hns
          exact absurd h1eq hns
        · intro _ _ hna
          exact absurd h2eq hna
  · have ha : ensureMemberActive member =
        Except.error (EngineError.memberNotActive member.id) := by
      have hbne : (member.status != MemberStatus.active) = true := by
        simpa using hact
      unfold ensureMemberActive
      rw [if_pos hbne]
    rw [ha]
    dsimp only
    refine ⟨?_, ?_, ?_, ?_⟩
    · constructor
      · intro hco
        exact Except.noConfusion hco
      · rintro ⟨ha1, -⟩
        exact absurd ha1 hact
    · intro hco
      exact Except.noConfusion hco
    · intro ha1 _
      exact absurd ha1 hact
    · intro ha1 _ _
      exact absurd ha1 hact

/-- Witness for C4: completing an `InProgress` task by its active assignee
succeeds even with a negative supplied cost. -/
theorem complete_task_spec_witness :
    (completeTask 9 "t" 0 0 5 7 (-1) exampleState2).1 = Except.ok () :=
  (@complete_task_spec 9 "t" 0 0 5 7 (-1) exampleState2 exampleTeam2 exampleMemberW
    exampleTaskT1 (by decide) exampleState2_lookup (by decide) (by decide)
    (by decide)).1.mpr (by decide)

/-- C8: for an existing team and member of a well-formed state that passes
the member-level gates, `auto_claim_next_task` either reports `none`
available (error-free, state unchanged) because every `Pending` task has a
touched-file conflict, or claims exactly the `Pending`, conflict-free task
with the smallest id: it becomes `InProgress` with the member as assignee
and its id is returned. -/
theorem auto_claim_spec (now : Nat) {team_id : String} {member_id : Nat}
    {s : EngineState} {team : AgentTeam} {member : MemberState}
    (hWF : stateWF s = true)
    (hlk : mapLookup team_id s.teams = some team)
    (hmem : team.members.find? (fun m => m.id == member_id) = some member)
    (hact : member.status = MemberStatus.active)
    (hexec : ¬(team.delegation_only = true ∧ member.is_lead = true))
    (hplan : member.require_plan_approval = false ∨
      member.plan_status = PlanStatus.approved) :
    ((autoClaimNextTask now team_id member_id s).1 = Except.ok none ∧
      (autoClaimNextTask now team_id member_id s).2 = s ∧
      ∀ t ∈ team.tasks, t.status = TaskStatus.pending →
        ∃ other ∈ team.tasks, other.id ≠ t.id ∧
          other.status = TaskStatus.inProgress ∧
          ∃ f ∈ normFiles t.touched_files, f ∈ normFiles other.touched_files) ∨
    (∃ t ∈ team.tasks, t.status = TaskStatus.pending ∧
      (∀ other ∈ team.tasks, other.id ≠ t.id →
        other.status = TaskStatus.inProgress →
        ∀ f ∈ normFiles t.touched_files, f ∉ normFiles other.touched_files) ∧
      (∀ u ∈ team.tasks, u.id < t.id → u.status = TaskStatus.pending →
        ∃ other ∈ team.tasks, other.id ≠ u.id ∧
          other.status = TaskStatus.inProgress ∧
          ∃ f ∈ normFiles u.touched_files, f ∈ normFiles other.touched_files) ∧
      (autoClaimNextTask now team_id member_id s).1 = Except.ok (some t.id) ∧
      ∃ team', mapLookup team_id (autoClaimNextTask now team_id member_id s).2.teams
          = some team' ∧
        team'.tasks.find? (fun u => u.id == t.id) =
          some (claimedTask member_id now t)) := by
  have hwfT := wf_of_lookup hWF hlk
  obtain ⟨hs, hb, hd, hcons, hn⟩ := wfTeamB_iff.mp hwfT
  have ha : ensureMemberActive member = Except.ok () := by
    unfold ensureMemberActive
    rw [if_neg]
    simp [hact]
  have hx : ensureMemberAllowedToExecute team member = Except.ok () := by
    unfold ensureMemberAllowedToExecute
    rw [if_neg]
    intro hco
    simp only [Bool.and_eq_true] at hco
    exact hexec hco
  have hpg : ensurePlanGate member = Except.ok () := by
    unfold ensurePlanGate
    rw [if_neg]
    intro hco
    simp only [Bool.and_eq_true] at hco
    rcases hplan with h | h
    · rw [h] at hco
      exact Bool.noConfusion hco.1
    · rw [h] at hco
      have := hco.2
      simp at this
  unfold autoClaimNextTask
  rw [hlk]
  dsimp only
  rw [hmem]
  dsimp only
  rw [ha]
  dsimp only
  rw [hx]
  dsimp only
  rw [hpg]
  dsimp only
  rw [refreshTaskBlocking_id now hd hcons]
  dsimp only
  rcases autoClaimScan_spec now member_id team team.tasks.length 0 (by omega) with
    ⟨hok, hnone⟩ | ⟨j, t, hj0, hjel, hpend, hcfree, hmin, hclaim⟩
  · rw [hok]
    dsimp only
    left
    refine ⟨rfl, state_set_self hWF hlk, ?_⟩
    intro t ht hpendT
    obtain ⟨j, hj⟩ := List.mem_iff_getElem?.mp ht
    exact pending_conflict_of_not_claimable hs hj
      (hnone j t (Nat.zero_le j) hj) hpendT
  · rw [hclaim]
    dsimp only
    right
    refine ⟨t, List.mem_iff_getElem?.mpr ⟨j, hjel⟩, hpend, ?_, ?_, rfl, ?_⟩
    · exact (conflict_free_id_iff hs hjel).mp
        ((hasFileConflict_false_iff hjel).mp hcfree)
    · intro u hu hult hupend
      obtain ⟨j', hj'lt, hj'el⟩ := sorted_id_lt_index hs hjel hu hult
      exact pending_conflict_of_not_claimable hs hj'el
        (hmin j' u (Nat.zero_le j') hj'lt hj'el) hupend
    · refine ⟨_, mapLookup_mapSet_self _ hlk, ?_⟩
      dsimp only
      exact find?_set_self hjel
        (fun k b hk hb => sorted_ids_distinct hs (by omega) hb hjel) rfl

/-- Witness for C8: on a concrete state with one member and one claimable
`Pending` task, the auto-claim returns that task's id. -/
theorem auto_claim_spec_witness :
    (autoClaimNextTask 9 "t" 0 exampleState3).1 = Except.ok (some 0) := by
  rcases @auto_claim_spec 9 "t" 0 exampleState3 exampleTeam3 exampleMemberW
      (by decide) exampleState3_lookup (by decide) (by decide) (by decide)
      (by decide) with
    ⟨h1, -, -⟩ | ⟨t, ht, -, -, -, h5, -⟩
  · have hval : (autoClaimNextTask 9 "t" 0 exampleState3).1 =
        Except.ok (some 0) := rfl
    rw [hval] at h1
    injection h1 with h1
  · have hteq : t = exampleTaskP := by
      simpa [exampleTeam3] using ht
    rw [h5, hteq]
    rfl

/-- C2 (amended): after a successful `remove_member` on a well-formed state,
`Done` tasks are untouched and every task that was assigned to the removed
member and not `Done` has its assignee cleared; but its final status is not
chosen by the recovery policy, as the claim says: the closing
`refresh_task_blocking` pass overrides the policy's intermediate value, so
whatever the policy, the task ends `Blocked` iff some declared dependency is
not `Done`, and `Pending` otherwise. -/
theorem remove_member_spec (now : Nat) {team_id : String} {member_id : Nat}
    (reason : String) {s : EngineState} {team : AgentTeam} {member : MemberState}
    (hWF : stateWF s = true)
    (hlk : mapLookup team_id s.teams = some team)
    (hmem : team.members.find? (fun m => m.id == member_id) = some member) :
    (removeMember now team_id member_id reason s).1 = Except.ok () ∧
    ∃ team', mapLookup team_id (removeMember now team_id member_id reason s).2.teams
        = some team' ∧
      team'.recovery_policy = team.recovery_policy ∧
      (∀ (j : Nat) (task : TeamTask), team.tasks[j]? = some task →
        task.status = TaskStatus.done → team'.tasks[j]? = some task) ∧
      (∀ (j : Nat) (task : TeamTask), team.tasks[j]? = some task →
        task.assignee = some member_id → task.status ≠ TaskStatus.done →
        ∃ task', team'.tasks[j]? = some task' ∧ task'.assignee = none ∧
          (task'.status = TaskStatus.blocked ↔
            ∃ d ∈ task.deps, d ∉ doneTaskIds team.tasks) ∧
          (task'.status = TaskStatus.pending ↔
            ∀ d ∈ task.deps, d ∈ doneTaskIds team.tasks)) := by
  have hwfT := wf_of_lookup hWF hlk
  obtain ⟨hsrt, hbnd, hdep, hcons, hncf⟩ := wfTeamB_iff.mp hwfT
  unfold removeMember
  rw [hlk]
  dsimp only
  rw [hmem]
  dsimp only
  have hkeys : (team.tasks.map (fun t =>
      if t.assignee == some member_id && t.status != TaskStatus.done then
        { t with assignee := none, updated_at := now,
                 status := match team.recovery_policy with
                   | RecoveryPolicy.autoReassign => TaskStatus.pending
                   | RecoveryPolicy.manual => TaskStatus.blocked }
      else t)).map (fun u => (u.id, u.deps)) =
      team.tasks.map (fun u => (u.id, u.deps)) := by
    rw [List.map_map]
    apply List.map_congr_left
    intro t _
    dsimp only [Function.comp]
    by_cases hc : (t.assignee == some member_id && t.status != TaskStatus.done) = true
    · rw [if_pos hc]
    · rw [if_neg hc]
  have hclosed : depsClosedB
      { team with
          members := updateFirst (fun m => m.id == member_id)
            (fun m => { m with status := MemberStatus.terminated,
                               terminated_at := some now,
                               termination_reason := some reason }) team.members,
          tasks := team.tasks.map (fun t =>
            if t.assignee == some member_id && t.status != TaskStatus.done then
              { t with assignee := none, updated_at := now,
                       status := match team.recovery_policy with
                         | RecoveryPolicy.autoReassign => TaskStatus.pending
                         | RecoveryPolicy.manual => TaskStatus.blocked }
            else t) } = true :=
    depsClosedB_of_keys hkeys hdep
  rw [refreshTaskBlocking_ok now hclosed]
  dsimp only
  generalize hG : (fun (t : TeamTask) =>
      if t.assignee == some member_id && t.status != TaskStatus.done then
        { t with assignee := none, updated_at := now,
                 status := match team.recovery_policy with
                   | RecoveryPolicy.autoReassign => TaskStatus.pending
                   | RecoveryPolicy.manual => TaskStatus.blocked }
      else t) = g
  have hgdone : ∀ t : TeamTask, t.status = TaskStatus.done → g t = t := by
    intro t ht
    rw [← hG]
    dsimp only
    rw [if_neg (by simp [ht])]
  have hgaff : ∀ t : TeamTask, t.assignee = some member_id →
      t.status ≠ TaskStatus.done →
      g t = { t with assignee := none, updated_at := now,
                     status := match team.recovery_policy with
                       | RecoveryPolicy.autoReassign => TaskStatus.pending
                       | RecoveryPolicy.manual => TaskStatus.blocked } := by
    intro t h1 h2
    rw [← hG]
    dsimp only
    rw [if_pos (by simp [h1, h2])]
  have hgnd : ∀ t : TeamTask, t.status ≠ TaskStatus.done →
      (g t).status ≠ TaskStatus.done := by
    intro t ht
    by_cases hc : (t.assignee == some member_id && t.status != TaskStatus.done) = true
    · rw [← hG]
      dsimp only
      rw [if_pos hc]
      cases team.recovery_policy <;> exact fun hco => TaskStatus.noConfusion hco
    · rw [← hG]
      dsimp only
      rw [if_neg hc]
      exact ht
  have hgd : doneTaskIds (team.tasks.map g) = doneTaskIds team.tasks :=
    doneTaskIds_map_of g hgdone hgnd team.tasks
  refine ⟨rfl, _, mapLookup_mapSet_self _ hlk, rfl, ?_, ?_⟩
  · intro j task hj ht
    dsimp only
    rw [List.getElem?_map, List.getElem?_map, hj]
    simp only [Option.map_some']
    rw [hgdone task ht]
    exact congrArg some (stepOkFn_of_done _ _ ht)
  · intro j task hj h1 h2
    have hgt := hgaff task h1 h2
    refine ⟨stepOkFn now (doneTaskIds (List.map g team.tasks)) (g task), ?_, ?_, ?_, ?_⟩
    · dsimp only
      rw [List.getElem?_map, List.getElem?_map, hj]
      rfl
    · rw [stepOkFn_assignee, hgt]
    · rw [hgd]
      have h3 : (g task).status ≠ TaskStatus.inProgress := by
        rw [hgt]
        cases team.recovery_policy <;> exact fun hco => TaskStatus.noConfusion hco
      have h4 : (g task).status ≠ TaskStatus.done := hgnd task h2
      have hdeps : (g task).deps = task.deps := by
        rw [hgt]
      rw [← hdeps]
      exact (removed_task_status now (doneTaskIds team.tasks) h3 h4).1
    · rw [hgd]
      have h3 : (g task).status ≠ TaskStatus.inProgress := by
        rw [hgt]
        cases team.recovery_policy <;> exact fun hco => TaskStatus.noConfusion hco
      have h4 : (g task).status ≠ TaskStatus.done := hgnd task h2
      have hdeps : (g task).deps = task.deps := by
        rw [hgt]
      rw [← hdeps]
      exact (removed_task_status now (doneTaskIds team.tasks) h3 h4).2

/-- Witness for C2 (amended): removing the assignee succeeds on the concrete
`Manual`-policy state. -/
theorem remove_member_spec_witness :
    (removeMember 6 "t" 0 "gone" exampleState4).1 = Except.ok () :=
  (@remove_member_spec 6 "t" 0 "gone" exampleState4 exampleTeam4 exampleMemberW
    (by decide) exampleState4_lookup (by decide)).1

/-- Counterexample to C2 as stated: on a `Manual`-policy team, removing the
member a no-dependency task was assigned to ends with that task `Pending`,
not `Blocked` — the final refresh pass overrides the `Manual → Blocked`
assignment because every declared dependency (there are none) is done. -/
theorem remove_member_manual_counterexample :
    exampleState4.teams.map (fun p => (p.1, p.2.recovery_policy,
        p.2.tasks.map (fun t => (t.id, t.status, t.assignee)))) =
      [("t", RecoveryPolicy.manual, [(0, TaskStatus.inProgress, some 0)])] ∧
    (runOp 6 (Op.removeMember "t" 0 "gone") exampleState4).1 =
      Except.ok RetVal.unit ∧
    (applyOp 6 (Op.removeMember "t" 0 "gone") exampleState4).teams.map
        (fun p => (p.1, p.2.recovery_policy,
          p.2.tasks.map (fun t => (t.id, t.status, t.assignee)))) =
      [("t", RecoveryPolicy.manual, [(0, TaskStatus.pending, none)])] ∧
    TaskStatus.pending ≠ TaskStatus.blocked :=
  ⟨rfl, rfl, rfl, by decide⟩

/-- C6: for every reachable engine state, serializing the aggregate root to
its JSON document (`save`) and deserializing that document back
(`load_or_default`'s parse) yields exactly the original state —
the persist/reload round-trip is the identity. -/
theorem save_load_roundtrip {s : EngineState} (_h : Reachable s) :
    decodeEngineState (encodeEngineState s) = some s :=
  decodeEngineState_encode s

/-- Witness for C6 on a concrete reachable state with a team, a member,
claimed tasks and touched files. -/
theorem save_load_roundtrip_witness :
    decodeEngineState (encodeEngineState exampleState2) = some exampleState2 :=
  save_load_roundtrip exampleState2_reachable

/-- C7: the per-connection loop writes a response that is computed before
`guard.save()` and never consults the save result: a `team_create` request
handled while the persistence write fails is still answered with
`ok = true`, and the whole response is identical whether the save succeeded
or failed — the claim that the response must not report success on a failed
persistence write does not hold of the code. -/
theorem save_failure_reports_success :
    ((handleRequest 1 false (ServerRequest.teamCreate "t" TeamDisplayMode.auto false)
        EngineState.default).1).ok = true ∧
    ∀ saveOk : Bool,
      handleRequest 1 saveOk (ServerRequest.teamCreate "t" TeamDisplayMode.auto false)
          EngineState.default =
        handleRequest 1 true (ServerRequest.teamCreate "t" TeamDisplayMode.auto false)
          EngineState.default :=
  ⟨rfl, fun _ => rfl⟩

end OrchestraTerm
